import Mathlib

/-!
# d20 web server: request framing, the session step and longest-prefix routing

A shallow embedding of `http_helper.cc`, `http_request.cc`, `http_response.cc`,
`session.cc`, `path_router.cc`, `handler_factory.cc`, `mock_filesystem.cc`,
`crud_handler.cc`, `server_config.cc` and `file_handler.cc`.  Byte strings (`std::string`) are lists of
characters; every statement proved for all such lists holds for all byte strings.
-/

namespace D20

/-! ## Framing helpers (`http_helper.cc`) -/

/-- A `std::string`, as the list of its bytes. -/
abbrev Bytes := List Char

/-- The header terminator `"\r\n\r\n"`. -/
def CRLFCRLF : Bytes := ['\r', '\n', '\r', '\n']

/-- The alternate terminator `"\n\n"`. -/
def LFLF : Bytes := ['\n', '\n']

/-- The search `s.find(needle)`: the first position at which `needle` occurs in `s`,
`none` standing for `npos`. -/
def find (s needle : Bytes) : Option Nat :=
  if needle.isPrefixOf s then some 0 else
  match s with
  | [] => none
  | _ :: cs => (find cs needle).map (· + 1)

/-- The enumeration `MalformedType` of `http_helper.h`. -/
inductive MalformedType where
  | None
  | Empty
  | NoHeaderTerminator
  deriving DecidableEq, Repr

/-- `detect_http_request`. -/
def detect_http_request (buffer : Bytes) : Bool :=
  (find buffer CRLFCRLF).isSome || (find buffer LFLF).isSome

/-- `check_malformed_request`. -/
def check_malformed_request (buffer : Bytes) : MalformedType :=
  if buffer.isEmpty then MalformedType.Empty
  else if (find buffer CRLFCRLF).isNone then MalformedType.NoHeaderTerminator
  else MalformedType.None

/-- The value `std::string::npos` on a 64-bit target. -/
def npos : Nat := 2 ^ 64 - 1

/-- The subtraction of two `size_t` values, wrapping modulo `2 ^ 64` on underflow. -/
def size_t_sub (a b : Nat) : Nat := if b ≤ a then a - b else 2 ^ 64 - (b - a)

/-- The byte-wise order of `std::string` (`operator<`), comparing bytes as unsigned values. -/
def bytesLt : Bytes → Bytes → Bool
  | [], [] => false
  | [], _ :: _ => true
  | _ :: _, [] => false
  | a :: as, b :: bs =>
    if a.toNat < b.toNat then true
    else if b.toNat < a.toNat then false
    else bytesLt as bs

/-- A `std::map<std::string, V>`: the entries in ascending key order. -/
abbrev StdMap (V : Type) := List (Bytes × V)

/-- The assignment `m[k] = v` of `std::map`: replaces the value of an existing key,
otherwise inserts the entry at its place in key order. -/
def mapInsert {V : Type} (k : Bytes) (v : V) : StdMap V → StdMap V
  | [] => [(k, v)]
  | (k', v') :: rest =>
    if k = k' then (k, v) :: rest
    else if bytesLt k k' then (k, v) :: (k', v') :: rest
    else (k', v') :: mapInsert k v rest

/-- The lookup `m.find(k)` of `std::map`: the value stored under `k`, if any. -/
def mapFind {V : Type} (k : Bytes) : StdMap V → Option V
  | [] => none
  | (k', v') :: rest => if k = k' then some v' else mapFind k rest

/-- The result of `std::to_string` on an unsigned value. -/
def to_string_nat (n : Nat) : Bytes := Nat.toDigits 10 n

/-- The result of `std::to_string` on an `int`. -/
def to_string_int (i : Int) : Bytes :=
  if i < 0 then '-' :: Nat.toDigits 10 i.natAbs else Nat.toDigits 10 i.natAbs

/-! ## HttpResponse (`http_response.cc`) -/

/-- The data members of `HttpResponse`. -/
structure HttpResponse where
  version : Bytes
  status_code : Int
  reason_phrase : Bytes
  headers_map : StdMap Bytes
  message_body : Bytes
  deriving DecidableEq

namespace HttpResponse

/-- `HttpResponse::set_header`. -/
def set_header (r : HttpResponse) (k v : Bytes) : HttpResponse :=
  { r with headers_map := mapInsert k v r.headers_map }

/-- The five-argument constructor `HttpResponse(v, sc, rp, hm, mb)`. -/
def mk5 (v : Bytes) (sc : Int) (rp : Bytes) (hm : StdMap Bytes) (mb : Bytes) : HttpResponse :=
  set_header
    { version := v, status_code := sc, reason_phrase := rp, headers_map := hm,
      message_body := mb }
    "Content-Length".toList (to_string_nat mb.length)

/-- `HttpResponse::get_header`: the stored value, or the empty string. -/
def get_header (r : HttpResponse) (header_name : Bytes) : Bytes :=
  (mapFind header_name r.headers_map).getD []

/-- `HttpResponse::convert_to_string`. -/
def convert_to_string (r : HttpResponse) : Bytes :=
  let status_line := r.version ++ " ".toList ++ to_string_int r.status_code
    ++ " ".toList ++ r.reason_phrase ++ "\r\n".toList
  let headers_str := r.headers_map.foldl
    (fun acc kv => acc ++ (kv.1 ++ ": ".toList ++ kv.2 ++ "\r\n".toList)) []
  status_line ++ headers_str ++ "\r\n".toList ++ r.message_body

end HttpResponse

/-! ## HttpRequest (`http_request.cc`) -/

/-- The data members of `HttpRequest`; a default-constructed request has them all empty. -/
structure HttpRequest where
  method_ : Bytes := []
  path_ : Bytes := []
  base_path_ : Bytes := []
  version_ : Bytes := []
  body_ : Bytes := []
  headers_ : StdMap Bytes := []
  raw_request_ : Bytes := []
  query_params_ : StdMap Bytes := []
  deriving DecidableEq

/-- The whitespace test `std::isspace` in the "C" locale, used by `operator>>` and
by `strtoull`. -/
def isspace (c : Char) : Bool :=
  c == ' ' || c == '\t' || c == '\n' || c == '\x0b' || c == '\x0c' || c == '\r'

/-- One extraction `stream >> token` on the remaining bytes of an `istringstream`:
leading whitespace is skipped, then the bytes up to the next whitespace (or the end)
form the token.  The extraction fails (`none`) when no byte is left for the token. -/
def read_token (stream : Bytes) : Option (Bytes × Bytes) :=
  let s := stream.dropWhile isspace
  if s.isEmpty then none
  else some (s.takeWhile (fun c => !isspace c), s.dropWhile (fun c => !isspace c))

/-- The successive results of `std::getline(stream, line, delim)` until it fails: each
call takes the bytes up to the next delimiter (which is consumed and dropped) or to
the end, and fails once no byte is left. -/
def getlines (delim : Char) : Bytes → List Bytes
  | [] => []
  | c :: cs =>
    if c = delim then [] :: getlines delim cs
    else
      match getlines delim cs with
      | [] => [[c]]
      | l :: ls => (c :: l) :: ls

/-- The search `str.find_first_not_of(set)`. -/
def find_first_not_of (set : Bytes) : Bytes → Option Nat
  | [] => none
  | c :: cs => if set.contains c then (find_first_not_of set cs).map (· + 1) else some 0

/-- The search `str.find_last_not_of(set)`. -/
def find_last_not_of (set : Bytes) : Bytes → Option Nat
  | [] => none
  | c :: cs =>
    match find_last_not_of set cs with
    | some i => some (i + 1)
    | none => if set.contains c then none else some 0

/-- `HttpRequest::trim`. -/
def trim (str : Bytes) : Bytes :=
  match find_first_not_of " \t\r\n".toList str with
  | none => []
  | some start =>
    match find_last_not_of " \t\r\n".toList str with
    | some e => (str.drop start).take (e - start + 1)
    | none => str.drop start

/-- The function `std::tolower` in the "C" locale. -/
def tolower (c : Char) : Char :=
  if 'A'.toNat ≤ c.toNat ∧ c.toNat ≤ 'Z'.toNat then Char.ofNat (c.toNat + 32) else c

/-- `HttpRequest::to_lower`. -/
def to_lower (str : Bytes) : Bytes := str.map tolower

namespace HttpRequest

/-- `HttpRequest::parse_path_and_query`. -/
def parse_path_and_query (r : HttpRequest) : HttpRequest :=
  match find r.path_ ['?'] with
  | none => { r with base_path_ := r.path_ }
  | some query_pos =>
    let query_string := r.path_.drop (query_pos + 1)
    let params := (getlines '&' query_string).foldl
      (fun m pair =>
        match find pair ['='] with
        | some equals_pos => mapInsert (pair.take equals_pos) (pair.drop (equals_pos + 1)) m
        | none => m)
      r.query_params_
    { r with base_path_ := r.path_.take query_pos, query_params_ := params }

/-- The removal of one trailing `\r` from a header line. -/
def strip_cr (line : Bytes) : Bytes :=
  if line.getLast? = some '\r' then line.dropLast else line

/-- The body of the header loop of `parse` for one non-empty line. -/
def parse_header_line (headers : StdMap Bytes) (line : Bytes) : StdMap Bytes :=
  match find line [':'] with
  | some colon_pos =>
    mapInsert (line.take colon_pos) (trim (line.drop (colon_pos + 1))) headers
  | none => headers

/-- The header loop of `parse` over the lines still in the stream: it stops after the
first empty line and returns the headers with the lines left for the body. -/
def parse_headers : List Bytes → StdMap Bytes → StdMap Bytes × List Bytes
  | [], headers => (headers, [])
  | line :: rest, headers =>
    if (strip_cr line).isEmpty then (headers, rest)
    else parse_headers rest (parse_header_line headers (strip_cr line))

/-- The body loop of `parse`: every remaining line followed by `\n`, and one trailing
`\n` removed. -/
def parse_body (lines : List Bytes) : Bytes :=
  let body_content := lines.foldl (fun acc line => acc ++ line ++ ['\n']) []
  if body_content.getLast? = some '\n' then body_content.dropLast else body_content

/-- `HttpRequest::parse`. -/
def parse (raw_request : Bytes) : HttpRequest :=
  let invalid : HttpRequest := { raw_request_ := raw_request }
  match read_token raw_request with
  | none => invalid
  | some (method, s1) =>
    match read_token s1 with
    | none => invalid
    | some (path, s2) =>
      match read_token s2 with
      | none => invalid
      | some (version, s3) =>
        let request := parse_path_and_query
          { method_ := method, path_ := path, version_ := version,
            raw_request_ := raw_request }
        let lines := (getlines '\n' s3).drop 1
        let (headers, rest) := parse_headers lines []
        { request with headers_ := headers, body_ := parse_body rest }

/-- `HttpRequest::get_header`: the first entry, in key order, whose name equals `name`
up to letter case. -/
def get_header (r : HttpRequest) (name : Bytes) : Option Bytes :=
  (r.headers_.find? (fun kv => to_lower kv.1 == to_lower name)).map Prod.snd

/-- `HttpRequest::is_valid`. -/
def is_valid (r : HttpRequest) : Bool :=
  if r.method_.isEmpty || r.path_.isEmpty || r.version_.isEmpty then false
  else if r.version_ != "HTTP/1.1".toList then false
  else if !(["GET".toList, "POST".toList, "PUT".toList, "DELETE".toList].contains r.method_) then
    false
  else if r.path_.head? != some '/' then false
  else if (find r.path_ [' ']).isSome then false
  else if (find r.raw_request_ CRLFCRLF).isNone then false
  else true

end HttpRequest

/-- The conversion `std::stoull(str)` (base 10, as `strtoull`): leading whitespace is
skipped, one sign is accepted, then the longest run of decimal digits is read.  The
result is `none` when the call throws: `std::invalid_argument` without a digit,
`std::out_of_range` when the digits exceed `2 ^ 64 - 1`.  A minus sign negates the
value modulo `2 ^ 64`. -/
def stoull (str : Bytes) : Option Nat :=
  let s := str.dropWhile isspace
  let negative := s.head? == some '-'
  let s := if s.head? == some '-' || s.head? == some '+' then s.drop 1 else s
  let digits := s.takeWhile Char.isDigit
  if digits.isEmpty then none
  else
    let value := digits.foldl (fun acc d => acc * 10 + (d.toNat - '0'.toNat)) 0
    if 2 ^ 64 ≤ value then none
    else some (if negative then (2 ^ 64 - value) % 2 ^ 64 else value)

/-! ## Handlers and the session (`request_handler.h`, `session.cc`) -/

/-- A `RequestHandler` object: its `handle_request` and its `get_handler_name`. -/
structure RequestHandler where
  handle_request : HttpRequest → HttpResponse
  get_handler_name : Bytes

/-- An asynchronous operation issued on the socket. -/
inductive Op where
  | async_read_some
  | async_write (response_str : Bytes)
  deriving DecidableEq

/-- The state of a `Session` between two completions: the accumulation buffer. -/
structure Session where
  buffer_ : Bytes
  deriving DecidableEq

/-- The 400 response built in `handle_read`, with the given message body. -/
def bad_request (message_body : Bytes) : HttpResponse :=
  HttpResponse.mk5 "HTTP/1.1".toList 400 "Bad Request".toList
    (mapInsert "Content-Type".toList "text/plain".toList []) message_body

/-- The fallback response of `handle_read` when the router returns a null handler. -/
def fallback_404 : HttpResponse :=
  HttpResponse.mk5 "HTTP/1.1".toList 404 "Not Found".toList
    (mapInsert "Content-Type".toList "text/html".toList []) "<h1>404 Not Found</h1>".toList

/-- The response of `handle_read` to a request that passed the validity check: the
matched handler answers, a null handler gives the fallback 404. -/
def dispatch (match_handler : Bytes → Option RequestHandler) (request : HttpRequest) :
    HttpResponse :=
  match match_handler request.path_ with
  | some handler => handler.handle_request request
  | none => fallback_404

/-- The tail of `Session::handle_read` once the body is complete: validation, routing,
the handler call, the write of the response and the reset of the buffer. -/
def validate_and_answer (match_handler : Bytes → Option RequestHandler)
    (request : HttpRequest) : Session × List Op :=
  if !request.is_valid then
    (⟨[]⟩, [Op.async_write (bad_request "Malformed HTTP request".toList).convert_to_string])
  else
    (⟨[]⟩, [Op.async_write (dispatch match_handler request).convert_to_string])

/-- `Session::handle_read`, as a step from the session state, the error flag and the
received bytes (`data_[0 .. bytes_transferred)`) to the new state and the operations
issued.  The router is a parameter; logging is left out. -/
def handle_read (match_handler : Bytes → Option RequestHandler) (s : Session)
    (error : Bool) (data : Bytes) : Session × List Op :=
  if error then (s, [])
  else
    let buffer_ := s.buffer_ ++ data
    if check_malformed_request buffer_ != MalformedType.None then
      (⟨[]⟩, [Op.async_write (bad_request "Malformed HTTP request".toList).convert_to_string])
    else if detect_http_request buffer_ then
      let request := HttpRequest.parse buffer_
      match request.get_header "Content-Length".toList with
      | some value =>
        match stoull value with
        | none =>
          (⟨[]⟩,
            [Op.async_write
              (bad_request "Invalid Content-Length header".toList).convert_to_string])
        | some content_length =>
          let header_end := (find buffer_ CRLFCRLF).getD ((find buffer_ LFLF).getD npos)
          let body_start :=
            if (find buffer_ CRLFCRLF).isSome then (header_end + 4) % 2 ^ 64
            else (header_end + 2) % 2 ^ 64
          let body_received := size_t_sub buffer_.length body_start
          if body_received < content_length then (⟨buffer_⟩, [Op.async_read_some])
          else validate_and_answer match_handler request
      | none => validate_and_answer match_handler request
    else (⟨buffer_⟩, [Op.async_read_some])

/-- `Session::handle_write`: without an error the next read is issued. -/
def handle_write (error : Bool) : List Op :=
  if error then [] else [Op.async_read_some]

/-- The responses written on one connection while the given chunks are received, one
chunk per completed read starting from state `s`.  After a write completes,
`handle_write` issues the read that receives the next chunk; a step that issues no
operation ends the connection. -/
def run (match_handler : Bytes → Option RequestHandler) :
    Session → List Bytes → List Bytes
  | _, [] => []
  | s, chunk :: rest =>
    match handle_read match_handler s false chunk with
    | (s', [Op.async_read_some]) => run match_handler s' rest
    | (s', [Op.async_write response_str]) =>
      if handle_write false = [Op.async_read_some] then
        response_str :: run match_handler s' rest
      else [response_str]
    | _ => []

/-- `EchoHandler` (`echo_handler.cc`): the raw request is sent back as the body. -/
def EchoHandler : RequestHandler where
  handle_request := fun request =>
    HttpResponse.mk5 "HTTP/1.1".toList 200 "OK".toList
      (mapInsert "Content-Type".toList "text/plain".toList []) request.raw_request_
  get_handler_name := "EchoHandler".toList

/-! ## PathRouter (`path_router.cc`) -/

/-- The struct `HandlerConfig` of `server_config.h`. -/
structure HandlerConfig where
  type : Bytes := []
  settings : StdMap Bytes := []
  deriving DecidableEq

/-- The conversion of a `size_t` to `int` (the assignment `max_len = route_path.length()`). -/
def to_int (n : Nat) : Int :=
  if n % 2 ^ 32 < 2 ^ 31 then (n % 2 ^ 32 : Nat) else (n % 2 ^ 32 : Nat) - 2 ^ 32

/-- The conversion of an `int` to `size_t` (in the comparison
`route_path.length() > max_len`). -/
def to_size_t (i : Int) : Nat := (i % 2 ^ 64).toNat

/-- The loop variables of `PathRouter::match_handler`. -/
structure MatchState where
  prefix_match : Bytes
  max_len : Int
  deriving DecidableEq

/-- One iteration of the loop of `match_handler` for the entry with key `route_path`. -/
def match_step (path : Bytes) (st : MatchState) (route_path : Bytes) : MatchState :=
  if route_path.isPrefixOf path then
    if route_path.length > to_size_t st.max_len then
      { prefix_match := route_path, max_len := to_int route_path.length }
    else st
  else st

/-- The loop of `match_handler` over the route table in key order. -/
def match_loop {V : Type} (routes_ : StdMap V) (path : Bytes) : MatchState :=
  routes_.foldl (fun st entry => match_step path st entry.1) { prefix_match := [], max_len := 0 }

/-- The configuration synthesized by `match_handler` when no route matches. -/
def not_found_config : HandlerConfig := { type := "NotFoundHandler".toList }

/-- `PathRouter::match_handler`, with `HandlerFactory::create_handler` as the parameter
`create_handler`.  The result is `none` when `routes_.at` throws. -/
def match_handler {H : Type} (create_handler : HandlerConfig → Bytes → H)
    (routes_ : StdMap HandlerConfig) (path : Bytes) : Option H :=
  let prefix_match := (match_loop routes_ path).prefix_match
  if !prefix_match.isEmpty then
    match mapFind prefix_match routes_ with
    | some handler => some (create_handler handler prefix_match)
    | none => none
  else some (create_handler not_found_config path)

/-! ## More of HttpResponse (`http_response.cc`) -/

/-- The default constructor `HttpResponse()`.  The member `status_code` is left
uninitialized by the source; its value is the parameter `sc`. -/
def HttpResponse.mk0 (sc : Int) : HttpResponse :=
  { version := "HTTP/1.1".toList, status_code := sc, reason_phrase := [],
    headers_map := [("Content-Length".toList, "0".toList)], message_body := [] }

/-- `HttpResponse::set_version`. -/
def HttpResponse.set_version (r : HttpResponse) (v : Bytes) : HttpResponse :=
  { r with version := v }

/-- `HttpResponse::set_status_code`. -/
def HttpResponse.set_status_code (r : HttpResponse) (sc : Int) : HttpResponse :=
  { r with status_code := sc }

/-- `HttpResponse::set_reason_phrase`. -/
def HttpResponse.set_reason_phrase (r : HttpResponse) (rp : Bytes) : HttpResponse :=
  { r with reason_phrase := rp }

/-- `HttpResponse::set_message_body`. -/
def HttpResponse.set_message_body (r : HttpResponse) (mb : Bytes) : HttpResponse :=
  HttpResponse.set_header { r with message_body := mb } "Content-Length".toList
    (to_string_nat mb.length)

/-- The invariant of a `std::map`: the keys are strictly ascending in byte order. -/
def mapSorted {V : Type} (m : StdMap V) : Prop :=
  m.Pairwise (fun a b => bytesLt a.1 b.1 = true)

/-! ## The handlers (`health_handler.cc`, `not_found_handler.cc`, `sleep_handler.cc`) -/

/-- `HealthHandler`. -/
def HealthHandler : RequestHandler where
  handle_request := fun _ =>
    HttpResponse.mk5 "HTTP/1.1".toList 200 "OK".toList
      (mapInsert "Content-Type".toList "text/plain".toList []) "OK".toList
  get_handler_name := "HealthHandler".toList

/-- `NotFoundHandler`. -/
def NotFoundHandler : RequestHandler where
  handle_request := fun _ =>
    HttpResponse.mk5 "HTTP/1.1".toList 404 "Not Found".toList
      (mapInsert "Content-Type".toList "text/html".toList []) "<h1>404 Not Found</h1>".toList
  get_handler_name := "NotFoundHandler".toList

/-- `SleepHandler` constructed with `sleep_seconds`; the time spent blocking is not part
of the model. -/
def SleepHandler (sleep_seconds : Int) : RequestHandler where
  handle_request := fun _ =>
    HttpResponse.mk5 "HTTP/1.1".toList 200 "OK".toList
      (mapInsert "Content-Type".toList "text/plain".toList [])
      ("Slept for ".toList ++ to_string_int sleep_seconds ++ " seconds".toList)
  get_handler_name := "SleepHandler".toList

/-! ## HandlerFactory (`handler_factory.cc`) -/

/-- The conversion `std::stoi(str)`: as `stoull`, with a signed result that has to fit
an `int`; `none` when the call throws. -/
def stoi (str : Bytes) : Option Int :=
  let s := str.dropWhile isspace
  let negative := s.head? == some '-'
  let s := if s.head? == some '-' || s.head? == some '+' then s.drop 1 else s
  let digits := s.takeWhile Char.isDigit
  if digits.isEmpty then none
  else
    let value : Int := digits.foldl (fun acc d => acc * 10 + ((d.toNat - '0'.toNat : Nat) : Int)) 0
    let signed := if negative then -value else value
    if signed < -(2 ^ 31) ∨ 2 ^ 31 ≤ signed then none else some signed

/-- The insertion into a `std::unordered_set<std::string>`, kept as a list without
duplicates. -/
def setInsert (x : Bytes) (s : List Bytes) : List Bytes :=
  if s.contains x then s else s ++ [x]

/-- The body of the loop of `parse_extensions` for one comma-separated item. -/
def parse_extension_item (extensions : List Bytes) (item : Bytes) : List Bytes :=
  let ext :=
    match find_first_not_of " \t".toList item with
    | some i => item.drop i
    | none => []
  let ext :=
    match find_last_not_of " \t".toList ext with
    | some i => ext.take (i + 1)
    | none => []
  if !ext.isEmpty then
    setInsert (if ext.head? != some '.' then '.' :: ext else ext) extensions
  else extensions

/-- `HandlerFactory::parse_extensions`. -/
def parse_extensions (ext_string : Bytes) : List Bytes :=
  (getlines ',' ext_string).foldl parse_extension_item []

/-- The set `DEFAULT_EXTENSIONS` of `file_handler.cc`. -/
def DEFAULT_EXTENSIONS : List Bytes :=
  [".html".toList, ".htm".toList, ".css".toList, ".js".toList, ".json".toList,
   ".jpg".toList, ".jpeg".toList, ".png".toList, ".gif".toList, ".svg".toList,
   ".txt".toList, ".xml".toList, ".pdf".toList, ".ico".toList, ".zip".toList]

/-- What `std::filesystem::exists` and `std::filesystem::is_directory` answer. -/
structure Disk where
  path_exists : Bytes → Bool
  is_directory : Bytes → Bool

/-- The constructors of `FileHandler`: the stored `root_` (with a `/` appended when it
is missing), or the message of the `std::invalid_argument` thrown. -/
def FileHandler_root (disk : Disk) (root : Bytes) : Except Bytes Bytes :=
  let root_ := if !root.isEmpty && root.getLast? != some '/' then root ++ ['/'] else root
  if !disk.path_exists root_ then
    Except.error ("Root path does not exist: ".toList ++ root_)
  else if !disk.is_directory root_ then
    Except.error ("Root path is not a directory: ".toList ++ root_)
  else Except.ok root_

/-- `HandlerFactory::create_handler`.  The result is `Except.ok none` for the null
pointer and `Except.error` when the call throws.  The objects `FileHandler(root_,
path, extensions)` and `CrudHandler(path, crud_fs)` are the parameters `file_handler`
and `crud_handler`. -/
def create_handler (disk : Disk) (file_handler : Bytes → Bytes → List Bytes → RequestHandler)
    (crud_handler : Bytes → RequestHandler) (config : HandlerConfig) (path : Bytes) :
    Except Bytes (Option RequestHandler) :=
  if config.type = "EchoHandler".toList then Except.ok (some EchoHandler)
  else if config.type = "HealthHandler".toList then Except.ok (some HealthHandler)
  else if config.type = "StaticHandler".toList then
    match mapFind "root".toList config.settings with
    | none => Except.ok none
    | some root =>
      match mapFind "supported_extensions".toList config.settings with
      | some ext_string =>
        match FileHandler_root disk root with
        | Except.ok root_ =>
          Except.ok (some (file_handler root_ path (parse_extensions ext_string)))
        | Except.error e => Except.error e
      | none =>
        match FileHandler_root disk root with
        | Except.ok root_ => Except.ok (some (file_handler root_ path DEFAULT_EXTENSIONS))
        | Except.error e => Except.error e
  else if config.type = "CrudHandler".toList then Except.ok (some (crud_handler path))
  else if config.type = "SleepHandler".toList then
    match mapFind "sleep_seconds".toList config.settings with
    | some value =>
      match stoi value with
      | some sleep_seconds => Except.ok (some (SleepHandler sleep_seconds))
      | none => Except.error "stoi".toList
    | none => Except.ok (some (SleepHandler 5))
  else Except.ok (some NotFoundHandler)

/-- The pointer that `router_->match_handler(path)` hands to `Session::handle_read`,
for a router over `routes_` with the factory above, when the call returns.  A call that
throws hands over nothing: `handle_read` has no `try` around it, so the exception
leaves `handle_read` before any write and with the buffer kept, which is not a step of
`handle_read` as written here.  Such a call is `none` in this function only for want of
a value; the statements that use it show that the call returns `Except.ok`. -/
def routed (disk : Disk) (file_handler : Bytes → Bytes → List Bytes → RequestHandler)
    (crud_handler : Bytes → RequestHandler) (routes_ : StdMap HandlerConfig) (path : Bytes) :
    Option RequestHandler :=
  match match_handler (create_handler disk file_handler crud_handler) routes_ path with
  | some (Except.ok handler) => handler
  | _ => none

/-! ## More of HttpRequest (`http_request.h`, `http_request.cc`) -/

/-- `HttpRequest::set_path`. -/
def HttpRequest.set_path (r : HttpRequest) (path : Bytes) : HttpRequest :=
  HttpRequest.parse_path_and_query { r with path_ := path }

/-- `HttpRequest::get_query_params`. -/
def HttpRequest.get_query_params (r : HttpRequest) : StdMap Bytes := r.query_params_

/-- `HttpRequest::get_query_param`. -/
def HttpRequest.get_query_param (r : HttpRequest) (key : Bytes) : Option Bytes :=
  mapFind key r.query_params_

/-- The whitespace-delimited tokens of a byte string, scanned from left to right with
`cur` the token read so far: the maximal runs of bytes that are not whitespace. -/
def ws_tokens_from (cur : Bytes) : Bytes → List Bytes
  | [] => if cur.isEmpty then [] else [cur]
  | c :: cs =>
    if isspace c then
      if cur.isEmpty then ws_tokens_from [] cs else cur :: ws_tokens_from [] cs
    else ws_tokens_from (cur ++ [c]) cs

/-- The whitespace-delimited tokens of a byte string. -/
def ws_tokens (r : Bytes) : List Bytes := ws_tokens_from [] r

/-- The bytes of a request in the wire format: the request line `method SP path SP
version`, then the header lines `hdrs`, each line ended by CRLF, then the empty line and
the body. -/
def wire_request (method path version : Bytes) (hdrs : List Bytes) (body : Bytes) : Bytes :=
  method ++ ' ' :: path ++ ' ' :: version ++ "\r\n".toList
    ++ (hdrs.map (fun l => l ++ "\r\n".toList)).flatten ++ "\r\n".toList ++ body

/-- The name of a header line as the header loop of `parse` takes it: the bytes before
the first colon (`line.substr(0, colon_pos)`); a line without a colon has none. -/
def header_name (line : Bytes) : Option Bytes :=
  (find line [':']).map (fun colon_pos => line.take colon_pos)

/-- The blank bytes that `parse_extensions` trims: space and tab. -/
def is_blank (c : Char) : Bool := " \t".toList.contains c

/-- The normal form of one comma-separated item in the words of the specification:
spaces and tabs are trimmed on both sides, a blank item gives nothing, and a `.` is put
in front when the item does not start with one. -/
def normalize_extension (item : Bytes) : Option Bytes :=
  let t := ((item.dropWhile is_blank).reverse.dropWhile is_blank).reverse
  if t.isEmpty then none else some (if t.head? = some '.' then t else '.' :: t)

/-! ## MockFilesystem (`mock_filesystem.cc`) -/

/-- The assignment `m[k] = v` of `std::unordered_map`, kept as an association list:
the value of an existing key is replaced, a new key is added. -/
def umSet {V : Type} (k : Bytes) (v : V) : List (Bytes × V) → List (Bytes × V)
  | [] => [(k, v)]
  | (k', v') :: rest => if k = k' then (k, v) :: rest else (k', v') :: umSet k v rest

/-- The removal `m.erase(it)` of the entry with key `k`. -/
def umErase {V : Type} (k : Bytes) (m : List (Bytes × V)) : List (Bytes × V) :=
  m.filter (fun e => e.1 != k)

/-- The state of a `MockFilesystem`: `data_[entity.name][id]` is the stored payload.
An `Entity` is given by its `name`. -/
structure MockFilesystem where
  data_ : List (Bytes × List (Bytes × Bytes)) := []

namespace MockFilesystem

/-- `MockFilesystem::entity_exists`. -/
def entity_exists (fs : MockFilesystem) (entity id : Bytes) : Bool :=
  match mapFind entity fs.data_ with
  | none => false
  | some ids => (mapFind id ids).isSome

/-- `MockFilesystem::write_entity`: the value returned and the new state. -/
def write_entity (fs : MockFilesystem) (entity id data : Bytes) : Bool × MockFilesystem :=
  (true,
    { data_ := umSet entity (umSet id data ((mapFind entity fs.data_).getD [])) fs.data_ })

/-- `MockFilesystem::read_entity`: the stored payload, or the message of the
`std::runtime_error` thrown. -/
def read_entity (fs : MockFilesystem) (entity id : Bytes) : Except Bytes Bytes :=
  if !fs.entity_exists entity id then
    Except.error ("MockFilesystem: No such entity or ID: ".toList ++ entity ++ "/".toList ++ id)
  else
    Except.ok ((mapFind id ((mapFind entity fs.data_).getD [])).getD [])

/-- `MockFilesystem::delete_entity`: the value returned and the new state. -/
def delete_entity (fs : MockFilesystem) (entity id : Bytes) : Bool × MockFilesystem :=
  match mapFind entity fs.data_ with
  | none => (false, fs)
  | some ids =>
    match mapFind id ids with
    | none => (false, fs)
    | some _ => (true, { data_ := umSet entity (umErase id ids) fs.data_ })

/-- `MockFilesystem::list_entity_ids`. -/
def list_entity_ids (fs : MockFilesystem) (entity : Bytes) : List Bytes :=
  match mapFind entity fs.data_ with
  | none => []
  | some ids => ids.map Prod.fst

/-- The set `used_ids` built by `next_entity_id`: the positive values that `std::stoi`
gives for the ids. -/
def used_ids (ids : List Bytes) : List Int :=
  ids.filterMap (fun id_str =>
    match stoi id_str with
    | some id => if id > 0 then some id else none
    | none => none)

/-- The value `std::numeric_limits<int>::max()`. -/
def INT_MAX : Nat := 2 ^ 31 - 1

/-- The search loop of `next_entity_id`, with `remaining = INT_MAX - candidate`: the
first candidate that is not used, or the message of the `std::overflow_error`. -/
def next_id_loop (entity : Bytes) (used : List Int) : Nat → Except Bytes Int
  | 0 =>
    if !used.contains (INT_MAX : Int) then Except.ok (INT_MAX : Int)
    else Except.error ("MockFilesystem: no available integer IDs for entity ".toList ++ entity)
  | remaining + 1 =>
    if !used.contains ((INT_MAX - (remaining + 1) : Nat) : Int) then
      Except.ok ((INT_MAX - (remaining + 1) : Nat) : Int)
    else next_id_loop entity used remaining

/-- `MockFilesystem::next_entity_id`. -/
def next_entity_id (fs : MockFilesystem) (entity : Bytes) : Except Bytes Bytes :=
  match next_id_loop entity (used_ids (fs.list_entity_ids entity)) (INT_MAX - 1) with
  | Except.ok candidate => Except.ok (to_string_int candidate)
  | Except.error e => Except.error e

end MockFilesystem

/-! ## CrudHandler (`crud_handler.cc`) -/

/-- The search `s.find(needle, pos)`. -/
def find_from (s needle : Bytes) (pos : Nat) : Option Nat :=
  if pos ≤ s.length then (find (s.drop pos) needle).map (· + pos) else none

/-- The search `s.find_first_not_of(set, pos)`. -/
def find_first_not_of_from (set s : Bytes) (pos : Nat) : Option Nat :=
  if pos ≤ s.length then (find_first_not_of set (s.drop pos)).map (· + pos) else none

/-- The insertion of `x` into an ascending list. -/
def insert_sorted (x : Bytes) : List Bytes → List Bytes
  | [] => [x]
  | y :: ys => if bytesLt y x then y :: insert_sorted x ys else x :: y :: ys

/-- The result of `std::sort` on a vector of strings: the elements in ascending byte
order. -/
def sort_strings (l : List Bytes) : List Bytes := l.foldr insert_sorted []

/-- A response `HttpResponse("HTTP/1.1", sc, rp, {{"Content-Type", ctype}}, body)`. -/
def typed_response (sc : Int) (rp ctype body : Bytes) : HttpResponse :=
  HttpResponse.mk5 "HTTP/1.1".toList sc rp (mapInsert "Content-Type".toList ctype []) body

namespace CrudHandler

/-- `CrudHandler::parse_entity_and_id_from_path`: `none` when it returns false,
otherwise the values of `entity_out`, `id_out` and `has_id_out`. -/
def parse_entity_and_id_from_path (route_prefix_ path : Bytes) :
    Option (Bytes × Bytes × Bool) :=
  let p := match find path ['?'] with
    | some query_pos => path.take query_pos
    | none => path
  if !route_prefix_.isEmpty && !route_prefix_.isPrefixOf p then none
  else
    let rest := p.drop route_prefix_.length
    let rest := if rest.head? == some '/' then rest.drop 1 else rest
    match find rest ['/'] with
    | none => if rest.isEmpty then none else some (rest, [], false)
    | some slash_pos =>
      let entity_part := rest.take slash_pos
      let id_part := rest.drop (slash_pos + 1)
      if (find id_part ['/']).isSome then none
      else if entity_part.isEmpty then none
      else some (entity_part, id_part, !id_part.isEmpty)

/-- `CrudHandler::handle_post`. -/
def handle_post (fs : MockFilesystem) (request : HttpRequest) (entity : Bytes) :
    HttpResponse × MockFilesystem :=
  match fs.next_entity_id entity with
  | Except.error what =>
    (typed_response 500 "Internal Server Error".toList "text/plain".toList
      ("Failed to allocate ID: ".toList ++ what), fs)
  | Except.ok new_id =>
    let (ok, fs') := fs.write_entity entity new_id request.body_
    if !ok then
      (typed_response 500 "Internal Server Error".toList "text/plain".toList
        "Failed to store entity".toList, fs')
    else
      (typed_response 201 "Created".toList "application/json".toList
        ("\x7b\"id\": ".toList ++ new_id ++ "\x7d".toList), fs')

/-- `CrudHandler::handle_get`; the error is the exception of `read_entity`. -/
def handle_get (fs : MockFilesystem) (entity id : Bytes) : Except Bytes HttpResponse :=
  if !fs.entity_exists entity id then
    Except.ok (typed_response 404 "Not Found".toList "text/html".toList
      "Entity not found".toList)
  else
    match fs.read_entity entity id with
    | Except.ok entity_data =>
      Except.ok (typed_response 200 "OK".toList "application/json".toList entity_data)
    | Except.error e => Except.error e

/-- `CrudHandler::handle_put`. -/
def handle_put (fs : MockFilesystem) (request : HttpRequest) (entity id : Bytes) :
    HttpResponse × MockFilesystem :=
  if !fs.entity_exists entity id then
    (typed_response 404 "Not Found".toList "text/html".toList "Entity not found".toList, fs)
  else
    let (ok, fs') := fs.write_entity entity id request.body_
    if !ok then
      (typed_response 500 "Internal Server Error".toList "text/plain".toList
        "Failed to update entity".toList, fs')
    else (typed_response 200 "OK".toList "application/json".toList request.body_, fs')

/-- `CrudHandler::handle_delete`. -/
def handle_delete (fs : MockFilesystem) (entity id : Bytes) : HttpResponse × MockFilesystem :=
  if !fs.entity_exists entity id then
    (typed_response 404 "Not Found".toList "text/html".toList "Entity not found".toList, fs)
  else
    let (ok, fs') := fs.delete_entity entity id
    if !ok then
      (typed_response 500 "Internal Server Error".toList "text/plain".toList
        "Failed to delete entity".toList, fs')
    else
      (typed_response 200 "OK".toList "text/plain".toList
        "Entity deleted successfully".toList, fs')

/-- `CrudHandler::extract_json_field`. -/
def extract_json_field (json field_name : Bytes) : Bytes :=
  match find json ('"' :: field_name ++ ['"']) with
  | none => []
  | some field_pos =>
    match find_from json [':'] field_pos with
    | none => []
    | some colon_pos =>
      match find_first_not_of_from " \t\n".toList json (colon_pos + 1) with
      | none => []
      | some value_start =>
        if json.get? value_start != some '"' then []
        else
          match find_from json ['"'] (value_start + 1) with
          | none => []
          | some value_end => (json.drop (value_start + 1)).take (value_end - (value_start + 1))

/-- The filter loop of `handle_list`: the ids kept, in the order of `ids`; the error is
the exception of `read_entity`. -/
def filter_ids (fs : MockFilesystem) (entity : Bytes) (name_filter tag_filter : Option Bytes) :
    List Bytes → Except Bytes (List Bytes)
  | [] => Except.ok []
  | id :: ids =>
    if name_filter.isNone && tag_filter.isNone then
      match filter_ids fs entity name_filter tag_filter ids with
      | Except.ok kept => Except.ok (id :: kept)
      | Except.error e => Except.error e
    else
      match fs.read_entity entity id with
      | Except.error e => Except.error e
      | Except.ok entity_data =>
        let matches_ := match name_filter with
          | some value => (find (extract_json_field entity_data "name".toList) value).isSome
          | none => true
        let matches_ := match tag_filter with
          | some value =>
            if matches_ then (find (extract_json_field entity_data "tag".toList) value).isSome
            else false
          | none => matches_
        match filter_ids fs entity name_filter tag_filter ids with
        | Except.ok kept => Except.ok (if matches_ then id :: kept else kept)
        | Except.error e => Except.error e

/-- The JSON array built by `handle_list` from the sorted ids. -/
def json_id_array (ids : List Bytes) : Bytes :=
  "[".toList ++ ", ".toList.intercalate (ids.map (fun id => '"' :: id ++ ['"'])) ++ "]".toList

/-- `CrudHandler::handle_list`. -/
def handle_list (fs : MockFilesystem) (request : HttpRequest) (entity : Bytes) :
    Except Bytes HttpResponse :=
  match filter_ids fs entity (request.get_query_param "name".toList)
      (request.get_query_param "tag".toList) (fs.list_entity_ids entity) with
  | Except.error e => Except.error e
  | Except.ok filtered_ids =>
    Except.ok (typed_response 200 "OK".toList "application/json".toList
      (json_id_array (sort_strings filtered_ids)))

/-- `CrudHandler::handle_request` for the handler constructed with `route_prefix_` over
the store `fs`: the response and the store afterwards, or the exception that leaves the
call. -/
def handle_request (route_prefix_ : Bytes) (fs : MockFilesystem) (request : HttpRequest) :
    Except Bytes (HttpResponse × MockFilesystem) :=
  match parse_entity_and_id_from_path route_prefix_ request.path_ with
  | none =>
    Except.ok (typed_response 400 "Bad Request".toList "text/plain".toList
      "Invalid CRUD path".toList, fs)
  | some (entity, id, has_id) =>
    if request.method_ = "POST".toList then
      if has_id then
        Except.ok (typed_response 400 "Bad Request".toList "text/plain".toList
          "POST must not include ID in path".toList, fs)
      else Except.ok (handle_post fs request entity)
    else if request.method_ = "GET".toList then
      if has_id then
        match handle_get fs entity id with
        | Except.ok response => Except.ok (response, fs)
        | Except.error e => Except.error e
      else
        match handle_list fs request entity with
        | Except.ok response => Except.ok (response, fs)
        | Except.error e => Except.error e
    else if request.method_ = "PUT".toList then
      if !has_id then
        Except.ok (typed_response 400 "Bad Request".toList "text/plain".toList
          "PUT must include ID in path".toList, fs)
      else Except.ok (handle_put fs request entity id)
    else if request.method_ = "DELETE".toList then
      if !has_id then
        Except.ok (typed_response 400 "Bad Request".toList "text/plain".toList
          "DELETE must include ID in path".toList, fs)
      else Except.ok (handle_delete fs entity id)
    else
      Except.ok (typed_response 501 "Not Implemented".toList "text/plain".toList
        "CRUD method not implemented yet".toList, fs)

end CrudHandler

/-! ## JSON objects with string fields

The two definitions of this section are not code of the server.  They say what it means
for stored data to have a string field, the notion the list filters are specified with,
so that `extract_json_field` can be compared with it. -/

/-- A member `"key":"value"` of a JSON object whose value is a string; `sp` is the white
space written after the colon.  Keys and values are taken as they stand, so they are
meant to hold no double quote. -/
def json_member (sp : Bytes) (kv : Bytes × Bytes) : Bytes :=
  '"' :: kv.1 ++ '"' :: ':' :: sp ++ '"' :: kv.2 ++ ['"']

/-- The text of a JSON object all of whose members are strings, the form of the data the
filter tests store: the members in braces, separated by a comma; `sp` is the white space
written after each colon and comma (none in `{"name":"a","tag":"b"}`, one space in
`{"name": "a", "tag": "b"}`).  The object has a string field `k` with value `v`
exactly when `(k, v)` is one of `members`. -/
def json_object (sp : Bytes) (members : List (Bytes × Bytes)) : Bytes :=
  '\x7b' :: (',' :: sp).intercalate (members.map (json_member sp)) ++ ['\x7d']

/-- The test of the filter loop of `handle_list` on the stored data of one id: each
filter that is given has to occur in the extracted field. -/
def list_selects (name_filter tag_filter : Option Bytes) (entity_data : Bytes) : Bool :=
  (match name_filter with
    | some value =>
      (find (CrudHandler.extract_json_field entity_data "name".toList) value).isSome
    | none => true) &&
  (match tag_filter with
    | some value =>
      (find (CrudHandler.extract_json_field entity_data "tag".toList) value).isSome
    | none => true)

/-- The condition of the specification under which a request path is not a CRUD path
for the route prefix: with its query string removed, the path does not start with the
prefix, or it names no entity after the prefix (and one optional `/`), or the part
after the entity's `/` holds a further `/`. -/
def invalid_crud_path (route_prefix_ path : Bytes) : Bool :=
  let p := path.takeWhile (fun c => c != '?')
  if !route_prefix_.isPrefixOf p then true
  else
    let rest := p.drop route_prefix_.length
    let rest := if rest.head? == some '/' then rest.drop 1 else rest
    let entity := rest.takeWhile (fun c => c != '/')
    let id_part := (rest.dropWhile (fun c => c != '/')).drop 1
    entity.isEmpty || id_part.contains '/'

/-! ## ServerConfig (`server_config.cc`) -/

mutual
/-- Modelled from the spec: the class `NginxConfig` of `config_parser.h`, which is not
among the sources, as `server_config.cc` and the tests use it: the list `statements_`
of a parsed configuration or block. -/
inductive NginxConfig where
  | mk (statements_ : List NginxConfigStatement)
/-- Modelled from the spec: the class `NginxConfigStatement` of `config_parser.h`: the
tokens of a statement and, when the statement opens a block, the configuration between
its braces. -/
inductive NginxConfigStatement where
  | mk (tokens_ : List Bytes) (child_block_ : Option NginxConfig)
end

/-- The member `statements_`. -/
def NginxConfig.statements_ : NginxConfig → List NginxConfigStatement
  | NginxConfig.mk statements_ => statements_

/-- The member `tokens_`. -/
def NginxConfigStatement.tokens_ : NginxConfigStatement → List Bytes
  | NginxConfigStatement.mk tokens_ _ => tokens_

/-- The member `child_block_`, `none` for a null pointer. -/
def NginxConfigStatement.child_block_ : NginxConfigStatement → Option NginxConfig
  | NginxConfigStatement.mk _ child_block_ => child_block_

/-- The data members of `ServerConfig` with their default member initializers. -/
structure ServerConfig where
  port_ : Int := 8080
  routes_ : StdMap HandlerConfig := []
  deriving DecidableEq

namespace ServerConfig

/-- One iteration of the loop of `parse_handler_config`. -/
def parse_handler_statement (config : HandlerConfig) (statement : NginxConfigStatement) :
    HandlerConfig :=
  match statement.tokens_ with
  | [] => config
  | key :: _ =>
    if key = "handler".toList ∧ statement.tokens_.length ≥ 2 then
      { config with type := (statement.tokens_.get? 1).getD [] }
    else if statement.tokens_.length ≥ 2 then
      let value := (statement.tokens_.get? 1).getD []
      { config with settings := mapInsert key value config.settings }
    else config

/-- `ServerConfig::parse_handler_config`. -/
def parse_handler_config (block : NginxConfig) : HandlerConfig :=
  block.statements_.foldl parse_handler_statement {}

/-- The test `tokens_[0] == "listen" && tokens_.size() >= 2` on a statement of the
server block.  A statement without tokens, which the parser does not produce, matches
no directive. -/
def is_listen (statement : NginxConfigStatement) : Bool :=
  statement.tokens_.head? == some "listen".toList && decide (statement.tokens_.length ≥ 2)

/-- The test `tokens_[0] == "location" && tokens_.size() >= 2`. -/
def is_location (statement : NginxConfigStatement) : Bool :=
  statement.tokens_.head? == some "location".toList && decide (statement.tokens_.length ≥ 2)

/-- The test `tokens_[0] == "server" && child_block_` on a top-level statement. -/
def is_server_block (statement : NginxConfigStatement) : Bool :=
  statement.tokens_.head? == some "server".toList && statement.child_block_.isSome

/-- The "Parse location blocks" part of one iteration over the server block. -/
def add_location (cfg : ServerConfig) (statement : NginxConfigStatement) : ServerConfig :=
  if is_location statement then
    match statement.child_block_ with
    | some block =>
      let path := (statement.tokens_.get? 1).getD []
      let handler_config := parse_handler_config block
      { cfg with routes_ := mapInsert path handler_config cfg.routes_ }
    | none => cfg
  else cfg

/-- The loop of `load_from_nginx_config` over the statements of the server block, and
the `return port_ > 0 && !routes_.empty()` after it; a `listen` value on which
`std::stoi` throws returns false at once. -/
def load_server_block : List NginxConfigStatement → ServerConfig → Bool × ServerConfig
  | [], cfg => (decide (cfg.port_ > 0) && !cfg.routes_.isEmpty, cfg)
  | statement :: rest, cfg =>
    if is_listen statement then
      match stoi ((statement.tokens_.get? 1).getD []) with
      | none => (false, cfg)
      | some port => load_server_block rest (add_location { cfg with port_ := port } statement)
    else load_server_block rest (add_location cfg statement)

/-- The loop of `load_from_nginx_config` over the top-level statements. -/
def load_statements : List NginxConfigStatement → ServerConfig → Bool × ServerConfig
  | [], cfg => (false, cfg)
  | statement :: rest, cfg =>
    if is_server_block statement then
      match statement.child_block_ with
      | some server_block => load_server_block server_block.statements_ cfg
      | none => load_statements rest cfg
    else load_statements rest cfg

/-- `ServerConfig::load_from_nginx_config`: the value returned and the members
afterwards. -/
def load_from_nginx_config (cfg : ServerConfig) (config : NginxConfig) :
    Bool × ServerConfig :=
  load_statements config.statements_ cfg

/-- The values that `std::stoi` gives for the `listen` directives of a server block, in
order; `none` where it throws. -/
def listen_values (statements : List NginxConfigStatement) : List (Option Int) :=
  (statements.filter is_listen).map (fun st => stoi ((st.tokens_.get? 1).getD []))

/-- The port after a server block without a failing `listen` directive: the value of
the last one, or the value the object had before. -/
def last_port (statements : List NginxConfigStatement) (before : Int) : Int :=
  statements.foldl
    (fun port st => if is_listen st then (stoi ((st.tokens_.get? 1).getD [])).getD port else port)
    before

end ServerConfig

/-! ## FileHandler (`file_handler.cc`) -/

/-- The test of `sanitize_path` for a part to keep: it is not `..`, not `.` and not
empty. -/
def keeps_part (part : Bytes) : Bool :=
  part != "..".toList && part != ".".toList && !part.isEmpty

/-- `FileHandler::sanitize_path`: leading slashes are removed, the rest is split at
`/` with `std::getline`, the parts `..`, `.` and the empty ones are dropped, and the
parts kept are joined again with one `/` between them. -/
def sanitize_path (path : Bytes) : Bytes :=
  let sanitized := path.dropWhile (fun c => c == '/')
  let parts := (getlines '/' sanitized).filter keeps_part
  ['/'].intercalate parts

/-! ## Facts about `find` -/

theorem find_eq_zero (s n : Bytes) (h : n.isPrefixOf s = true) : find s n = some 0 := by
  cases s <;> simp [find, h]

theorem find_nil_eq_none (n : Bytes) (h : n.isPrefixOf [] = false) : find [] n = none := by
  simp [find, h]

theorem find_cons_eq_map (c : Char) (cs n : Bytes)
    (h : n.isPrefixOf (c :: cs) = false) :
    find (c :: cs) n = (find cs n).map (· + 1) := by
  rw [find]; simp [h]

theorem isPrefixOf_false_iff (n s : Bytes) : n.isPrefixOf s = false ↔ ¬ n <+: s := by
  rw [← List.isPrefixOf_iff_prefix, Bool.not_eq_true]

theorem find_isSome_iff (s n : Bytes) : (find s n).isSome = true ↔ n <:+: s := by
  induction s with
  | nil =>
    cases h : n.isPrefixOf []
    · rw [find_nil_eq_none n h]
      constructor
      · intro hf; cases hf
      · intro hin
        have hn : n = [] := List.eq_nil_of_infix_nil hin
        subst hn
        simp at h
    · rw [find_eq_zero _ _ h]
      simp only [Option.isSome_some, true_iff]
      exact (List.isPrefixOf_iff_prefix.mp h).isInfix
  | cons c cs ih =>
    cases h : n.isPrefixOf (c :: cs)
    · rw [find_cons_eq_map c cs n h, Option.isSome_map', List.infix_cons_iff, ih]
      constructor
      · intro hh; exact Or.inr hh
      · rintro (hh | hh)
        · exact absurd hh ((isPrefixOf_false_iff _ _).mp h)
        · exact hh
    · rw [find_eq_zero _ _ h]
      simp only [Option.isSome_some, true_iff]
      exact (List.isPrefixOf_iff_prefix.mp h).isInfix

theorem find_bound (s n : Bytes) (i : Nat) (h : find s n = some i) :
    i + n.length ≤ s.length := by
  induction s generalizing i with
  | nil =>
    cases hp : n.isPrefixOf []
    · rw [find_nil_eq_none n hp] at h; cases h
    · rw [find_eq_zero _ _ hp] at h
      have := (List.isPrefixOf_iff_prefix.mp hp).length_le
      cases h; simpa using this
  | cons c cs ih =>
    cases hp : n.isPrefixOf (c :: cs)
    · rw [find_cons_eq_map c cs n hp, Option.map_eq_some'] at h
      obtain ⟨j, hj, rfl⟩ := h
      have := ih j hj
      simp only [List.length_cons]; omega
    · rw [find_eq_zero _ _ hp] at h
      have := (List.isPrefixOf_iff_prefix.mp hp).length_le
      cases h; simpa using this

theorem find_append (s t n : Bytes) (i : Nat) (h : find s n = some i) :
    find (s ++ t) n = some i := by
  induction s generalizing i with
  | nil =>
    have hb := find_bound _ _ _ h
    simp only [List.length_nil, Nat.le_zero, Nat.add_eq_zero, List.length_eq_zero] at hb
    obtain ⟨rfl, rfl⟩ := hb
    exact find_eq_zero _ _ (by simp)
  | cons c cs ih =>
    cases hp : n.isPrefixOf (c :: cs)
    · rw [find_cons_eq_map c cs n hp, Option.map_eq_some'] at h
      obtain ⟨j, hj, rfl⟩ := h
      have hlen := find_bound _ _ _ hj
      have hp2 : n.isPrefixOf (c :: (cs ++ t)) = false := by
        rw [isPrefixOf_false_iff]
        intro hq
        apply (isPrefixOf_false_iff _ _).mp hp
        apply List.prefix_of_prefix_length_le hq (List.prefix_append (c :: cs) t)
        simp only [List.length_cons]; omega
      rw [List.cons_append, find_cons_eq_map c _ n hp2, ih j hj]
      rfl
    · rw [find_eq_zero _ _ hp] at h
      cases h
      apply find_eq_zero
      exact List.isPrefixOf_iff_prefix.mpr
        ((List.isPrefixOf_iff_prefix.mp hp).trans (List.prefix_append _ _))

theorem find_isNone_iff (s n : Bytes) : (find s n).isNone = true ↔ ¬ n <:+: s := by
  rw [← find_isSome_iff]
  cases find s n <;> simp

theorem detect_http_request_iff (b : Bytes) :
    detect_http_request b = true ↔ (CRLFCRLF <:+: b ∨ LFLF <:+: b) := by
  unfold detect_http_request
  rw [Bool.or_eq_true, find_isSome_iff, find_isSome_iff]

theorem check_malformed_request_none_iff (b : Bytes) :
    check_malformed_request b = MalformedType.None ↔ CRLFCRLF <:+: b := by
  unfold check_malformed_request
  cases b with
  | nil =>
    simp only [List.isEmpty_nil, if_true]
    constructor
    · intro h; cases h
    · intro h
      have := List.eq_nil_of_infix_nil h
      cases this
  | cons c cs =>
    simp only [List.isEmpty_cons, Bool.false_eq_true, if_false]
    by_cases h : (find (c :: cs) CRLFCRLF).isNone = true
    · rw [if_pos h]
      constructor
      · intro h'; cases h'
      · intro h'; exact absurd h' ((find_isNone_iff _ _).mp h)
    · rw [if_neg h]
      refine ⟨fun _ => ?_, fun _ => rfl⟩
      by_contra h'
      exact h ((find_isNone_iff _ _).mpr h')

/-! ## Facts about the session step -/

theorem stoull_eq_none_of_no_digit (v : Bytes) (h : ∀ c ∈ v, c.isDigit = false) :
    stoull v = none := by
  have key : ∀ l : Bytes, (∀ c ∈ l, c ∈ v) → l.takeWhile Char.isDigit = [] := by
    intro l hl
    cases l with
    | nil => rfl
    | cons a as => simp [List.takeWhile, h a (hl a (List.mem_cons_self _ _))]
  have h1 : ∀ c ∈ v.dropWhile isspace, c ∈ v :=
    fun c hc => (List.dropWhile_suffix isspace).subset hc
  have h2 : ∀ c ∈ (v.dropWhile isspace).drop 1, c ∈ v :=
    fun c hc => h1 c (List.mem_of_mem_drop hc)
  unfold stoull
  simp only
  by_cases hs : ((v.dropWhile isspace).head? == some '-'
      || (v.dropWhile isspace).head? == some '+') = true
  · rw [if_pos hs, key _ h2]; rfl
  · rw [if_neg hs, key _ h1]; rfl

theorem handle_read_error (mh : Bytes → Option RequestHandler) (s : Session) (data : Bytes) :
    handle_read mh s true data = (s, []) := by
  simp [handle_read]

theorem handle_read_malformed (mh : Bytes → Option RequestHandler) (s : Session)
    (data : Bytes) (h : check_malformed_request (s.buffer_ ++ data) ≠ MalformedType.None) :
    handle_read mh s false data =
      (⟨[]⟩,
        [Op.async_write (bad_request "Malformed HTTP request".toList).convert_to_string]) := by
  unfold handle_read
  simp [h]

theorem handle_read_framed (mh : Bytes → Option RequestHandler) (s : Session)
    (data : Bytes) (h : CRLFCRLF <:+: s.buffer_ ++ data) :
    handle_read mh s false data =
      match (HttpRequest.parse (s.buffer_ ++ data)).get_header "Content-Length".toList with
      | some value =>
        match stoull value with
        | none =>
          (⟨[]⟩,
            [Op.async_write
              (bad_request "Invalid Content-Length header".toList).convert_to_string])
        | some content_length =>
          if size_t_sub (s.buffer_ ++ data).length
              ((((find (s.buffer_ ++ data) CRLFCRLF).getD
                ((find (s.buffer_ ++ data) LFLF).getD npos)) + 4) % 2 ^ 64) < content_length
          then (⟨s.buffer_ ++ data⟩, [Op.async_read_some])
          else validate_and_answer mh (HttpRequest.parse (s.buffer_ ++ data))
      | none => validate_and_answer mh (HttpRequest.parse (s.buffer_ ++ data)) := by
  have h1 := (check_malformed_request_none_iff _).mpr h
  have h2 := (detect_http_request_iff _).mpr (Or.inl h)
  have h3 := (find_isSome_iff _ _).mpr h
  unfold handle_read
  simp only [Bool.false_eq_true, if_false, h1, bne_self_eq_false, h2, if_true, h3]

theorem validate_and_answer_writes (mh : Bytes → Option RequestHandler) (r : HttpRequest) :
    ∃ resp, validate_and_answer mh r = (⟨[]⟩, [Op.async_write resp]) := by
  unfold validate_and_answer
  split_ifs
  · exact ⟨_, rfl⟩
  · exact ⟨_, rfl⟩

theorem handle_read_bodyless (mh : Bytes → Option RequestHandler) (s : Session)
    (data : Bytes) (h : CRLFCRLF <:+: s.buffer_ ++ data)
    (hv : (HttpRequest.parse (s.buffer_ ++ data)).is_valid = true)
    (hb : (HttpRequest.parse (s.buffer_ ++ data)).get_header "Content-Length".toList = none) :
    handle_read mh s false data =
      (⟨[]⟩,
        [Op.async_write
          (dispatch mh (HttpRequest.parse (s.buffer_ ++ data))).convert_to_string]) := by
  rw [handle_read_framed mh s data h, hb]
  simp [validate_and_answer, hv]

theorem run_write (mh : Bytes → Option RequestHandler) (s s' : Session) (data resp : Bytes)
    (rest : List Bytes) (h : handle_read mh s false data = (s', [Op.async_write resp])) :
    run mh s (data :: rest) = resp :: run mh s' rest := by
  rw [run, h]
  simp [handle_write]

/-! ## Facts about the routing loop -/

theorem to_size_t_zero : to_size_t 0 = 0 := by
  decide

theorem to_int_of_lt (n : Nat) (h : n < 2 ^ 31) : to_int n = (n : Int) := by
  have h1 : n % 2 ^ 32 = n := Nat.mod_eq_of_lt (by omega)
  unfold to_int
  rw [h1, if_pos h]

theorem to_size_t_to_int (n : Nat) (h : n < 2 ^ 31) : to_size_t (to_int n) = n := by
  rw [to_int_of_lt n h]
  unfold to_size_t
  have h2 : ((n : Int) % 2 ^ 64) = (n : Int) :=
    Int.emod_eq_of_lt (by omega) (by omega)
  rw [h2]
  exact Int.toNat_ofNat n

theorem match_step_invariant (path : Bytes) (seen : List Bytes) (st : MatchState)
    (k : Bytes) (hk : k ≠ [])
    (hseen : ∀ q ∈ seen, q.length < 2 ^ 31)
    (hinv : (st.prefix_match = [] ∧ st.max_len = 0 ∧ ∀ q ∈ seen, ¬ q <+: path) ∨
      (st.prefix_match ∈ seen ∧ st.prefix_match <+: path ∧
        st.max_len = to_int st.prefix_match.length ∧
        ∀ q ∈ seen, q <+: path → q.length ≤ st.prefix_match.length)) :
    ((match_step path st k).prefix_match = [] ∧ (match_step path st k).max_len = 0 ∧
        ∀ q ∈ seen ++ [k], ¬ q <+: path) ∨
      ((match_step path st k).prefix_match ∈ seen ++ [k] ∧
        (match_step path st k).prefix_match <+: path ∧
        (match_step path st k).max_len = to_int (match_step path st k).prefix_match.length ∧
        ∀ q ∈ seen ++ [k], q <+: path → q.length ≤ (match_step path st k).prefix_match.length) := by
  have hkpos : 0 < k.length := List.length_pos.mpr hk
  by_cases hp : k.isPrefixOf path = true
  · have hpre : k <+: path := List.isPrefixOf_iff_prefix.mp hp
    rcases hinv with ⟨h1, h2, h3⟩ | ⟨h1, h2, h3, h4⟩
    · have hstep : match_step path st k
          = { prefix_match := k, max_len := to_int k.length } := by
        unfold match_step
        rw [if_pos hp, h2, to_size_t_zero, if_pos hkpos]
      rw [hstep]
      refine Or.inr ⟨by simp, hpre, rfl, ?_⟩
      intro q hq hqp
      rcases List.mem_append.mp hq with hq | hq
      · exact absurd hqp (h3 q hq)
      · rw [List.mem_singleton.mp hq]
    · have hplen := hseen _ h1
      by_cases hgt : k.length > st.prefix_match.length
      · have hstep : match_step path st k
            = { prefix_match := k, max_len := to_int k.length } := by
          unfold match_step
          rw [if_pos hp, h3, to_size_t_to_int _ hplen, if_pos hgt]
        rw [hstep]
        refine Or.inr ⟨by simp, hpre, rfl, ?_⟩
        intro q hq hqp
        rcases List.mem_append.mp hq with hq | hq
        · have := h4 q hq hqp
          show q.length ≤ k.length
          omega
        · rw [List.mem_singleton.mp hq]
      · have hstep : match_step path st k = st := by
          unfold match_step
          rw [if_pos hp, h3, to_size_t_to_int _ hplen, if_neg hgt]
        rw [hstep]
        refine Or.inr ⟨List.mem_append_left _ h1, h2, h3, ?_⟩
        intro q hq hqp
        rcases List.mem_append.mp hq with hq | hq
        · exact h4 q hq hqp
        · rw [List.mem_singleton.mp hq]; omega
  · have hstep : match_step path st k = st := by
      unfold match_step
      rw [if_neg hp]
    have hnpre : ¬ k <+: path := fun hh => hp (List.isPrefixOf_iff_prefix.mpr hh)
    rw [hstep]
    rcases hinv with ⟨h1, h2, h3⟩ | ⟨h1, h2, h3, h4⟩
    · refine Or.inl ⟨h1, h2, ?_⟩
      intro q hq
      rcases List.mem_append.mp hq with hq | hq
      · exact h3 q hq
      · rw [List.mem_singleton.mp hq]; exact hnpre
    · refine Or.inr ⟨List.mem_append_left _ h1, h2, h3, ?_⟩
      intro q hq hqp
      rcases List.mem_append.mp hq with hq | hq
      · exact h4 q hq hqp
      · rw [List.mem_singleton.mp hq] at hqp; exact absurd hqp hnpre

theorem match_foldl_invariant (path : Bytes) (keys : List Bytes) :
    ∀ (seen : List Bytes) (st : MatchState),
    (∀ k ∈ keys, k ≠ [] ∧ k.length < 2 ^ 31) →
    (∀ q ∈ seen, q.length < 2 ^ 31) →
    ((st.prefix_match = [] ∧ st.max_len = 0 ∧ ∀ q ∈ seen, ¬ q <+: path) ∨
      (st.prefix_match ∈ seen ∧ st.prefix_match <+: path ∧
        st.max_len = to_int st.prefix_match.length ∧
        ∀ q ∈ seen, q <+: path → q.length ≤ st.prefix_match.length)) →
    (((keys.foldl (match_step path) st).prefix_match = [] ∧
        (keys.foldl (match_step path) st).max_len = 0 ∧
        ∀ q ∈ seen ++ keys, ¬ q <+: path) ∨
      ((keys.foldl (match_step path) st).prefix_match ∈ seen ++ keys ∧
        (keys.foldl (match_step path) st).prefix_match <+: path ∧
        (keys.foldl (match_step path) st).max_len
          = to_int (keys.foldl (match_step path) st).prefix_match.length ∧
        ∀ q ∈ seen ++ keys, q <+: path →
          q.length ≤ (keys.foldl (match_step path) st).prefix_match.length)) := by
  induction keys with
  | nil =>
    intro seen st _ _ hinv
    simpa using hinv
  | cons k ks ih =>
    intro seen st hkeys hseen hinv
    have hk := hkeys k (List.mem_cons_self _ _)
    have hstep := match_step_invariant path seen st k hk.1 hseen hinv
    have hseen2 : ∀ q ∈ seen ++ [k], q.length < 2 ^ 31 := by
      intro q hq
      rcases List.mem_append.mp hq with hq | hq
      · exact hseen q hq
      · rw [List.mem_singleton.mp hq]; exact hk.2
    have := ih (seen ++ [k]) (match_step path st k)
      (fun q hq => hkeys q (List.mem_cons_of_mem _ hq)) hseen2 hstep
    simpa [List.foldl_cons, List.append_assoc] using this

theorem match_loop_eq {V : Type} (routes_ : StdMap V) (path : Bytes) :
    match_loop routes_ path =
      (routes_.map Prod.fst).foldl (match_step path) { prefix_match := [], max_len := 0 } := by
  unfold match_loop
  rw [List.foldl_map]

theorem mapFind_of_mem_keys {V : Type} (routes_ : StdMap V) (p : Bytes)
    (h : p ∈ routes_.map Prod.fst) :
    ∃ v, mapFind p routes_ = some v ∧ (p, v) ∈ routes_ := by
  induction routes_ with
  | nil => simp at h
  | cons e rest ih =>
    obtain ⟨k, v⟩ := e
    by_cases hk : p = k
    · subst hk
      exact ⟨v, by simp [mapFind], List.mem_cons_self _ _⟩
    · have hmem : p ∈ rest.map Prod.fst := by
        simp only [List.map_cons, List.mem_cons] at h
        rcases h with h | h
        · exact absurd h hk
        · exact h
      obtain ⟨w, hw1, hw2⟩ := ih hmem
      exact ⟨w, by simp [mapFind, hk, hw1], List.mem_cons_of_mem _ hw2⟩

theorem value_unique_of_nodup_keys {V : Type} (routes_ : StdMap V) (p : Bytes) (v w : V)
    (hnodup : (routes_.map Prod.fst).Nodup) (hv : (p, v) ∈ routes_) (hw : (p, w) ∈ routes_) :
    w = v := by
  induction routes_ with
  | nil => simp at hv
  | cons e rest ih =>
    simp only [List.map_cons, List.nodup_cons] at hnodup
    obtain ⟨hnot, hrest⟩ := hnodup
    rcases List.mem_cons.mp hv with hv | hv <;> rcases List.mem_cons.mp hw with hw | hw
    · rw [← hv] at hw
      exact (Prod.mk.inj hw).2
    · have hm : p ∈ rest.map Prod.fst := List.mem_map_of_mem Prod.fst hw
      rw [← hv] at hnot
      exact absurd hm hnot
    · have hm : p ∈ rest.map Prod.fst := List.mem_map_of_mem Prod.fst hv
      rw [← hw] at hnot
      exact absurd hm hnot
    · exact ih hrest hv hw

/-! ## Facts about maps, parsing and validity -/

theorem mapFind_mapInsert_self {V : Type} (k : Bytes) (v : V) (m : StdMap V) :
    mapFind k (mapInsert k v m) = some v := by
  induction m with
  | nil => simp [mapInsert, mapFind]
  | cons e rest ih =>
    obtain ⟨k', v'⟩ := e
    by_cases h1 : k = k'
    · simp [mapInsert, mapFind, h1]
    · by_cases h2 : bytesLt k k' = true
      · simp [mapInsert, mapFind, h1, h2]
      · simp [mapInsert, mapFind, h1, h2, ih]

theorem mapFind_mapInsert_ne {V : Type} (k k' : Bytes) (v : V) (m : StdMap V) (h : k ≠ k') :
    mapFind k (mapInsert k' v m) = mapFind k m := by
  induction m with
  | nil => simp [mapInsert, mapFind, h]
  | cons e rest ih =>
    obtain ⟨k2, v2⟩ := e
    by_cases h1 : k' = k2
    · subst h1
      simp [mapInsert, mapFind, h]
    · by_cases h2 : bytesLt k' k2 = true
      · simp [mapInsert, mapFind, h1, h2, h]
      · by_cases h3 : k = k2
        · simp [mapInsert, mapFind, h1, h2, h3]
        · simp [mapInsert, mapFind, h1, h2, h3, ih]

theorem read_token_of_whitespace (b : Bytes) (h : ∀ c ∈ b, isspace c = true) :
    read_token b = none := by
  have hd : b.dropWhile isspace = [] := List.dropWhile_eq_nil_iff.mpr h
  simp [read_token, hd]

theorem parse_of_read_token_none (b : Bytes) (h : read_token b = none) :
    HttpRequest.parse b = { raw_request_ := b } := by
  simp [HttpRequest.parse, h]

theorem singleton_infix_iff_mem (c : Char) (l : Bytes) : [c] <:+: l ↔ c ∈ l := by
  constructor
  · rintro ⟨s, t, rfl⟩
    simp
  · intro h
    obtain ⟨s, t, rfl⟩ := List.append_of_mem h
    exact ⟨s, t, by simp⟩

theorem is_valid_iff (r : HttpRequest) :
    r.is_valid = true ↔
      ((r.method_ = "GET".toList ∨ r.method_ = "POST".toList ∨ r.method_ = "PUT".toList ∨
          r.method_ = "DELETE".toList) ∧
        r.version_ = "HTTP/1.1".toList ∧ r.path_ ≠ [] ∧ r.path_.head? = some '/' ∧
        ' ' ∉ r.path_ ∧ CRLFCRLF <:+: r.raw_request_) := by
  have hsp : (find r.path_ [' ']).isSome = true ↔ ' ' ∈ r.path_ := by
    rw [find_isSome_iff, singleton_infix_iff_mem]
  have hraw : (find r.raw_request_ CRLFCRLF).isNone = true ↔ ¬ CRLFCRLF <:+: r.raw_request_ :=
    find_isNone_iff _ _
  have hmem : ["GET".toList, "POST".toList, "PUT".toList, "DELETE".toList].contains r.method_
      = true ↔ (r.method_ = "GET".toList ∨ r.method_ = "POST".toList ∨
        r.method_ = "PUT".toList ∨ r.method_ = "DELETE".toList) := by
    simp
  unfold HttpRequest.is_valid
  by_cases h1 : (r.method_.isEmpty || r.path_.isEmpty || r.version_.isEmpty) = true
  · rw [if_pos h1]
    simp only [Bool.or_eq_true, List.isEmpty_iff] at h1
    constructor
    · intro h; cases h
    · rintro ⟨hm, hv, hp, _⟩
      rcases h1 with (h1 | h1) | h1
      · rw [h1] at hm
        rcases hm with hm | hm | hm | hm <;> cases hm
      · exact absurd h1 hp
      · rw [h1] at hv; cases hv
  · rw [if_neg h1]
    simp only [Bool.or_eq_true, List.isEmpty_iff, not_or] at h1
    obtain ⟨⟨_, hp⟩, _⟩ := h1
    by_cases h2 : (r.version_ != "HTTP/1.1".toList) = true
    · rw [if_pos h2]
      have : r.version_ ≠ "HTTP/1.1".toList := by simpa using h2
      constructor
      · intro h; cases h
      · rintro ⟨_, hv, _⟩; exact absurd hv this
    · rw [if_neg h2]
      have hv : r.version_ = "HTTP/1.1".toList := by simpa using h2
      by_cases h3 : (!(["GET".toList, "POST".toList, "PUT".toList, "DELETE".toList].contains
          r.method_)) = true
      · rw [if_pos h3]
        have hn : ¬ (r.method_ = "GET".toList ∨ r.method_ = "POST".toList ∨
            r.method_ = "PUT".toList ∨ r.method_ = "DELETE".toList) := by
          intro hm
          rw [hmem.mpr hm] at h3
          cases h3
        constructor
        · intro h; cases h
        · rintro ⟨hm, _⟩; exact absurd hm hn
      · rw [if_neg h3]
        have hm : r.method_ = "GET".toList ∨ r.method_ = "POST".toList ∨
            r.method_ = "PUT".toList ∨ r.method_ = "DELETE".toList := by
          apply hmem.mp
          cases hc : ["GET".toList, "POST".toList, "PUT".toList, "DELETE".toList].contains
            r.method_
          · rw [hc] at h3; exact absurd rfl h3
          · rfl
        by_cases h4 : (r.path_.head? != some '/') = true
        · rw [if_pos h4]
          have : r.path_.head? ≠ some '/' := by simpa using h4
          constructor
          · intro h; cases h
          · rintro ⟨_, _, _, hh, _⟩; exact absurd hh this
        · rw [if_neg h4]
          have hh : r.path_.head? = some '/' := by simpa using h4
          by_cases h5 : (find r.path_ [' ']).isSome = true
          · rw [if_pos h5]
            constructor
            · intro h; cases h
            · rintro ⟨_, _, _, _, hs, _⟩; exact absurd (hsp.mp h5) hs
          · rw [if_neg h5]
            by_cases h6 : (find r.raw_request_ CRLFCRLF).isNone = true
            · rw [if_pos h6]
              constructor
              · intro h; cases h
              · rintro ⟨_, _, _, _, _, hr⟩; exact absurd hr (hraw.mp h6)
            · rw [if_neg h6]
              refine ⟨fun _ => ⟨hm, hv, hp, hh, fun hs => h5 (hsp.mpr hs), ?_⟩, fun _ => rfl⟩
              by_contra hr
              exact h6 (hraw.mpr hr)

theorem char_eq_of_toNat_eq (a b : Char) (h : a.toNat = b.toNat) : a = b := by
  apply Char.ext
  apply UInt32.ext
  exact h

theorem bytesLt_trans (a b c : Bytes) (h1 : bytesLt a b = true) (h2 : bytesLt b c = true) :
    bytesLt a c = true := by
  induction a generalizing b c with
  | nil =>
    cases b with
    | nil => simp [bytesLt] at h1
    | cons y ys =>
      cases c with
      | nil => simp [bytesLt] at h2
      | cons z zs => simp [bytesLt]
  | cons x xs ih =>
    cases b with
    | nil => simp [bytesLt] at h1
    | cons y ys =>
      cases c with
      | nil => simp [bytesLt] at h2
      | cons z zs =>
        unfold bytesLt at h1 h2 ⊢
        by_cases hxy : x.toNat < y.toNat
        · by_cases hyz : y.toNat < z.toNat
          · rw [if_pos (by omega)]
          · rw [if_neg hyz] at h2
            by_cases hzy : z.toNat < y.toNat
            · rw [if_pos hzy] at h2; cases h2
            · rw [if_pos (by omega)]
        · rw [if_neg hxy] at h1
          by_cases hyx : y.toNat < x.toNat
          · rw [if_pos hyx] at h1; cases h1
          · rw [if_neg hyx] at h1
            by_cases hyz : y.toNat < z.toNat
            · rw [if_pos (by omega)]
            · rw [if_neg hyz] at h2
              by_cases hzy : z.toNat < y.toNat
              · rw [if_pos hzy] at h2; cases h2
              · rw [if_neg hzy] at h2
                rw [if_neg (by omega), if_neg (by omega)]
                exact ih ys zs h1 h2

theorem bytesLt_of_ne_of_not_lt (a b : Bytes) (hne : a ≠ b) (h : ¬ bytesLt a b = true) :
    bytesLt b a = true := by
  induction a generalizing b with
  | nil =>
    cases b with
    | nil => exact absurd rfl hne
    | cons y ys => simp [bytesLt] at h
  | cons x xs ih =>
    cases b with
    | nil => simp [bytesLt]
    | cons y ys =>
      unfold bytesLt at h ⊢
      by_cases hxy : x.toNat < y.toNat
      · rw [if_pos hxy] at h; exact absurd rfl h
      · rw [if_neg hxy] at h
        by_cases hyx : y.toNat < x.toNat
        · rw [if_pos hyx]
        · rw [if_neg hyx] at h
          rw [if_neg hyx, if_neg hxy]
          have hxe : x = y := char_eq_of_toNat_eq x y (by omega)
          apply ih ys _ h
          intro hxs
          exact hne (by rw [hxe, hxs])

theorem mem_mapInsert {V : Type} (k : Bytes) (v : V) (m : StdMap V) (e : Bytes × V)
    (h : e ∈ mapInsert k v m) : e.1 = k ∨ e ∈ m := by
  induction m with
  | nil =>
    simp only [mapInsert, List.mem_singleton] at h
    exact Or.inl (by rw [h])
  | cons e' rest ih =>
    obtain ⟨k', v'⟩ := e'
    unfold mapInsert at h
    by_cases h1 : k = k'
    · rw [if_pos h1] at h
      rcases List.mem_cons.mp h with h | h
      · exact Or.inl (by rw [h])
      · exact Or.inr (List.mem_cons_of_mem _ h)
    · rw [if_neg h1] at h
      by_cases h2 : bytesLt k k' = true
      · rw [if_pos h2] at h
        rcases List.mem_cons.mp h with h | h
        · exact Or.inl (by rw [h])
        · exact Or.inr h
      · rw [if_neg h2] at h
        rcases List.mem_cons.mp h with h | h
        · exact Or.inr (by rw [h]; exact List.mem_cons_self _ _)
        · rcases ih h with h | h
          · exact Or.inl h
          · exact Or.inr (List.mem_cons_of_mem _ h)

theorem mapSorted_mapInsert {V : Type} (k : Bytes) (v : V) (m : StdMap V) (h : mapSorted m) :
    mapSorted (mapInsert k v m) := by
  induction m with
  | nil => simp [mapSorted, mapInsert]
  | cons e' rest ih =>
    obtain ⟨k', v'⟩ := e'
    unfold mapSorted at h ⊢
    rw [List.pairwise_cons] at h
    obtain ⟨hhead, hrest⟩ := h
    unfold mapInsert
    by_cases h1 : k = k'
    · rw [if_pos h1, List.pairwise_cons]
      refine ⟨fun b hb => ?_, hrest⟩
      rw [h1]
      exact hhead b hb
    · rw [if_neg h1]
      by_cases h2 : bytesLt k k' = true
      · rw [if_pos h2, List.pairwise_cons, List.pairwise_cons]
        refine ⟨fun b hb => ?_, hhead, hrest⟩
        rcases List.mem_cons.mp hb with hb | hb
        · rw [hb]; exact h2
        · exact bytesLt_trans _ _ _ h2 (hhead b hb)
      · rw [if_neg h2, List.pairwise_cons]
        refine ⟨fun b hb => ?_, ih hrest⟩
        rcases mem_mapInsert k v rest b hb with hb | hb
        · rw [hb]
          exact bytesLt_of_ne_of_not_lt k k' h1 h2
        · exact hhead b hb

theorem foldl_append_lines (f : Bytes × Bytes → Bytes) (l : List (Bytes × Bytes)) (acc : Bytes) :
    l.foldl (fun a kv => a ++ f kv) acc = acc ++ (l.map f).flatten := by
  induction l generalizing acc with
  | nil => simp
  | cons e rest ih => simp [List.foldl_cons, ih, List.append_assoc]

theorem match_step_nonempty (path : Bytes) (seen : List Bytes) (st : MatchState)
    (k : Bytes) (hk : k ≠ [])
    (hinv : (st.prefix_match = [] ∧ st.max_len = 0 ∧ ∀ q ∈ seen, ¬ q <+: path) ∨
      (st.prefix_match ∈ seen ∧ st.prefix_match <+: path ∧ st.prefix_match ≠ [])) :
    ((match_step path st k).prefix_match = [] ∧ (match_step path st k).max_len = 0 ∧
        ∀ q ∈ seen ++ [k], ¬ q <+: path) ∨
      ((match_step path st k).prefix_match ∈ seen ++ [k] ∧
        (match_step path st k).prefix_match <+: path ∧
        (match_step path st k).prefix_match ≠ []) := by
  have hkpos : 0 < k.length := List.length_pos.mpr hk
  by_cases hp : k.isPrefixOf path = true
  · have hpre : k <+: path := List.isPrefixOf_iff_prefix.mp hp
    by_cases hgt : k.length > to_size_t st.max_len
    · have hstep : match_step path st k
          = { prefix_match := k, max_len := to_int k.length } := by
        unfold match_step
        rw [if_pos hp, if_pos hgt]
      rw [hstep]
      exact Or.inr ⟨by simp, hpre, hk⟩
    · have hstep : match_step path st k = st := by
        unfold match_step
        rw [if_pos hp, if_neg hgt]
      rw [hstep]
      rcases hinv with ⟨_, h2, _⟩ | ⟨h1, h2, h3⟩
      · rw [h2, to_size_t_zero] at hgt
        exact absurd hkpos hgt
      · exact Or.inr ⟨List.mem_append_left _ h1, h2, h3⟩
  · have hstep : match_step path st k = st := by
      unfold match_step
      rw [if_neg hp]
    have hnpre : ¬ k <+: path := fun hh => hp (List.isPrefixOf_iff_prefix.mpr hh)
    rw [hstep]
    rcases hinv with ⟨h1, h2, h3⟩ | ⟨h1, h2, h3⟩
    · refine Or.inl ⟨h1, h2, ?_⟩
      intro q hq
      rcases List.mem_append.mp hq with hq | hq
      · exact h3 q hq
      · rw [List.mem_singleton.mp hq]; exact hnpre
    · exact Or.inr ⟨List.mem_append_left _ h1, h2, h3⟩

theorem match_foldl_nonempty (path : Bytes) (keys : List Bytes) :
    ∀ (seen : List Bytes) (st : MatchState),
    (∀ k ∈ keys, k ≠ []) →
    ((st.prefix_match = [] ∧ st.max_len = 0 ∧ ∀ q ∈ seen, ¬ q <+: path) ∨
      (st.prefix_match ∈ seen ∧ st.prefix_match <+: path ∧ st.prefix_match ≠ [])) →
    (((keys.foldl (match_step path) st).prefix_match = [] ∧
        (keys.foldl (match_step path) st).max_len = 0 ∧
        ∀ q ∈ seen ++ keys, ¬ q <+: path) ∨
      ((keys.foldl (match_step path) st).prefix_match ∈ seen ++ keys ∧
        (keys.foldl (match_step path) st).prefix_match <+: path ∧
        (keys.foldl (match_step path) st).prefix_match ≠ [])) := by
  induction keys with
  | nil =>
    intro seen st _ hinv
    simpa using hinv
  | cons k ks ih =>
    intro seen st hkeys hinv
    have hstep := match_step_nonempty path seen st k (hkeys k (List.mem_cons_self _ _)) hinv
    have := ih (seen ++ [k]) (match_step path st k)
      (fun q hq => hkeys q (List.mem_cons_of_mem _ hq)) hstep
    simpa [List.foldl_cons, List.append_assoc] using this

theorem match_loop_cases {V : Type} (routes_ : StdMap V) (path : Bytes)
    (hkeys : ∀ k ∈ routes_.map Prod.fst, k ≠ []) :
    ((match_loop routes_ path).prefix_match = [] ∧
        ∀ q ∈ routes_.map Prod.fst, ¬ q <+: path) ∨
      ((match_loop routes_ path).prefix_match ∈ routes_.map Prod.fst ∧
        (match_loop routes_ path).prefix_match <+: path ∧
        (match_loop routes_ path).prefix_match ≠ []) := by
  have hinv := match_foldl_nonempty path (routes_.map Prod.fst) []
    { prefix_match := [], max_len := 0 } hkeys (Or.inl ⟨rfl, rfl, by simp⟩)
  rw [← match_loop_eq, List.nil_append] at hinv
  rcases hinv with ⟨h1, _, h3⟩ | h
  · exact Or.inl ⟨h1, h3⟩
  · exact Or.inr h

theorem read_token_spec (s tok rest : Bytes) (h : read_token s = some (tok, rest)) :
    s = s.takeWhile isspace ++ tok ++ rest ∧ tok ≠ [] ∧
    (∀ c ∈ tok, isspace c = false) ∧
    (∀ c, rest.head? = some c → isspace c = true) := by
  unfold read_token at h
  simp only at h
  by_cases he : (s.dropWhile isspace).isEmpty = true
  · rw [if_pos he] at h; cases h
  · rw [if_neg he] at h
    have hne : s.dropWhile isspace ≠ [] := by
      intro hh; rw [hh] at he; exact he rfl
    simp only [Option.some.injEq, Prod.mk.injEq] at h
    obtain ⟨htok, hrest⟩ := h
    have hsplit : s.dropWhile isspace = tok ++ rest := by
      rw [← htok, ← hrest]
      exact (List.takeWhile_append_dropWhile _ _).symm
    refine ⟨?_, ?_, ?_, ?_⟩
    · rw [List.append_assoc, ← hsplit]
      exact (List.takeWhile_append_dropWhile _ _).symm
    · have hhead := List.head_dropWhile_not isspace s hne
      obtain ⟨c, t, hct⟩ := List.exists_cons_of_ne_nil hne
      simp only [hct, List.head_cons] at hhead
      rw [← htok, hct, List.takeWhile_cons]
      simp [hhead]
    · intro c hc
      rw [← htok] at hc
      have := List.mem_takeWhile_imp hc
      simpa using this
    · intro c hc
      have := List.head?_dropWhile_not (fun c => !isspace c) (s.dropWhile isspace)
      rw [hrest, hc] at this
      simpa using this

theorem read_token_input_ne_nil (s tok rest : Bytes) (h : read_token s = some (tok, rest)) :
    s ≠ [] := by
  intro hs
  rw [hs] at h
  simp [read_token] at h

theorem takeWhile_isspace_ne_nil (s : Bytes) (hs : s ≠ [])
    (hh : ∀ c, s.head? = some c → isspace c = true) : s.takeWhile isspace ≠ [] := by
  obtain ⟨c, t, rfl⟩ := List.exists_cons_of_ne_nil hs
  have := hh c rfl
  simp [List.takeWhile_cons, this]

theorem parse_path_and_query_fields (r : HttpRequest) :
    (HttpRequest.parse_path_and_query r).method_ = r.method_ ∧
    (HttpRequest.parse_path_and_query r).path_ = r.path_ ∧
    (HttpRequest.parse_path_and_query r).version_ = r.version_ ∧
    (HttpRequest.parse_path_and_query r).raw_request_ = r.raw_request_ := by
  unfold HttpRequest.parse_path_and_query
  cases find r.path_ ['?'] <;> exact ⟨rfl, rfl, rfl, rfl⟩

theorem parse_fields (r m s1 p s2 v s3 : Bytes) (h1 : read_token r = some (m, s1))
    (h2 : read_token s1 = some (p, s2)) (h3 : read_token s2 = some (v, s3)) :
    (HttpRequest.parse r).method_ = m ∧ (HttpRequest.parse r).path_ = p ∧
    (HttpRequest.parse r).version_ = v := by
  unfold HttpRequest.parse
  simp only [h1, h2, h3]
  exact ⟨(parse_path_and_query_fields _).1, (parse_path_and_query_fields _).2.1,
    (parse_path_and_query_fields _).2.2.1⟩

theorem parse_tokens_of_method (r : Bytes) (h : (HttpRequest.parse r).method_ ≠ []) :
    ∃ m s1 p s2 v s3, read_token r = some (m, s1) ∧ read_token s1 = some (p, s2) ∧
      read_token s2 = some (v, s3) := by
  cases h1 : read_token r with
  | none => exact absurd (by rw [parse_of_read_token_none r h1]) h
  | some t1 =>
    obtain ⟨m, s1⟩ := t1
    cases h2 : read_token s1 with
    | none => exact absurd (by simp [HttpRequest.parse, h1, h2]) h
    | some t2 =>
      obtain ⟨p, s2⟩ := t2
      cases h3 : read_token s2 with
      | none => exact absurd (by simp [HttpRequest.parse, h1, h2, h3]) h
      | some t3 =>
        obtain ⟨v, s3⟩ := t3
        exact ⟨m, s1, p, s2, v, s3, rfl, h2, h3⟩

/-! ## Facts about tokens -/

theorem ws_tokens_from_of_ne_nil (s cur : Bytes) (h : cur ≠ []) :
    ws_tokens_from cur s =
      (cur ++ s.takeWhile (fun c => !isspace c))
        :: ws_tokens_from [] (s.dropWhile (fun c => !isspace c)) := by
  induction s generalizing cur with
  | nil =>
    have he : cur.isEmpty = false := by
      cases cur with
      | nil => exact absurd rfl h
      | cons a as => rfl
    simp [ws_tokens_from, he]
  | cons c cs ih =>
    have he : cur.isEmpty = false := by
      cases cur with
      | nil => exact absurd rfl h
      | cons a as => rfl
    by_cases hc : isspace c = true
    · simp [ws_tokens_from, hc, he, List.takeWhile_cons, List.dropWhile_cons]
    · have hc' : isspace c = false := by simpa using hc
      rw [ws_tokens_from, if_neg hc, ih (cur ++ [c]) (by simp)]
      simp [List.takeWhile_cons, List.dropWhile_cons, hc']

theorem ws_tokens_from_nil_dropWhile (s : Bytes) :
    ws_tokens_from [] s = ws_tokens_from [] (s.dropWhile isspace) := by
  induction s with
  | nil => rfl
  | cons c cs ih =>
    by_cases hc : isspace c = true
    · rw [List.dropWhile_cons, if_pos hc, ← ih]
      simp [ws_tokens_from, hc]
    · rw [List.dropWhile_cons, if_neg hc]

theorem ws_tokens_of_read_token_none (s : Bytes) (h : read_token s = none) :
    ws_tokens s = [] := by
  unfold read_token at h
  simp only at h
  by_cases he : (s.dropWhile isspace).isEmpty = true
  · have hnil : s.dropWhile isspace = [] := List.isEmpty_iff.mp he
    unfold ws_tokens
    rw [ws_tokens_from_nil_dropWhile, hnil]
    rfl
  · rw [if_neg he] at h; cases h

theorem ws_tokens_of_read_token (s tok rest : Bytes) (h : read_token s = some (tok, rest)) :
    ws_tokens s = tok :: ws_tokens rest := by
  unfold read_token at h
  simp only at h
  by_cases he : (s.dropWhile isspace).isEmpty = true
  · rw [if_pos he] at h; cases h
  · rw [if_neg he] at h
    have hne : s.dropWhile isspace ≠ [] := by
      intro hh; rw [hh] at he; exact he rfl
    simp only [Option.some.injEq, Prod.mk.injEq] at h
    obtain ⟨htok, hrest⟩ := h
    have hhead := List.head_dropWhile_not isspace s hne
    obtain ⟨c, t, hct⟩ := List.exists_cons_of_ne_nil hne
    simp only [hct, List.head_cons] at hhead
    unfold ws_tokens
    rw [ws_tokens_from_nil_dropWhile, hct, ws_tokens_from, if_neg (by simp [hhead]),
      ws_tokens_from_of_ne_nil t ([] ++ [c]) (by simp), ← htok, ← hrest, hct]
    simp [List.takeWhile_cons, List.dropWhile_cons, hhead]

theorem parse_raw_request (r : Bytes) : (HttpRequest.parse r).raw_request_ = r := by
  cases h1 : read_token r with
  | none => rw [parse_of_read_token_none r h1]
  | some t1 =>
    obtain ⟨m, s1⟩ := t1
    cases h2 : read_token s1 with
    | none => simp [HttpRequest.parse, h1, h2]
    | some t2 =>
      obtain ⟨p, s2⟩ := t2
      cases h3 : read_token s2 with
      | none => simp [HttpRequest.parse, h1, h2, h3]
      | some t3 =>
        obtain ⟨v, s3⟩ := t3
        unfold HttpRequest.parse
        simp only [h1, h2, h3]
        exact (parse_path_and_query_fields _).2.2.2

theorem parse_of_few_tokens (r : Bytes) (h : (ws_tokens r).length < 3) :
    HttpRequest.parse r = { raw_request_ := r } := by
  cases h1 : read_token r with
  | none => exact parse_of_read_token_none r h1
  | some t1 =>
    obtain ⟨m, s1⟩ := t1
    cases h2 : read_token s1 with
    | none => simp [HttpRequest.parse, h1, h2]
    | some t2 =>
      obtain ⟨p, s2⟩ := t2
      cases h3 : read_token s2 with
      | none => simp [HttpRequest.parse, h1, h2, h3]
      | some t3 =>
        obtain ⟨v, s3⟩ := t3
        rw [ws_tokens_of_read_token r m s1 h1, ws_tokens_of_read_token s1 p s2 h2,
          ws_tokens_of_read_token s2 v s3 h3] at h
        simp only [List.length_cons] at h
        omega

theorem parse_of_three_tokens (r t1 t2 t3 : Bytes) (ts : List Bytes)
    (h : ws_tokens r = t1 :: t2 :: t3 :: ts) :
    (HttpRequest.parse r).method_ = t1 ∧ (HttpRequest.parse r).path_ = t2 ∧
    (HttpRequest.parse r).version_ = t3 := by
  cases h1 : read_token r with
  | none => rw [ws_tokens_of_read_token_none r h1] at h; cases h
  | some x1 =>
    obtain ⟨m, s1⟩ := x1
    rw [ws_tokens_of_read_token r m s1 h1] at h
    cases h2 : read_token s1 with
    | none => rw [ws_tokens_of_read_token_none s1 h2] at h; cases h
    | some x2 =>
      obtain ⟨p, s2⟩ := x2
      rw [ws_tokens_of_read_token s1 p s2 h2] at h
      cases h3 : read_token s2 with
      | none => rw [ws_tokens_of_read_token_none s2 h3] at h; cases h
      | some x3 =>
        obtain ⟨v, s3⟩ := x3
        rw [ws_tokens_of_read_token s2 v s3 h3] at h
        simp only [List.cons.injEq] at h
        obtain ⟨e1, e2, e3, _⟩ := h
        rw [← e1, ← e2, ← e3]
        exact parse_fields r m s1 p s2 v s3 h1 h2 h3

/-! ## Facts about `getlines`, single-byte searches and the query string -/

theorem find_singleton_append (a b : Bytes) (c : Char) (h : c ∉ a) :
    find (a ++ c :: b) [c] = some a.length := by
  induction a with
  | nil => exact find_eq_zero _ _ (by simp [List.isPrefixOf])
  | cons x xs ih =>
    have hx : c ≠ x := fun hh => h (by rw [hh]; exact List.mem_cons_self _ _)
    have hxs : c ∉ xs := fun hh => h (List.mem_cons_of_mem _ hh)
    rw [List.cons_append, find_cons_eq_map x _ [c] (by simp [List.isPrefixOf, hx]), ih hxs]
    rfl

theorem find_singleton_some (s : Bytes) (c : Char) (i : Nat) (h : find s [c] = some i) :
    s = s.take i ++ c :: s.drop (i + 1) ∧ c ∉ s.take i := by
  induction s generalizing i with
  | nil => simp [find, List.isPrefixOf] at h
  | cons x xs ih =>
    by_cases hx : c = x
    · subst hx
      rw [find_eq_zero _ _ (by simp [List.isPrefixOf])] at h
      cases h
      simp
    · rw [find_cons_eq_map x xs [c] (by simp [List.isPrefixOf, hx]), Option.map_eq_some'] at h
      obtain ⟨j, hj, rfl⟩ := h
      obtain ⟨h1, h2⟩ := ih j hj
      refine ⟨?_, ?_⟩
      · simp only [List.take_succ_cons, List.drop_succ_cons, List.cons_append]
        rw [← h1]
      · simp only [List.take_succ_cons, List.mem_cons, not_or]
        exact ⟨hx, h2⟩

theorem find_singleton_none (s : Bytes) (c : Char) : find s [c] = none ↔ c ∉ s := by
  rw [← singleton_infix_iff_mem, ← find_isNone_iff]
  cases find s [c] <;> simp

theorem getlines_eq_nil_iff (d : Char) (s : Bytes) : getlines d s = [] ↔ s = [] := by
  cases s with
  | nil => simp [getlines]
  | cons c cs =>
    simp only [getlines, reduceCtorEq, iff_false]
    by_cases hc : c = d
    · simp [hc]
    · rw [if_neg hc]
      cases getlines d cs <;> simp

theorem getlines_append_delim (d : Char) (l rest : Bytes) (h : d ∉ l) :
    getlines d (l ++ d :: rest) = l :: getlines d rest := by
  induction l with
  | nil => simp [getlines]
  | cons x xs ih =>
    have hx : x ≠ d := fun hh => h (by rw [hh]; exact List.mem_cons_self _ _)
    have hxs : d ∉ xs := fun hh => h (List.mem_cons_of_mem _ hh)
    rw [List.cons_append, getlines, if_neg hx, ih hxs]

theorem getlines_of_no_delim (d : Char) (l : Bytes) (h : d ∉ l) (hne : l ≠ []) :
    getlines d l = [l] := by
  induction l with
  | nil => exact absurd rfl hne
  | cons x xs ih =>
    have hx : x ≠ d := fun hh => h (by rw [hh]; exact List.mem_cons_self _ _)
    have hxs : d ∉ xs := fun hh => h (List.mem_cons_of_mem _ hh)
    rw [getlines, if_neg hx]
    cases xs with
    | nil => simp [getlines]
    | cons y ys => rw [ih hxs (List.cons_ne_nil _ _)]

theorem not_mem_of_mem_getlines (d : Char) (s seg : Bytes) (h : seg ∈ getlines d s) :
    d ∉ seg := by
  induction s generalizing seg with
  | nil => simp [getlines] at h
  | cons c cs ih =>
    by_cases hc : c = d
    · rw [getlines, if_pos hc] at h
      rcases List.mem_cons.mp h with h | h
      · rw [h]; simp
      · exact ih seg h
    · rw [getlines, if_neg hc] at h
      cases hg : getlines d cs with
      | nil =>
        rw [hg] at h
        simp only [List.mem_singleton] at h
        rw [h]
        simp only [List.mem_singleton]
        exact fun hh => hc hh.symm
      | cons l ls =>
        rw [hg] at h ih
        rcases List.mem_cons.mp h with h | h
        · rw [h]
          simp only [List.mem_cons, not_or]
          exact ⟨fun hh => hc hh.symm, ih l (List.mem_cons_self _ _)⟩
        · exact ih seg (List.mem_cons_of_mem _ h)

theorem getlines_flatten (d : Char) (s : Bytes) :
    ((getlines d s).map (fun l => l ++ [d])).flatten
      = if s.getLast? = some d ∨ s = [] then s else s ++ [d] := by
  induction s with
  | nil => simp [getlines]
  | cons c cs ih =>
    by_cases hc : c = d
    · subst hc
      rw [getlines, if_pos rfl]
      simp only [List.map_cons, List.flatten_cons, ih]
      cases cs with
      | nil => simp
      | cons a as =>
        rw [List.getLast?_cons_cons]
        by_cases hl : (a :: as).getLast? = some c <;> simp [hl]
    · rw [getlines, if_neg hc]
      cases hg : getlines d cs with
      | nil =>
        have hcs := (getlines_eq_nil_iff d cs).mp hg
        subst hcs
        simp [hc]
      | cons l ls =>
        rw [hg] at ih
        have hne : cs ≠ [] := fun hh => by
          rw [hh] at hg
          simp [getlines] at hg
        obtain ⟨a, as, rfl⟩ := List.exists_cons_of_ne_nil hne
        simp only [List.map_cons, List.flatten_cons] at ih ⊢
        rw [List.getLast?_cons_cons, List.cons_append, List.cons_append, ih]
        by_cases hl : (a :: as).getLast? = some d <;> simp [hl]

theorem foldl_append_flatten (f : Bytes → Bytes) (l : List Bytes) (acc : Bytes) :
    l.foldl (fun a x => a ++ f x) acc = acc ++ (l.map f).flatten := by
  induction l generalizing acc with
  | nil => simp
  | cons e rest ih => simp [List.foldl_cons, ih, List.append_assoc]

theorem parse_body_getlines (B : Bytes) :
    HttpRequest.parse_body (getlines '\n' B)
      = if B.getLast? = some '\n' then B.dropLast else B := by
  have hfold : (getlines '\n' B).foldl (fun acc line => acc ++ line ++ ['\n']) []
      = if B.getLast? = some '\n' ∨ B = [] then B else B ++ ['\n'] := by
    have := foldl_append_flatten (fun l => l ++ ['\n']) (getlines '\n' B) []
    simp only [List.nil_append] at this
    rw [← getlines_flatten, ← this]
    congr 1
    funext acc line
    rw [List.append_assoc]
  unfold HttpRequest.parse_body
  simp only [hfold]
  by_cases hl : B.getLast? = some '\n'
  · simp [hl]
  · by_cases hB : B = []
    · simp [hB]
    · simp [hl, hB]

theorem query_fold_lookup (k : Bytes) (segs : List Bytes) (m : StdMap Bytes) :
    mapFind k (segs.foldl
        (fun m pair =>
          match find pair ['='] with
          | some equals_pos => mapInsert (pair.take equals_pos) (pair.drop (equals_pos + 1)) m
          | none => m) m)
      = segs.foldl
        (fun acc pair =>
          match find pair ['='] with
          | some equals_pos =>
            if pair.take equals_pos = k then some (pair.drop (equals_pos + 1)) else acc
          | none => acc) (mapFind k m) := by
  induction segs generalizing m with
  | nil => rfl
  | cons seg rest ih =>
    rw [List.foldl_cons, List.foldl_cons, ih]
    congr 1
    cases hf : find seg ['='] with
    | none => rfl
    | some i =>
      simp only
      by_cases hk : seg.take i = k
      · rw [if_pos hk, hk, mapFind_mapInsert_self]
      · rw [if_neg hk, mapFind_mapInsert_ne _ _ _ _ (Ne.symm hk)]

theorem find_eq_key_iff (seg k : Bytes) :
    (∃ i, find seg ['='] = some i ∧ seg.take i = k) ↔ ∃ v, seg = k ++ '=' :: v ∧ '=' ∉ k := by
  constructor
  · rintro ⟨i, hi, hk⟩
    obtain ⟨h1, h2⟩ := find_singleton_some seg '=' i hi
    rw [hk] at h1 h2
    exact ⟨_, h1, h2⟩
  · rintro ⟨v, hv, hk⟩
    refine ⟨k.length, ?_, ?_⟩
    · rw [hv]; exact find_singleton_append k v '=' hk
    · rw [hv]; simp

theorem find_key_value (k v : Bytes) (hk : '=' ∉ k) :
    find (k ++ '=' :: v) ['='] = some k.length ∧ (k ++ '=' :: v).take k.length = k ∧
    (k ++ '=' :: v).drop (k.length + 1) = v := by
  refine ⟨find_singleton_append k v '=' hk, by simp, ?_⟩
  rw [← List.drop_drop]
  simp

theorem select_fold_no_match (k : Bytes) (segs : List Bytes) (init : Option Bytes)
    (h : ∀ s ∈ segs, ∀ v, s = k ++ '=' :: v → '=' ∈ k) :
    segs.foldl
        (fun acc pair =>
          match find pair ['='] with
          | some equals_pos =>
            if pair.take equals_pos = k then some (pair.drop (equals_pos + 1)) else acc
          | none => acc) init = init := by
  induction segs generalizing init with
  | nil => rfl
  | cons seg rest ih =>
    rw [List.foldl_cons]
    have hstep : (match find seg ['='] with
        | some equals_pos =>
          if seg.take equals_pos = k then some (seg.drop (equals_pos + 1)) else init
        | none => init) = init := by
      cases hf : find seg ['='] with
      | none => rfl
      | some i =>
        simp only
        by_cases hk : seg.take i = k
        · exfalso
          obtain ⟨v, hv, hnk⟩ := (find_eq_key_iff seg k).mp ⟨i, hf, hk⟩
          exact hnk (h seg (List.mem_cons_self _ _) v hv)
        · rw [if_neg hk]
    rw [hstep]
    exact ih init (fun s hs => h s (List.mem_cons_of_mem _ hs))

theorem select_fold_last (k v : Bytes) (A B : List Bytes) (init : Option Bytes)
    (hk : '=' ∉ k) (hB : ∀ s ∈ B, ∀ v', s ≠ k ++ '=' :: v') :
    (A ++ (k ++ '=' :: v) :: B).foldl
        (fun acc pair =>
          match find pair ['='] with
          | some equals_pos =>
            if pair.take equals_pos = k then some (pair.drop (equals_pos + 1)) else acc
          | none => acc) init = some v := by
  obtain ⟨h1, h2, h3⟩ := find_key_value k v hk
  rw [List.foldl_append, List.foldl_cons]
  simp only [h1, h2, h3, if_true]
  exact select_fold_no_match k B (some v) (fun s hs v' hv => absurd hv (hB s hs v'))

theorem select_fold_some (k v : Bytes) (segs : List Bytes) (init : Option Bytes)
    (h : segs.foldl
        (fun acc pair =>
          match find pair ['='] with
          | some equals_pos =>
            if pair.take equals_pos = k then some (pair.drop (equals_pos + 1)) else acc
          | none => acc) init = some v) :
    init = some v ∨ ∃ seg ∈ segs, seg = k ++ '=' :: v ∧ '=' ∉ k := by
  induction segs generalizing init with
  | nil => exact Or.inl h
  | cons seg rest ih =>
    rw [List.foldl_cons] at h
    rcases ih _ h with h' | ⟨s, hs, hv⟩
    · cases hf : find seg ['='] with
      | none =>
        rw [hf] at h'
        exact Or.inl h'
      | some i =>
        rw [hf] at h'
        simp only at h'
        by_cases hk : seg.take i = k
        · rw [if_pos hk] at h'
          obtain ⟨h1, h2⟩ := find_singleton_some seg '=' i hf
          rw [hk] at h1 h2
          simp only [Option.some.injEq] at h'
          rw [h'] at h1
          exact Or.inr ⟨seg, List.mem_cons_self _ _, h1, h2⟩
        · rw [if_neg hk] at h'
          exact Or.inl h'
    · exact Or.inr ⟨s, List.mem_cons_of_mem _ hs, hv⟩

theorem select_fold_isSome_of (k : Bytes) (segs : List Bytes) (init : Option Bytes)
    (h : init.isSome = true ∨ ∃ seg ∈ segs, ∃ v, seg = k ++ '=' :: v ∧ '=' ∉ k) :
    (segs.foldl
        (fun acc pair =>
          match find pair ['='] with
          | some equals_pos =>
            if pair.take equals_pos = k then some (pair.drop (equals_pos + 1)) else acc
          | none => acc) init).isSome = true := by
  induction segs generalizing init with
  | nil =>
    rcases h with h | ⟨s, hs, _⟩
    · exact h
    · simp at hs
  | cons seg rest ih =>
    rw [List.foldl_cons]
    apply ih
    rcases h with h | ⟨s, hs, v, hv, hk⟩
    · left
      cases hf : find seg ['='] with
      | none => exact h
      | some i =>
        simp only
        by_cases hk : seg.take i = k
        · rw [if_pos hk]; rfl
        · rw [if_neg hk]; exact h
    · rcases List.mem_cons.mp hs with hs | hs
      · left
        obtain ⟨h1, h2, _⟩ := find_key_value k v hk
        rw [← hs, hv, h1]
        simp only [h2, if_true]
        rfl
      · exact Or.inr ⟨s, hs, v, hv, hk⟩

theorem select_fold_isSome (k : Bytes) (segs : List Bytes) :
    (segs.foldl
        (fun acc pair =>
          match find pair ['='] with
          | some equals_pos =>
            if pair.take equals_pos = k then some (pair.drop (equals_pos + 1)) else acc
          | none => acc) none).isSome = true ↔
      ∃ seg ∈ segs, ∃ v, seg = k ++ '=' :: v ∧ '=' ∉ k := by
  constructor
  · intro h
    obtain ⟨v, hv⟩ := Option.isSome_iff_exists.mp h
    rcases select_fold_some k v segs none hv with h' | ⟨s, hs, hsv⟩
    · cases h'
    · exact ⟨s, hs, v, hsv⟩
  · intro h
    exact select_fold_isSome_of k segs none (Or.inr h)

theorem parse_path_and_query_base (r : HttpRequest) :
    (HttpRequest.parse_path_and_query r).base_path_
      = (match find r.path_ ['?'] with
        | some query_pos => r.path_.take query_pos
        | none => r.path_) := by
  unfold HttpRequest.parse_path_and_query
  cases find r.path_ ['?'] <;> rfl

theorem parse_path_and_query_params (r : HttpRequest) :
    (HttpRequest.parse_path_and_query r).query_params_
      = (match find r.path_ ['?'] with
        | some query_pos =>
          (getlines '&' (r.path_.drop (query_pos + 1))).foldl
            (fun m pair =>
              match find pair ['='] with
              | some equals_pos =>
                mapInsert (pair.take equals_pos) (pair.drop (equals_pos + 1)) m
              | none => m) r.query_params_
        | none => r.query_params_) := by
  unfold HttpRequest.parse_path_and_query
  cases find r.path_ ['?'] <;> rfl

theorem get_query_param_set_path (r : HttpRequest) (base query k : Bytes)
    (hfresh : r.query_params_ = []) (hbase : '?' ∉ base) :
    (r.set_path (base ++ '?' :: query)).get_query_param k
      = (getlines '&' query).foldl
        (fun acc pair =>
          match find pair ['='] with
          | some equals_pos =>
            if pair.take equals_pos = k then some (pair.drop (equals_pos + 1)) else acc
          | none => acc) none := by
  have hf : find (base ++ '?' :: query) ['?'] = some base.length :=
    find_singleton_append base query '?' hbase
  have hd : (base ++ '?' :: query).drop (base.length + 1) = query := by
    rw [← List.drop_drop]; simp
  unfold HttpRequest.get_query_param HttpRequest.set_path
  rw [parse_path_and_query_params]
  simp only [hf, hd, hfresh]
  rw [query_fold_lookup]
  rfl

theorem parse_query_state (raw : Bytes) :
    (HttpRequest.parse raw).base_path_
      = (HttpRequest.set_path {} (HttpRequest.parse raw).path_).base_path_ ∧
    (HttpRequest.parse raw).query_params_
      = (HttpRequest.set_path {} (HttpRequest.parse raw).path_).query_params_ := by
  cases h1 : read_token raw with
  | none => rw [parse_of_read_token_none raw h1]; exact ⟨rfl, rfl⟩
  | some t1 =>
    obtain ⟨m, s1⟩ := t1
    cases h2 : read_token s1 with
    | none =>
      have : HttpRequest.parse raw = { raw_request_ := raw } := by
        simp [HttpRequest.parse, h1, h2]
      rw [this]; exact ⟨rfl, rfl⟩
    | some t2 =>
      obtain ⟨p, s2⟩ := t2
      cases h3 : read_token s2 with
      | none =>
        have : HttpRequest.parse raw = { raw_request_ := raw } := by
          simp [HttpRequest.parse, h1, h2, h3]
        rw [this]; exact ⟨rfl, rfl⟩
      | some t3 =>
        obtain ⟨v, s3⟩ := t3
        have hp := (parse_fields raw m s1 p s2 v s3 h1 h2 h3).2.1
        rw [hp]
        unfold HttpRequest.parse HttpRequest.set_path
        simp only [h1, h2, h3]
        rw [parse_path_and_query_base, parse_path_and_query_base,
          parse_path_and_query_params, parse_path_and_query_params]
        exact ⟨rfl, rfl⟩

/-! ## Facts about `trim` -/

theorem find_last_not_of_ne_nil (set s : Bytes) (e : Nat)
    (h : find_last_not_of set s = some e) : s.take (e + 1) ≠ [] := by
  cases s with
  | nil => simp [find_last_not_of] at h
  | cons c cs => simp

theorem find_last_not_of_cons_some (set : Bytes) (c : Char) (cs : Bytes) (i : Nat)
    (h : find_last_not_of set cs = some i) :
    find_last_not_of set (c :: cs) = some (i + 1) := by
  simp only [find_last_not_of, h]

theorem find_last_not_of_cons_none (set : Bytes) (c : Char) (cs : Bytes)
    (h : find_last_not_of set cs = none) :
    find_last_not_of set (c :: cs) = if set.contains c then none else some 0 := by
  simp only [find_last_not_of, h]

theorem find_last_not_of_spec (set : Bytes) (p : Char → Bool)
    (hp : ∀ c, p c = set.contains c) (s : Bytes) :
    (∀ e, find_last_not_of set s = some e →
        (s.reverse.dropWhile p).reverse = s.take (e + 1)) ∧
    (find_last_not_of set s = none → s.reverse.dropWhile p = []) := by
  induction s with
  | nil =>
    refine ⟨fun e h => ?_, fun _ => rfl⟩
    simp [find_last_not_of] at h
  | cons c cs ih =>
    rw [List.reverse_cons, List.dropWhile_append]
    cases hl : find_last_not_of set cs with
    | some i =>
      have h1 := ih.1 i hl
      have hne : cs.reverse.dropWhile p ≠ [] := by
        intro hh
        rw [hh] at h1
        exact find_last_not_of_ne_nil _ _ _ hl h1.symm
      have hem : (cs.reverse.dropWhile p).isEmpty = false := by
        cases hx : cs.reverse.dropWhile p with
        | nil => exact absurd hx hne
        | cons a as => rfl
      rw [find_last_not_of_cons_some _ c cs i hl, hem]
      refine ⟨fun e he => ?_, fun hn => ?_⟩
      · have he' : i + 1 = e := by simpa using he
        subst he'
        simp only [Bool.false_eq_true, if_false, List.reverse_append, List.reverse_cons,
          List.reverse_nil, List.nil_append, List.singleton_append, List.take_succ_cons]
        rw [h1]
      · simp at hn
    | none =>
      have h2 := ih.2 hl
      rw [find_last_not_of_cons_none _ c cs hl, h2]
      simp only [List.isEmpty_nil, if_true]
      by_cases hc : p c = true
      · have hc' : set.contains c = true := by rw [← hp]; exact hc
        rw [if_pos hc']
        refine ⟨fun e he => ?_, fun _ => ?_⟩
        · simp at he
        · simp [List.dropWhile_cons, hc]
      · have hc2 : p c = false := by simpa using hc
        have hc' : ¬ (set.contains c = true) := by rw [← hp]; exact hc
        rw [if_neg hc']
        refine ⟨fun e he => ?_, fun hn => ?_⟩
        · have he' : 0 = e := by simpa using he
          subst he'
          simp [List.dropWhile_cons, hc2]
        · simp at hn

theorem find_first_not_of_spec (set : Bytes) (p : Char → Bool)
    (hp : ∀ c, p c = set.contains c) (s : Bytes) :
    (∀ i, find_first_not_of set s = some i → s.drop i = s.dropWhile p) ∧
    (find_first_not_of set s = none → s.dropWhile p = []) := by
  induction s with
  | nil =>
    refine ⟨fun i h => ?_, fun _ => rfl⟩
    simp [find_first_not_of] at h
  | cons c cs ih =>
    by_cases hc : p c = true
    · have hc' : set.contains c = true := by rw [← hp]; exact hc
      rw [find_first_not_of, if_pos hc', List.dropWhile_cons, if_pos hc]
      cases hf : find_first_not_of set cs with
      | none => exact ⟨fun i h => by simp at h, fun _ => ih.2 hf⟩
      | some j =>
        refine ⟨fun i h => ?_, fun h => by simp at h⟩
        have hi : j + 1 = i := by simpa using h
        subst hi
        rw [List.drop_succ_cons]
        exact ih.1 j hf
    · have hc' : ¬ (set.contains c = true) := by rw [← hp]; exact hc
      rw [find_first_not_of, if_neg hc', List.dropWhile_cons, if_neg hc]
      refine ⟨fun i h => ?_, fun h => by simp at h⟩
      have hi : 0 = i := by simpa using h
      subst hi
      rfl

theorem read_token_of_token (t rest : Bytes) (c0 : Char) (ht : t ≠ [])
    (hns : ∀ c ∈ t, isspace c = false) (hc0 : isspace c0 = true) :
    read_token (t ++ c0 :: rest) = some (t, c0 :: rest) := by
  obtain ⟨a, as, rfl⟩ := List.exists_cons_of_ne_nil ht
  have ha : isspace a = false := hns a (List.mem_cons_self _ _)
  have hd : (a :: as ++ c0 :: rest).dropWhile isspace = a :: as ++ c0 :: rest := by
    rw [List.cons_append]
    exact List.dropWhile_cons_of_neg (by simp [ha])
  have hp : ∀ c ∈ a :: as, (fun c => !isspace c) c = true := fun c hc => by
    simp [hns c hc]
  unfold read_token
  simp only [hd]
  rw [if_neg (by simp)]
  rw [List.takeWhile_append_of_pos hp, List.dropWhile_append_of_pos hp,
    List.takeWhile_cons_of_neg (by simp [hc0]), List.dropWhile_cons_of_neg (by simp [hc0])]
  simp

theorem read_token_skip_space (s : Bytes) : read_token (' ' :: s) = read_token s := by
  have h : isspace ' ' = true := by decide
  unfold read_token
  simp only [List.dropWhile_cons, h, if_true]

theorem getlines_header_block (hdrs : List Bytes) (X : Bytes) (h : ∀ l ∈ hdrs, '\n' ∉ l) :
    getlines '\n' ((hdrs.map (fun l => l ++ "\r\n".toList)).flatten ++ X)
      = hdrs.map (fun l => l ++ ['\r']) ++ getlines '\n' X := by
  induction hdrs with
  | nil => rfl
  | cons l ls ih =>
    have hl : '\n' ∉ l ++ ['\r'] := by
      intro hh
      rcases List.mem_append.mp hh with hh | hh
      · exact h l (List.mem_cons_self _ _) hh
      · simp at hh
    have hform : ((l :: ls).map (fun l => l ++ "\r\n".toList)).flatten ++ X
        = (l ++ ['\r']) ++ '\n' :: ((ls.map (fun l => l ++ "\r\n".toList)).flatten ++ X) := by
      have hc : "\r\n".toList = ['\r', '\n'] := rfl
      simp only [List.map_cons, List.flatten_cons, List.append_assoc, hc, List.cons_append,
        List.nil_append]
    rw [hform, getlines_append_delim '\n' _ _ hl,
      ih (fun l' hl' => h l' (List.mem_cons_of_mem _ hl'))]
    rfl

theorem strip_cr_concat (l : Bytes) : HttpRequest.strip_cr (l ++ ['\r']) = l := by
  unfold HttpRequest.strip_cr
  rw [if_pos (List.getLast?_concat l), List.dropLast_concat]

theorem parse_headers_block (hdrs : List Bytes) (rest : List Bytes) (acc : StdMap Bytes)
    (h : ∀ l ∈ hdrs, l ≠ []) :
    HttpRequest.parse_headers (hdrs.map (fun l => l ++ ['\r']) ++ ['\r'] :: rest) acc
      = (hdrs.foldl HttpRequest.parse_header_line acc, rest) := by
  induction hdrs generalizing acc with
  | nil =>
    have h0 : HttpRequest.strip_cr ['\r'] = [] := by decide
    simp only [List.map_nil, List.nil_append, HttpRequest.parse_headers, h0, List.isEmpty_nil,
      if_true, List.foldl_nil]
  | cons l ls ih =>
    have hne : l ≠ [] := h l (List.mem_cons_self _ _)
    have hem : (l.isEmpty = true) = False := by
      cases l with
      | nil => exact absurd rfl hne
      | cons a as => simp
    simp only [List.map_cons, List.cons_append, HttpRequest.parse_headers, strip_cr_concat,
      hem, if_false, List.foldl_cons]
    exact ih _ (fun l' hl' => h l' (List.mem_cons_of_mem _ hl'))

theorem wire_request_eq (m p v : Bytes) (hdrs : List Bytes) (B : Bytes) :
    wire_request m p v hdrs B = m ++ ' ' :: (p ++ ' ' :: (v ++ '\r' :: '\n' ::
      ((hdrs.map (fun l => l ++ "\r\n".toList)).flatten ++ '\r' :: '\n' :: B))) := by
  have hc : "\r\n".toList = ['\r', '\n'] := rfl
  unfold wire_request
  simp only [hc, List.append_assoc, List.cons_append, List.nil_append]

theorem parse_wire_request (m p v : Bytes) (hdrs : List Bytes) (B : Bytes)
    (hm : m ≠ []) (hp : p ≠ []) (hv : v ≠ [])
    (hms : ∀ c ∈ m, isspace c = false) (hps : ∀ c ∈ p, isspace c = false)
    (hvs : ∀ c ∈ v, isspace c = false)
    (hl : ∀ l ∈ hdrs, l ≠ [] ∧ '\n' ∉ l) :
    HttpRequest.parse (wire_request m p v hdrs B) =
      { HttpRequest.parse_path_and_query
          { method_ := m, path_ := p, version_ := v,
            raw_request_ := wire_request m p v hdrs B } with
        headers_ := hdrs.foldl HttpRequest.parse_header_line [],
        body_ := if B.getLast? = some '\n' then B.dropLast else B } := by
  have hsp : isspace ' ' = true := by decide
  have hcr : isspace '\r' = true := by decide
  have h1 := read_token_of_token m (p ++ ' ' :: (v ++ '\r' :: '\n' ::
      ((hdrs.map (fun l => l ++ "\r\n".toList)).flatten ++ '\r' :: '\n' :: B))) ' ' hm hms hsp
  have h2 := read_token_of_token p (v ++ '\r' :: '\n' ::
      ((hdrs.map (fun l => l ++ "\r\n".toList)).flatten ++ '\r' :: '\n' :: B)) ' ' hp hps hsp
  have h3 := read_token_of_token v ('\n' ::
      ((hdrs.map (fun l => l ++ "\r\n".toList)).flatten ++ '\r' :: '\n' :: B)) '\r' hv hvs hcr
  rw [← read_token_skip_space] at h2 h3
  have hg : (getlines '\n' ('\r' :: '\n' ::
      ((hdrs.map (fun l => l ++ "\r\n".toList)).flatten ++ '\r' :: '\n' :: B))).drop 1
      = hdrs.map (fun l => l ++ ['\r']) ++ ['\r'] :: getlines '\n' B := by
    have e1 := getlines_append_delim '\n' ['\r']
      ((hdrs.map (fun l => l ++ "\r\n".toList)).flatten ++ '\r' :: '\n' :: B) (by decide)
    have e2 := getlines_append_delim '\n' ['\r'] B (by decide)
    simp only [List.cons_append, List.nil_append] at e1 e2
    rw [e1, List.drop_succ_cons, List.drop_zero,
      getlines_header_block hdrs _ (fun l hl' => (hl l hl').2), e2]
  have hh := parse_headers_block hdrs (getlines '\n' B) [] (fun l hl' => (hl l hl').1)
  rw [← parse_body_getlines B]
  generalize hw : wire_request m p v hdrs B = w
  have hw' := wire_request_eq m p v hdrs B
  rw [hw] at hw'
  unfold HttpRequest.parse
  rw [hw'] at *
  simp only [h1, h2, h3, hg, hh]

/-! ## The header map -/

theorem mem_mapInsert_eq {V : Type} (k : Bytes) (v : V) (m : StdMap V) (e : Bytes × V)
    (h : e ∈ mapInsert k v m) : e = (k, v) ∨ e ∈ m := by
  induction m with
  | nil =>
    simp only [mapInsert, List.mem_singleton] at h
    exact Or.inl h
  | cons e' rest ih =>
    obtain ⟨k', v'⟩ := e'
    unfold mapInsert at h
    by_cases h1 : k = k'
    · rw [if_pos h1] at h
      rcases List.mem_cons.mp h with h | h
      · exact Or.inl h
      · exact Or.inr (List.mem_cons_of_mem _ h)
    · rw [if_neg h1] at h
      by_cases h2 : bytesLt k k' = true
      · rw [if_pos h2] at h
        rcases List.mem_cons.mp h with h | h
        · exact Or.inl h
        · exact Or.inr h
      · rw [if_neg h2] at h
        rcases List.mem_cons.mp h with h | h
        · exact Or.inr (by rw [h]; exact List.mem_cons_self _ _)
        · rcases ih h with h | h
          · exact Or.inl h
          · exact Or.inr (List.mem_cons_of_mem _ h)

theorem mem_mapInsert_self {V : Type} (k : Bytes) (v : V) (m : StdMap V) :
    (k, v) ∈ mapInsert k v m := by
  induction m with
  | nil => simp [mapInsert]
  | cons e' rest ih =>
    obtain ⟨k', v'⟩ := e'
    unfold mapInsert
    by_cases h1 : k = k'
    · rw [if_pos h1]; exact List.mem_cons_self _ _
    · rw [if_neg h1]
      by_cases h2 : bytesLt k k' = true
      · rw [if_pos h2]; exact List.mem_cons_self _ _
      · rw [if_neg h2]; exact List.mem_cons_of_mem _ ih

theorem parse_extension_item_eq (exts : List Bytes) (item : Bytes) :
    parse_extension_item exts item =
      match normalize_extension item with
      | some e => setInsert e exts
      | none => exts := by
  have hff := find_first_not_of_spec " \t".toList is_blank (fun _ => rfl) item
  have key : (match find_last_not_of " \t".toList
        (match find_first_not_of " \t".toList item with
          | some i => item.drop i
          | none => []) with
      | some i => (match find_first_not_of " \t".toList item with
          | some i => item.drop i
          | none => []).take (i + 1)
      | none => []) = ((item.dropWhile is_blank).reverse.dropWhile is_blank).reverse := by
    have h1 : (match find_first_not_of " \t".toList item with
          | some i => item.drop i
          | none => []) = item.dropWhile is_blank := by
      cases hf : find_first_not_of " \t".toList item with
      | none => exact (hff.2 hf).symm
      | some i => exact hff.1 i hf
    rw [h1]
    have hfl := find_last_not_of_spec " \t".toList is_blank (fun _ => rfl)
      (item.dropWhile is_blank)
    cases hl : find_last_not_of " \t".toList (item.dropWhile is_blank) with
    | none => rw [hfl.2 hl]; rfl
    | some j => exact (hfl.1 j hl).symm
  unfold parse_extension_item normalize_extension
  simp only [key]
  cases ht : ((item.dropWhile is_blank).reverse.dropWhile is_blank).reverse with
  | nil => rfl
  | cons c cs =>
    by_cases hc : c = '.'
    · subst hc; rfl
    · have h1 : ((c :: cs).head? != some '.') = true := by simp [hc]
      have h2 : ¬ ((c :: cs).head? = some '.') := by simp [hc]
      simp only [List.isEmpty_cons, Bool.not_false, if_true, h1, Bool.false_eq_true, if_false,
        if_neg h2]

theorem mem_setInsert (x e : Bytes) (s : List Bytes) :
    e ∈ setInsert x s ↔ e = x ∨ e ∈ s := by
  unfold setInsert
  by_cases h : s.contains x = true
  · rw [if_pos h]
    have hx : x ∈ s := by simpa using h
    constructor
    · exact Or.inr
    · rintro (h1 | h1)
      · rw [h1]; exact hx
      · exact h1
  · rw [if_neg h]
    simp only [List.mem_append, List.mem_singleton]
    tauto

theorem mem_parse_extensions_fold (items acc : List Bytes) (e : Bytes) :
    e ∈ items.foldl parse_extension_item acc ↔
      e ∈ acc ∨ ∃ item ∈ items, normalize_extension item = some e := by
  induction items generalizing acc with
  | nil => simp
  | cons item rest ih =>
    rw [List.foldl_cons, ih, parse_extension_item_eq]
    cases hn : normalize_extension item with
    | none =>
      simp only [List.mem_cons, exists_eq_or_imp, hn]
      simp
    | some x =>
      simp only [mem_setInsert, List.mem_cons, exists_eq_or_imp, hn, Option.some.injEq]
      constructor
      · rintro ((h | h) | h)
        · exact Or.inr (Or.inl h.symm)
        · exact Or.inl h
        · exact Or.inr (Or.inr h)
      · rintro (h | h | h)
        · exact Or.inl (Or.inr h)
        · exact Or.inl (Or.inl h.symm)
        · exact Or.inr h

theorem normalize_extension_shape (item e : Bytes) (h : normalize_extension item = some e) :
    e.head? = some '.' ∧ ∃ c, e.getLast? = some c ∧ c ≠ ' ' ∧ c ≠ '\t' := by
  unfold normalize_extension at h
  have hlast := List.head?_dropWhile_not is_blank (item.dropWhile is_blank).reverse
  cases ht : ((item.dropWhile is_blank).reverse.dropWhile is_blank) with
  | nil =>
    rw [ht] at h
    simp at h
  | cons c cs =>
    rw [ht] at h hlast
    simp only [List.head?_cons] at hlast
    have hc : c ≠ ' ' ∧ c ≠ '\t' := by
      constructor
      · intro hh; rw [hh] at hlast; exact absurd hlast (by decide)
      · intro hh; rw [hh] at hlast; exact absurd hlast (by decide)
    have hne : (c :: cs).reverse ≠ [] := by simp
    have hgl : (c :: cs).reverse.getLast? = some c := by simp
    rw [if_neg (by simp)] at h
    by_cases hd : (c :: cs).reverse.head? = some '.'
    · rw [if_pos hd] at h
      have he : (c :: cs).reverse = e := by simpa using h
      rw [← he]
      exact ⟨hd, c, hgl, hc⟩
    · rw [if_neg hd] at h
      have he : '.' :: (c :: cs).reverse = e := by simpa using h
      rw [← he]
      refine ⟨rfl, c, ?_, hc⟩
      show (['.'] ++ (c :: cs).reverse).getLast? = some c
      rw [List.getLast?_append, hgl]
      rfl

/-! ## The in-memory store -/

theorem mapFind_umSet_self {V : Type} (k : Bytes) (v : V) (m : List (Bytes × V)) :
    mapFind k (umSet k v m) = some v := by
  induction m with
  | nil => simp [umSet, mapFind]
  | cons e rest ih =>
    obtain ⟨k', v'⟩ := e
    unfold umSet
    by_cases h : k = k'
    · rw [if_pos h]; simp [mapFind]
    · rw [if_neg h, mapFind, if_neg h, ih]

theorem mapFind_umSet_ne {V : Type} (k k2 : Bytes) (v : V) (m : List (Bytes × V))
    (hne : k2 ≠ k) : mapFind k2 (umSet k v m) = mapFind k2 m := by
  induction m with
  | nil => simp [umSet, mapFind, hne]
  | cons e rest ih =>
    obtain ⟨k', v'⟩ := e
    unfold umSet
    by_cases h : k = k'
    · rw [if_pos h]
      have h2 : k2 ≠ k' := by rw [← h]; exact hne
      simp [mapFind, hne, h2]
    · rw [if_neg h]
      by_cases h3 : k2 = k'
      · simp [mapFind, h3]
      · simp only [mapFind, if_neg h3, ih]

theorem mapFind_umErase_self {V : Type} (k : Bytes) (m : List (Bytes × V)) :
    mapFind k (umErase k m) = none := by
  induction m with
  | nil => rfl
  | cons e rest ih =>
    obtain ⟨k', v'⟩ := e
    unfold umErase at ih ⊢
    by_cases h : k' = k
    · have : ((k', v').1 != k) = false := by simp [h]
      rw [List.filter_cons_of_neg (by simp [h])]
      exact ih
    · rw [List.filter_cons_of_pos (by simp [h])]
      have h2 : k ≠ k' := fun hh => h hh.symm
      rw [mapFind, if_neg h2]
      exact ih

theorem mapFind_umErase_ne {V : Type} (k k2 : Bytes) (m : List (Bytes × V)) (hne : k2 ≠ k) :
    mapFind k2 (umErase k m) = mapFind k2 m := by
  induction m with
  | nil => rfl
  | cons e rest ih =>
    obtain ⟨k', v'⟩ := e
    unfold umErase at ih ⊢
    by_cases h : k' = k
    · rw [List.filter_cons_of_neg (by simp [h])]
      have h2 : k2 ≠ k' := by rw [h]; exact hne
      rw [mapFind, if_neg h2]
      exact ih
    · rw [List.filter_cons_of_pos (by simp [h])]
      by_cases h3 : k2 = k'
      · simp [mapFind, h3]
      · simp only [mapFind, if_neg h3]
        exact ih

theorem mem_keys_umErase {V : Type} (k k2 : Bytes) (m : List (Bytes × V)) :
    k2 ∈ (umErase k m).map Prod.fst ↔ k2 ≠ k ∧ k2 ∈ m.map Prod.fst := by
  unfold umErase
  simp only [List.mem_map, List.mem_filter, bne_iff_ne, ne_eq]
  constructor
  · rintro ⟨e, ⟨he, hne⟩, rfl⟩
    exact ⟨hne, e, he, rfl⟩
  · rintro ⟨hne, e, he, rfl⟩
    exact ⟨e, ⟨he, hne⟩, rfl⟩

theorem entity_exists_eq (fs : MockFilesystem) (e i : Bytes) :
    fs.entity_exists e i = (mapFind i ((mapFind e fs.data_).getD [])).isSome := by
  unfold MockFilesystem.entity_exists
  cases mapFind e fs.data_ <;> rfl

theorem read_entity_eq (fs : MockFilesystem) (e i : Bytes) :
    fs.read_entity e i =
      match mapFind i ((mapFind e fs.data_).getD []) with
      | some d => Except.ok d
      | none => Except.error
          ("MockFilesystem: No such entity or ID: ".toList ++ e ++ "/".toList ++ i) := by
  unfold MockFilesystem.read_entity
  rw [entity_exists_eq]
  cases mapFind i ((mapFind e fs.data_).getD []) <;> rfl

theorem list_entity_ids_eq (fs : MockFilesystem) (e : Bytes) :
    fs.list_entity_ids e = ((mapFind e fs.data_).getD []).map Prod.fst := by
  unfold MockFilesystem.list_entity_ids
  cases mapFind e fs.data_ <;> rfl

theorem lookup_write_entity (fs : MockFilesystem) (e i d e2 i2 : Bytes) :
    mapFind i2 ((mapFind e2 (fs.write_entity e i d).2.data_).getD [])
      = if e2 = e ∧ i2 = i then some d
        else mapFind i2 ((mapFind e2 fs.data_).getD []) := by
  unfold MockFilesystem.write_entity
  simp only
  by_cases he : e2 = e
  · subst he
    rw [mapFind_umSet_self, Option.getD_some]
    by_cases hi : i2 = i
    · subst hi
      rw [mapFind_umSet_self, if_pos ⟨rfl, rfl⟩]
    · rw [mapFind_umSet_ne _ _ _ _ hi, if_neg (fun h => hi h.2)]
  · rw [mapFind_umSet_ne _ _ _ _ he, if_neg (fun h => he h.1)]

theorem delete_entity_eq (fs : MockFilesystem) (e i : Bytes) :
    fs.delete_entity e i =
      if fs.entity_exists e i then
        (true, { data_ := umSet e (umErase i ((mapFind e fs.data_).getD [])) fs.data_ })
      else (false, fs) := by
  unfold MockFilesystem.delete_entity MockFilesystem.entity_exists
  cases h1 : mapFind e fs.data_ with
  | none => simp
  | some ids =>
    cases h2 : mapFind i ids with
    | none => simp [h2]
    | some d => simp [h2]

theorem data_delete_entity (fs : MockFilesystem) (e i e2 : Bytes)
    (h : fs.entity_exists e i = true) :
    (mapFind e2 (fs.delete_entity e i).2.data_).getD []
      = if e2 = e then umErase i ((mapFind e fs.data_).getD [])
        else (mapFind e2 fs.data_).getD [] := by
  rw [delete_entity_eq, if_pos h]
  simp only
  by_cases he : e2 = e
  · subst he
    rw [mapFind_umSet_self, if_pos rfl, Option.getD_some]
  · rw [mapFind_umSet_ne _ _ _ _ he, if_neg he]

theorem lookup_delete_entity (fs : MockFilesystem) (e i e2 i2 : Bytes)
    (h : ¬ (e2 = e ∧ i2 = i)) :
    mapFind i2 ((mapFind e2 (fs.delete_entity e i).2.data_).getD [])
      = mapFind i2 ((mapFind e2 fs.data_).getD []) := by
  by_cases hex : fs.entity_exists e i = true
  · rw [data_delete_entity fs e i e2 hex]
    by_cases he : e2 = e
    · subst he
      rw [if_pos rfl]
      exact mapFind_umErase_ne _ _ _ (fun hi => h ⟨rfl, hi⟩)
    · rw [if_neg he]
  · rw [delete_entity_eq, if_neg hex]

theorem lookup_delete_entity_self (fs : MockFilesystem) (e i : Bytes)
    (hex : fs.entity_exists e i = true) :
    mapFind i ((mapFind e (fs.delete_entity e i).2.data_).getD []) = none := by
  rw [data_delete_entity fs e i e hex, if_pos rfl]
  exact mapFind_umErase_self _ _

/-! ## Decimal strings and the next free id -/

theorem digitChar_spec : ∀ k, k < 10 →
    (Nat.digitChar k).isDigit = true ∧ (Nat.digitChar k).toNat - '0'.toNat = k := by
  decide

theorem toDigitsCore_spec (fuel n : Nat) (ds : List Char) (h : n < fuel) :
    ∃ L : List Char, Nat.toDigitsCore 10 fuel n ds = L ++ ds ∧ L ≠ [] ∧
      (∀ c ∈ L, c.isDigit = true) ∧
      L.foldl (fun (acc : Int) d => acc * 10 + ((d.toNat - '0'.toNat : Nat) : Int)) 0
        = (n : Int) := by
  induction fuel generalizing n ds with
  | zero => omega
  | succ fuel ih =>
    have hd := digitChar_spec (n % 10) (Nat.mod_lt _ (by decide))
    unfold Nat.toDigitsCore
    simp only
    by_cases h0 : n / 10 = 0
    · rw [if_pos h0]
      refine ⟨[Nat.digitChar (n % 10)], rfl, by simp, ?_, ?_⟩
      · intro c hc
        rw [List.mem_singleton.mp hc]
        exact hd.1
      · simp only [List.foldl_cons, List.foldl_nil, hd.2]
        have : n % 10 = n := Nat.mod_eq_of_lt (by omega)
        rw [this]
        simp
    · rw [if_neg h0]
      obtain ⟨L, hL, hne, hdig, hval⟩ := ih (n / 10) (Nat.digitChar (n % 10) :: ds) (by omega)
      refine ⟨L ++ [Nat.digitChar (n % 10)], ?_, by simp, ?_, ?_⟩
      · rw [hL]; simp
      · intro c hc
        rcases List.mem_append.mp hc with hc | hc
        · exact hdig c hc
        · rw [List.mem_singleton.mp hc]
          exact hd.1
      · rw [List.foldl_append, hval]
        simp only [List.foldl_cons, List.foldl_nil, hd.2]
        have := Nat.div_add_mod n 10
        omega

theorem isspace_of_isDigit (c : Char) (h : c.isDigit = true) :
    isspace c = false ∧ c ≠ '-' ∧ c ≠ '+' ∧ c ≠ '/' ∧ c ≠ '?' := by
  refine ⟨?_, ?_, ?_, ?_, ?_⟩
  · cases hs : isspace c with
    | false => rfl
    | true =>
      unfold isspace at hs
      simp only [Bool.or_eq_true, beq_iff_eq] at hs
      rcases hs with ((((hs | hs) | hs) | hs) | hs) | hs <;>
        (rw [hs] at h; exact absurd h (by decide))
  · intro hc; rw [hc] at h; exact absurd h (by decide)
  · intro hc; rw [hc] at h; exact absurd h (by decide)
  · intro hc; rw [hc] at h; exact absurd h (by decide)
  · intro hc; rw [hc] at h; exact absurd h (by decide)

theorem to_string_nat_spec (n : Nat) :
    to_string_nat n ≠ [] ∧ (∀ c ∈ to_string_nat n, c.isDigit = true) ∧
    (to_string_nat n).foldl
      (fun (acc : Int) d => acc * 10 + ((d.toNat - '0'.toNat : Nat) : Int)) 0 = (n : Int) := by
  obtain ⟨L, hL, hne, hdig, hval⟩ := toDigitsCore_spec (n + 1) n [] (by omega)
  have : to_string_nat n = L := by
    unfold to_string_nat Nat.toDigits
    rw [hL, List.append_nil]
  rw [this]
  exact ⟨hne, hdig, hval⟩

theorem stoi_to_string_nat (n : Nat) (h : n < 2 ^ 31) :
    stoi (to_string_nat n) = some (n : Int) := by
  obtain ⟨hne, hdig, hval⟩ := to_string_nat_spec n
  obtain ⟨c, cs, hL⟩ := List.exists_cons_of_ne_nil hne
  rw [hL] at hdig hval ⊢
  have hc := isspace_of_isDigit c (hdig c (List.mem_cons_self _ _))
  have h1 : (c :: cs).dropWhile isspace = c :: cs :=
    List.dropWhile_cons_of_neg (by simp [hc.1])
  have h2 : (c :: cs).takeWhile Char.isDigit = c :: cs :=
    List.takeWhile_eq_self_iff.mpr hdig
  have h3 : ((c :: cs).head? == some '+') = false := by
    simp [hc.2.2.1]
  have h4 : ((c :: cs).head? == some '-') = false := by
    simp [hc.2.1]
  unfold stoi
  simp only [h1, h3, h4, Bool.or_self, Bool.false_eq_true, if_false, h2, List.isEmpty_cons,
    hval]
  have hn : ((n : Int)) < 2 ^ 31 := by exact_mod_cast h
  rw [if_neg (by omega)]

theorem to_string_int_of_nat (n : Nat) : to_string_int (n : Int) = to_string_nat n := by
  unfold to_string_int to_string_nat
  rw [if_neg (by omega)]
  simp

theorem mem_used_ids (ids : List Bytes) (x : Int) :
    x ∈ MockFilesystem.used_ids ids ↔ 0 < x ∧ ∃ id ∈ ids, stoi id = some x := by
  unfold MockFilesystem.used_ids
  rw [List.mem_filterMap]
  constructor
  · rintro ⟨id, hid, hx⟩
    cases hs : stoi id with
    | none => rw [hs] at hx; cases hx
    | some v =>
      rw [hs] at hx
      simp only at hx
      by_cases hv : v > 0
      · rw [if_pos hv] at hx
        have : v = x := by simpa using hx
        subst this
        exact ⟨hv, id, hid, hs⟩
      · rw [if_neg hv] at hx; cases hx
  · rintro ⟨hpos, id, hid, hs⟩
    refine ⟨id, hid, ?_⟩
    rw [hs]
    simp only
    rw [if_pos hpos]

theorem next_id_loop_spec (entity : Bytes) (used : List Int) (rem : Nat)
    (hrem : rem ≤ MockFilesystem.INT_MAX)
    (hfree : ∃ n : Nat, MockFilesystem.INT_MAX - rem ≤ n ∧ n ≤ MockFilesystem.INT_MAX ∧
      (n : Int) ∉ used) :
    ∃ n0 : Nat, MockFilesystem.next_id_loop entity used rem = Except.ok (n0 : Int) ∧
      MockFilesystem.INT_MAX - rem ≤ n0 ∧ n0 ≤ MockFilesystem.INT_MAX ∧ (n0 : Int) ∉ used ∧
      ∀ k : Nat, MockFilesystem.INT_MAX - rem ≤ k → k < n0 → (k : Int) ∈ used := by
  induction rem with
  | zero =>
    obtain ⟨n, h1, h2, h3⟩ := hfree
    have hn : n = MockFilesystem.INT_MAX := by omega
    rw [hn] at h3
    refine ⟨MockFilesystem.INT_MAX, ?_, by omega, le_refl _, h3, fun k hk1 hk2 => by omega⟩
    unfold MockFilesystem.next_id_loop
    rw [if_pos (by simpa using h3)]
  | succ rem ih =>
    unfold MockFilesystem.next_id_loop
    by_cases hc : ((MockFilesystem.INT_MAX - (rem + 1) : Nat) : Int) ∈ used
    · rw [if_neg (by simpa using hc)]
      obtain ⟨n, h1, h2, h3⟩ := hfree
      have hn : n ≠ MockFilesystem.INT_MAX - (rem + 1) := by
        intro hh
        rw [hh] at h3
        exact h3 hc
      obtain ⟨n0, e0, b1, b2, b3, b4⟩ := ih (by omega) ⟨n, by omega, h2, h3⟩
      refine ⟨n0, e0, by omega, b2, b3, fun k hk1 hk2 => ?_⟩
      by_cases hk : k = MockFilesystem.INT_MAX - (rem + 1)
      · rw [hk]; exact hc
      · exact b4 k (by omega) hk2
    · rw [if_pos (by simpa using hc)]
      exact ⟨MockFilesystem.INT_MAX - (rem + 1), rfl, le_refl _, by omega, hc,
        fun k hk1 hk2 => by omega⟩

theorem exists_free_id (used : List Int) (h : used.length < MockFilesystem.INT_MAX) :
    ∃ n : Nat, 1 ≤ n ∧ n ≤ MockFilesystem.INT_MAX ∧ (n : Int) ∉ used := by
  by_contra hcon
  have hall : ∀ n : Nat, 1 ≤ n → n ≤ MockFilesystem.INT_MAX → (n : Int) ∈ used := by
    intro n h1 h2
    by_contra hn
    exact hcon ⟨n, h1, h2, hn⟩
  have hinj : Function.Injective (fun k : Nat => ((k + 1 : Nat) : Int)) := by
    intro a b hab
    simp only at hab
    omega
  have hsub : (Finset.range MockFilesystem.INT_MAX).image (fun k : Nat => ((k + 1 : Nat) : Int))
      ⊆ used.toFinset := by
    intro x hx
    obtain ⟨k, hk, rfl⟩ := Finset.mem_image.mp hx
    rw [List.mem_toFinset]
    exact hall (k + 1) (by omega) (by have := Finset.mem_range.mp hk; omega)
  have hcard := Finset.card_le_card hsub
  rw [Finset.card_image_of_injective _ hinj, Finset.card_range] at hcard
  have := List.toFinset_card_le used
  omega

theorem INT_MAX_eq : MockFilesystem.INT_MAX = 2147483647 := by
  norm_num [MockFilesystem.INT_MAX]

theorem next_entity_id_spec (fs : MockFilesystem) (entity : Bytes)
    (h : (fs.list_entity_ids entity).length < MockFilesystem.INT_MAX) :
    ∃ n : Nat, 1 ≤ n ∧ n ≤ MockFilesystem.INT_MAX ∧
      fs.next_entity_id entity = Except.ok (to_string_nat n) ∧
      (n : Int) ∉ MockFilesystem.used_ids (fs.list_entity_ids entity) ∧
      ∀ k : Nat, 1 ≤ k → k < n →
        (k : Int) ∈ MockFilesystem.used_ids (fs.list_entity_ids entity) := by
  have hI := INT_MAX_eq
  have hlen : (MockFilesystem.used_ids (fs.list_entity_ids entity)).length
      < MockFilesystem.INT_MAX :=
    lt_of_le_of_lt (List.length_filterMap_le _ _) h
  obtain ⟨n, h1, h2, h3⟩ := exists_free_id _ hlen
  obtain ⟨n0, e0, b1, b2, b3, b4⟩ := next_id_loop_spec entity
    (MockFilesystem.used_ids (fs.list_entity_ids entity)) (MockFilesystem.INT_MAX - 1)
    (by omega) ⟨n, by omega, h2, h3⟩
  refine ⟨n0, by omega, b2, ?_, b3, fun k hk1 hk2 => b4 k (by omega) hk2⟩
  unfold MockFilesystem.next_entity_id
  rw [e0]
  simp only [to_string_int_of_nat]

theorem next_id_loop_all_used (entity : Bytes) (used : List Int) (rem : Nat)
    (h : ∀ n : Nat, MockFilesystem.INT_MAX - rem ≤ n → n ≤ MockFilesystem.INT_MAX →
      (n : Int) ∈ used) :
    MockFilesystem.next_id_loop entity used rem
      = Except.error ("MockFilesystem: no available integer IDs for entity ".toList
          ++ entity) := by
  induction rem with
  | zero =>
    have h0 := h MockFilesystem.INT_MAX (by omega) (le_refl _)
    unfold MockFilesystem.next_id_loop
    rw [if_neg (by simpa using h0)]
  | succ rem ih =>
    have h0 := h (MockFilesystem.INT_MAX - (rem + 1)) (le_refl _) (by omega)
    unfold MockFilesystem.next_id_loop
    rw [if_neg (by simpa using h0)]
    exact ih (fun n h1 h2 => h n (by omega) h2)

theorem next_entity_id_full (fs : MockFilesystem) (entity : Bytes)
    (h : ∀ n : Nat, 1 ≤ n → n ≤ MockFilesystem.INT_MAX →
      ∃ id ∈ fs.list_entity_ids entity, stoi id = some (n : Int)) :
    fs.next_entity_id entity
      = Except.error ("MockFilesystem: no available integer IDs for entity ".toList
          ++ entity) := by
  have hI := INT_MAX_eq
  unfold MockFilesystem.next_entity_id
  rw [next_id_loop_all_used entity _ (MockFilesystem.INT_MAX - 1)
    (fun n h1 h2 => (mem_used_ids _ _).mpr
      ⟨by omega, h n (by omega) h2⟩)]

theorem list_entity_ids_single (e : Bytes) (X : List (Bytes × Bytes)) :
    ({ data_ := [(e, X)] } : MockFilesystem).list_entity_ids e = X.map Prod.fst := by
  simp [MockFilesystem.list_entity_ids, mapFind]

/-! ## The CRUD handler -/

theorem parse_path_entity (P E : Bytes) (hP : '?' ∉ P) (hE : E ≠ []) (hE1 : '/' ∉ E)
    (hE2 : '?' ∉ E) :
    CrudHandler.parse_entity_and_id_from_path P (P ++ '/' :: E) = some (E, [], false) := by
  have hq : find (P ++ '/' :: E) ['?'] = none := by
    rw [find_singleton_none]
    intro hh
    rcases List.mem_append.mp hh with hh | hh
    · exact hP hh
    · rcases List.mem_cons.mp hh with hh | hh
      · exact absurd hh (by decide)
      · exact hE2 hh
  have hpre : P.isPrefixOf (P ++ '/' :: E) = true :=
    List.isPrefixOf_iff_prefix.mpr (List.prefix_append _ _)
  have hs : find E ['/'] = none := (find_singleton_none E '/').mpr hE1
  have hem : E.isEmpty = false := by
    cases E with
    | nil => exact absurd rfl hE
    | cons a as => rfl
  unfold CrudHandler.parse_entity_and_id_from_path
  simp only [hq, hpre, Bool.not_true, Bool.and_false, Bool.false_eq_true, if_false,
    List.drop_left, List.head?_cons, beq_self_eq_true, if_true, List.drop_succ_cons,
    List.drop_zero, hs, hem]

theorem parse_path_entity_id (P E n : Bytes) (hP : '?' ∉ P) (hE : E ≠ []) (hE1 : '/' ∉ E)
    (hE2 : '?' ∉ E) (hn : n ≠ []) (hn1 : '/' ∉ n) (hn2 : '?' ∉ n) :
    CrudHandler.parse_entity_and_id_from_path P (P ++ '/' :: (E ++ '/' :: n))
      = some (E, n, true) := by
  have hq : find (P ++ '/' :: (E ++ '/' :: n)) ['?'] = none := by
    rw [find_singleton_none]
    intro hh
    rcases List.mem_append.mp hh with hh | hh
    · exact hP hh
    · rcases List.mem_cons.mp hh with hh | hh
      · exact absurd hh (by decide)
      · rcases List.mem_append.mp hh with hh | hh
        · exact hE2 hh
        · rcases List.mem_cons.mp hh with hh | hh
          · exact absurd hh (by decide)
          · exact hn2 hh
  have hpre : P.isPrefixOf (P ++ '/' :: (E ++ '/' :: n)) = true :=
    List.isPrefixOf_iff_prefix.mpr (List.prefix_append _ _)
  have hs : find (E ++ '/' :: n) ['/'] = some E.length := find_singleton_append E n '/' hE1
  have hs2 : find n ['/'] = none := (find_singleton_none n '/').mpr hn1
  have hem : E.isEmpty = false := by
    cases E with
    | nil => exact absurd rfl hE
    | cons a as => rfl
  have hnem : n.isEmpty = false := by
    cases n with
    | nil => exact absurd rfl hn
    | cons a as => rfl
  have ht : (E ++ '/' :: n).take E.length = E := by simp
  have hd : (E ++ '/' :: n).drop (E.length + 1) = n := by
    rw [← List.drop_drop]
    simp
  unfold CrudHandler.parse_entity_and_id_from_path
  simp only [hq, hpre, Bool.not_true, Bool.and_false, Bool.false_eq_true, if_false,
    List.drop_left, List.head?_cons, beq_self_eq_true, if_true, List.drop_succ_cons,
    List.drop_zero, hs, ht, hd, hs2, Option.isSome_none, hem, hnem, Bool.not_false]

theorem handle_post_ok (fs : MockFilesystem) (request : HttpRequest) (E new_id : Bytes)
    (h : fs.next_entity_id E = Except.ok new_id) :
    CrudHandler.handle_post fs request E =
      (typed_response 201 "Created".toList "application/json".toList
        ("\x7b\"id\": ".toList ++ new_id ++ "\x7d".toList),
        (fs.write_entity E new_id request.body_).2) := by
  unfold CrudHandler.handle_post
  rw [h]
  rfl

theorem handle_request_post (P : Bytes) (fs : MockFilesystem) (request : HttpRequest)
    (E : Bytes) (hm : request.method_ = "POST".toList)
    (hp : CrudHandler.parse_entity_and_id_from_path P request.path_ = some (E, [], false)) :
    CrudHandler.handle_request P fs request
      = Except.ok (CrudHandler.handle_post fs request E) := by
  unfold CrudHandler.handle_request
  rw [hp, hm]
  rfl

theorem handle_request_get (P : Bytes) (fs : MockFilesystem) (request : HttpRequest)
    (E n : Bytes) (hm : request.method_ = "GET".toList)
    (hp : CrudHandler.parse_entity_and_id_from_path P request.path_ = some (E, n, true)) :
    CrudHandler.handle_request P fs request
      = match CrudHandler.handle_get fs E n with
        | Except.ok response => Except.ok (response, fs)
        | Except.error e => Except.error e := by
  unfold CrudHandler.handle_request
  rw [hp, hm]
  rfl

theorem handle_request_delete (P : Bytes) (fs : MockFilesystem) (request : HttpRequest)
    (E n : Bytes) (hm : request.method_ = "DELETE".toList)
    (hp : CrudHandler.parse_entity_and_id_from_path P request.path_ = some (E, n, true)) :
    CrudHandler.handle_request P fs request
      = Except.ok (CrudHandler.handle_delete fs E n) := by
  unfold CrudHandler.handle_request
  rw [hp, hm]
  rfl

theorem umErase_umSet {V : Type} (k : Bytes) (v : V) (m : List (Bytes × V))
    (h : k ∉ m.map Prod.fst) : umErase k (umSet k v m) = m := by
  induction m with
  | nil => simp [umSet, umErase]
  | cons e rest ih =>
    obtain ⟨k', v'⟩ := e
    have hk : k ≠ k' := fun hh => h (by rw [hh]; exact List.mem_cons_self _ _)
    have hr : k ∉ rest.map Prod.fst := fun hh => h (List.mem_cons_of_mem _ hh)
    have hk2 : k' ≠ k := fun hh => hk hh.symm
    unfold umSet
    rw [if_neg hk]
    unfold umErase at ih ⊢
    rw [List.filter_cons_of_pos (by simp [hk2]), ih hr]

theorem list_after_write_delete (fs : MockFilesystem) (E n b : Bytes)
    (h : n ∉ fs.list_entity_ids E) :
    ((fs.write_entity E n b).2.delete_entity E n).2.list_entity_ids E
      = fs.list_entity_ids E := by
  have hex : (fs.write_entity E n b).2.entity_exists E n = true := by
    rw [entity_exists_eq, lookup_write_entity, if_pos ⟨rfl, rfl⟩]
    rfl
  rw [list_entity_ids_eq, data_delete_entity _ E n E hex, if_pos rfl, list_entity_ids_eq]
  rw [list_entity_ids_eq] at h
  have hw : (mapFind E (fs.write_entity E n b).2.data_).getD []
      = umSet n b ((mapFind E fs.data_).getD []) := by
    unfold MockFilesystem.write_entity
    simp only
    rw [mapFind_umSet_self, Option.getD_some]
  rw [hw, umErase_umSet n b _ h]

theorem write_entity_then_read (fs : MockFilesystem) (e i d : Bytes) :
    (fs.write_entity e i d).2.entity_exists e i = true ∧
    (fs.write_entity e i d).2.read_entity e i = Except.ok d := by
  constructor
  · rw [entity_exists_eq, lookup_write_entity, if_pos ⟨rfl, rfl⟩]
    rfl
  · rw [read_entity_eq, lookup_write_entity, if_pos ⟨rfl, rfl⟩]

/-! ## The session step at a located terminator -/

theorem handle_read_at_terminator (mh : Bytes → Option RequestHandler) (s : Session)
    (data : Bytes) (i : Nat) (hlen : (s.buffer_ ++ data).length < 2 ^ 64)
    (hfind : find (s.buffer_ ++ data) CRLFCRLF = some i) :
    i + 4 ≤ (s.buffer_ ++ data).length ∧
    (i + 4) % 2 ^ 64 = i + 4 ∧
    size_t_sub (s.buffer_ ++ data).length ((i + 4) % 2 ^ 64)
      = (s.buffer_ ++ data).length - (i + 4) ∧
    handle_read mh s false data =
      match (HttpRequest.parse (s.buffer_ ++ data)).get_header "Content-Length".toList with
      | some value =>
        match stoull value with
        | none =>
          (⟨[]⟩,
            [Op.async_write
              (bad_request "Invalid Content-Length header".toList).convert_to_string])
        | some content_length =>
          if (s.buffer_ ++ data).length - (i + 4) < content_length
          then (⟨s.buffer_ ++ data⟩, [Op.async_read_some])
          else validate_and_answer mh (HttpRequest.parse (s.buffer_ ++ data))
      | none => validate_and_answer mh (HttpRequest.parse (s.buffer_ ++ data)) := by
  have hin : CRLFCRLF <:+: s.buffer_ ++ data :=
    (find_isSome_iff _ _).mp (by rw [hfind]; rfl)
  have hb := find_bound _ _ _ hfind
  have h4 : CRLFCRLF.length = 4 := rfl
  rw [h4] at hb
  have hmod : (i + 4) % 2 ^ 64 = i + 4 := Nat.mod_eq_of_lt (by omega)
  have hsub : size_t_sub (s.buffer_ ++ data).length (i + 4)
      = (s.buffer_ ++ data).length - (i + 4) := by
    unfold size_t_sub; rw [if_pos hb]
  refine ⟨hb, hmod, by rw [hmod, hsub], ?_⟩
  have hstep := handle_read_framed mh s data hin
  simp only [hfind, Option.getD_some, hmod, hsub] at hstep
  exact hstep

/-! ## The route loop does not depend on the order of the table -/

theorem match_step_nil (path : Bytes) (st : MatchState) : match_step path st [] = st := by
  unfold match_step
  simp

theorem foldl_match_step_filter (path : Bytes) (keys : List Bytes) (st : MatchState) :
    keys.foldl (match_step path) st
      = (keys.filter (fun k => !k.isEmpty)).foldl (match_step path) st := by
  induction keys generalizing st with
  | nil => rfl
  | cons k ks ih =>
    cases k with
    | nil =>
      rw [List.foldl_cons, match_step_nil, ih]
      rfl
    | cons c cs =>
      rw [List.foldl_cons, ih]
      rfl

theorem match_loop_spec {V : Type} (routes_ : StdMap V) (path : Bytes)
    (hkeys : ∀ k ∈ routes_.map Prod.fst, k.length < 2 ^ 31) :
    ((match_loop routes_ path).prefix_match = [] ∧
        ∀ q ∈ routes_.map Prod.fst, q ≠ [] → ¬ q <+: path) ∨
      ((match_loop routes_ path).prefix_match ∈ routes_.map Prod.fst ∧
        (match_loop routes_ path).prefix_match ≠ [] ∧
        (match_loop routes_ path).prefix_match <+: path ∧
        ∀ q ∈ routes_.map Prod.fst, q <+: path →
          q.length ≤ (match_loop routes_ path).prefix_match.length) := by
  have hf : ∀ k ∈ (routes_.map Prod.fst).filter (fun k => !k.isEmpty),
      k ≠ [] ∧ k.length < 2 ^ 31 := by
    intro k hk
    obtain ⟨h1, h2⟩ := List.mem_filter.mp hk
    refine ⟨?_, hkeys k h1⟩
    intro hh
    rw [hh] at h2
    simp at h2
  have hinv := match_foldl_invariant path
    ((routes_.map Prod.fst).filter (fun k => !k.isEmpty)) []
    { prefix_match := [], max_len := 0 } hf (by simp) (Or.inl ⟨rfl, rfl, by simp⟩)
  rw [← foldl_match_step_filter, ← match_loop_eq, List.nil_append] at hinv
  rcases hinv with ⟨h1, _, h3⟩ | ⟨h1, h2, _, h4⟩
  · refine Or.inl ⟨h1, fun q hq hne => h3 q (List.mem_filter.mpr ⟨hq, ?_⟩)⟩
    cases q with
    | nil => exact absurd rfl hne
    | cons c cs => rfl
  · obtain ⟨hm, hne⟩ := List.mem_filter.mp h1
    refine Or.inr ⟨hm, ?_, h2, fun q hq hqp => ?_⟩
    · intro hh
      rw [hh] at hne
      simp at hne
    · cases q with
      | nil => simp
      | cons c cs => exact h4 _ (List.mem_filter.mpr ⟨hq, rfl⟩) hqp

theorem prefix_eq_of_length_eq (p q path : Bytes) (hp : p <+: path) (hq : q <+: path)
    (hlen : p.length = q.length) : p = q :=
  (List.prefix_of_prefix_length_le hp hq (le_of_eq hlen)).eq_of_length hlen

theorem mapFind_eq_none_of_not_mem {V : Type} (m : StdMap V) (p : Bytes)
    (h : p ∉ m.map Prod.fst) : mapFind p m = none := by
  induction m with
  | nil => rfl
  | cons e rest ih =>
    obtain ⟨k, v⟩ := e
    have hk : p ≠ k := fun hh => h (by rw [hh]; exact List.mem_cons_self _ _)
    have hr : p ∉ rest.map Prod.fst := fun hh => h (List.mem_cons_of_mem _ hh)
    rw [mapFind, if_neg hk, ih hr]

theorem mapFind_perm {V : Type} (m1 m2 : StdMap V) (p : Bytes) (hperm : m1.Perm m2)
    (hnodup : (m1.map Prod.fst).Nodup) : mapFind p m1 = mapFind p m2 := by
  have hkeys : (m1.map Prod.fst).Perm (m2.map Prod.fst) := hperm.map _
  by_cases hp : p ∈ m1.map Prod.fst
  · obtain ⟨v1, e1, hv1⟩ := mapFind_of_mem_keys m1 p hp
    obtain ⟨v2, e2, hv2⟩ := mapFind_of_mem_keys m2 p (hkeys.mem_iff.mp hp)
    have := value_unique_of_nodup_keys m1 p v1 v2 hnodup hv1 (hperm.mem_iff.mpr hv2)
    rw [e1, e2, this]
  · rw [mapFind_eq_none_of_not_mem m1 p hp,
      mapFind_eq_none_of_not_mem m2 p (fun hh => hp (hkeys.mem_iff.mpr hh))]

theorem match_loop_perm {V : Type} (m1 m2 : StdMap V) (path : Bytes) (hperm : m1.Perm m2)
    (hlen : ∀ k ∈ m1.map Prod.fst, k.length < 2 ^ 31) :
    (match_loop m1 path).prefix_match = (match_loop m2 path).prefix_match := by
  have hkeys : (m1.map Prod.fst).Perm (m2.map Prod.fst) := hperm.map _
  have hlen2 : ∀ k ∈ m2.map Prod.fst, k.length < 2 ^ 31 :=
    fun k hk => hlen k (hkeys.mem_iff.mpr hk)
  rcases match_loop_spec m1 path hlen with ⟨a1, a2⟩ | ⟨a1, a2, a3, a4⟩ <;>
    rcases match_loop_spec m2 path hlen2 with ⟨b1, b2⟩ | ⟨b1, b2, b3, b4⟩
  · rw [a1, b1]
  · exact absurd b3 (a2 _ (hkeys.mem_iff.mpr b1) b2)
  · exact absurd a3 (b2 _ (hkeys.mem_iff.mp a1) a2)
  · have h1 := a4 _ (hkeys.mem_iff.mpr b1) b3
    have h2 := b4 _ (hkeys.mem_iff.mp a1) a3
    exact prefix_eq_of_length_eq _ _ path a3 b3 (le_antisymm h2 h1)

/-! ## Route prefixes of `2 ^ 31` bytes and more -/

theorem to_int_wrapped : to_int (2 ^ 31) = -(2 ^ 31) ∧ to_int (2 ^ 31 + 1) = -(2 ^ 31) + 1 := by
  unfold to_int
  constructor <;> norm_num

theorem to_size_t_wrapped :
    to_size_t (-(2 ^ 31)) = 2 ^ 64 - 2 ^ 31 ∧ to_size_t (-(2 ^ 31) + 1) = 2 ^ 64 - 2 ^ 31 + 1 := by
  unfold to_size_t
  constructor <;> norm_num <;> rfl

theorem match_loop_wrapped {V : Type} (path p q : Bytes) (v1 v2 : V) (hp : p <+: path)
    (hq : q <+: path) (hplen : p.length = 2 ^ 31) (hqlen : q.length = 2 ^ 31 + 1) :
    (match_loop [(p, v1), (q, v2)] path).prefix_match = p ∧
    (match_loop [(q, v2), (p, v1)] path).prefix_match = q := by
  have hp2 : p.isPrefixOf path = true := List.isPrefixOf_iff_prefix.mpr hp
  have hq2 : q.isPrefixOf path = true := List.isPrefixOf_iff_prefix.mpr hq
  have e1 : match_step path { prefix_match := [], max_len := 0 } p
      = { prefix_match := p, max_len := -(2 ^ 31) } := by
    unfold match_step
    rw [if_pos hp2, to_size_t_zero, if_pos (by rw [hplen]; norm_num), hplen, to_int_wrapped.1]
  have e2 : match_step path { prefix_match := p, max_len := -(2 ^ 31) } q
      = { prefix_match := p, max_len := -(2 ^ 31) } := by
    unfold match_step
    rw [if_pos hq2, to_size_t_wrapped.1, if_neg (by rw [hqlen]; norm_num)]
  have e3 : match_step path { prefix_match := [], max_len := 0 } q
      = { prefix_match := q, max_len := -(2 ^ 31) + 1 } := by
    unfold match_step
    rw [if_pos hq2, to_size_t_zero, if_pos (by rw [hqlen]; norm_num), hqlen, to_int_wrapped.2]
  have e4 : match_step path { prefix_match := q, max_len := -(2 ^ 31) + 1 } p
      = { prefix_match := q, max_len := -(2 ^ 31) + 1 } := by
    unfold match_step
    rw [if_pos hp2, to_size_t_wrapped.2, if_neg (by rw [hplen]; norm_num)]
  unfold match_loop
  simp only [List.foldl_cons, List.foldl_nil, e1, e2, e3, e4, and_self]

theorem match_handler_wrapped {H : Type} (create_handler : HandlerConfig → Bytes → H)
    (path p q : Bytes) (v1 v2 : HandlerConfig) (hp : p <+: path)
    (hq : q <+: path) (hplen : p.length = 2 ^ 31) (hqlen : q.length = 2 ^ 31 + 1) :
    match_handler create_handler [(p, v1), (q, v2)] path = some (create_handler v1 p) ∧
    match_handler create_handler [(q, v2), (p, v1)] path = some (create_handler v2 q) := by
  obtain ⟨h1, h2⟩ := match_loop_wrapped path p q v1 v2 hp hq hplen hqlen
  have hpne : (!p.isEmpty) = true := by
    cases p with
    | nil => exact absurd hplen (by norm_num)
    | cons c cs => rfl
  have hqne : (!q.isEmpty) = true := by
    cases q with
    | nil => exact absurd hqlen (by norm_num)
    | cons c cs => rfl
  unfold match_handler
  simp only [h1, h2]
  constructor
  · rw [if_pos hpne, mapFind, if_pos rfl]
  · rw [if_pos hqne, mapFind, if_pos rfl]

theorem replicate_prefix_succ (n : Nat) (c : Char) :
    List.replicate n c <+: List.replicate (n + 1) c := by
  rw [List.replicate_succ']
  exact List.prefix_append _ _

theorem match_loop_longest {V : Type} (routes_ : StdMap V) (path p : Bytes)
    (hkeys : ∀ k ∈ routes_.map Prod.fst, k.length < 2 ^ 31)
    (hp : p ∈ routes_.map Prod.fst) (hpp : p <+: path)
    (hmax : ∀ q ∈ routes_.map Prod.fst, q <+: path → q.length ≤ p.length) :
    (match_loop routes_ path).prefix_match = p := by
  rcases match_loop_spec routes_ path hkeys with ⟨a1, a2⟩ | ⟨a1, _, a3, a4⟩
  · rw [a1]
    by_cases hne : p = []
    · exact hne.symm
    · exact absurd hpp (a2 p hp hne)
  · exact prefix_eq_of_length_eq _ _ path a3 hpp (le_antisymm (hmax _ a1 a3) (a4 p hp hpp))

/-! ## The query state after `set_path` on a used request -/

theorem select_fold_init (k : Bytes) (segs : List Bytes) (init : Option Bytes) :
    segs.foldl
        (fun acc pair =>
          match find pair ['='] with
          | some equals_pos =>
            if pair.take equals_pos = k then some (pair.drop (equals_pos + 1)) else acc
          | none => acc) init
      = (segs.foldl
        (fun acc pair =>
          match find pair ['='] with
          | some equals_pos =>
            if pair.take equals_pos = k then some (pair.drop (equals_pos + 1)) else acc
          | none => acc) none).or init := by
  induction segs generalizing init with
  | nil => rfl
  | cons seg rest ih =>
    rw [List.foldl_cons, List.foldl_cons, ih, ih (match find seg ['='] with
      | some equals_pos =>
        if seg.take equals_pos = k then some (seg.drop (equals_pos + 1)) else none
      | none => none)]
    cases hf : find seg ['='] with
    | none => simp
    | some e =>
      by_cases hk : seg.take e = k
      · simp only [hk, if_true]
        cases rest.foldl
          (fun acc pair =>
            match find pair ['='] with
            | some equals_pos =>
              if pair.take equals_pos = k then some (pair.drop (equals_pos + 1)) else acc
            | none => acc) none <;> rfl
      · simp only [hk, if_false]
        simp

theorem get_query_param_set_path_used (r : HttpRequest) (p k : Bytes) :
    (r.set_path p).get_query_param k
      = ((HttpRequest.set_path {} p).get_query_param k).or (r.get_query_param k) := by
  unfold HttpRequest.get_query_param HttpRequest.set_path
  rw [parse_path_and_query_params, parse_path_and_query_params]
  simp only
  cases find p ['?'] with
  | none => rfl
  | some i =>
    simp only
    rw [query_fold_lookup, query_fold_lookup, select_fold_init]
    rfl

/-! ## Fresh ids -/

theorem next_id_loop_ok (entity : Bytes) (used : List Int) (rem : Nat) (c : Int)
    (h : MockFilesystem.next_id_loop entity used rem = Except.ok c) :
    ∃ n : Nat, c = (n : Int) ∧ MockFilesystem.INT_MAX - rem ≤ n ∧
      n ≤ MockFilesystem.INT_MAX ∧ (n : Int) ∉ used := by
  induction rem with
  | zero =>
    unfold MockFilesystem.next_id_loop at h
    by_cases hc : ((MockFilesystem.INT_MAX : Nat) : Int) ∈ used
    · rw [if_neg (by simpa using hc)] at h
      cases h
    · rw [if_pos (by simpa using hc)] at h
      have hc2 : (MockFilesystem.INT_MAX : Int) = c := by
        injection h
      exact ⟨MockFilesystem.INT_MAX, hc2.symm, by omega, le_refl _, hc⟩
  | succ rem ih =>
    unfold MockFilesystem.next_id_loop at h
    by_cases hc : ((MockFilesystem.INT_MAX - (rem + 1) : Nat) : Int) ∈ used
    · rw [if_neg (by simpa using hc)] at h
      obtain ⟨n, h1, h2, h3, h4⟩ := ih h
      exact ⟨n, h1, by omega, h3, h4⟩
    · rw [if_pos (by simpa using hc)] at h
      have hc2 : ((MockFilesystem.INT_MAX - (rem + 1) : Nat) : Int) = c := by
        injection h
      exact ⟨MockFilesystem.INT_MAX - (rem + 1), hc2.symm, le_refl _, by omega, hc⟩

theorem mapFind_isSome_iff {V : Type} (m : List (Bytes × V)) (k : Bytes) :
    (mapFind k m).isSome = true ↔ k ∈ m.map Prod.fst := by
  constructor
  · intro h
    by_contra hk
    rw [mapFind_eq_none_of_not_mem m k hk] at h
    cases h
  · intro h
    obtain ⟨v, hv, _⟩ := mapFind_of_mem_keys m k h
    rw [hv]
    rfl

theorem entity_exists_iff_mem (fs : MockFilesystem) (e i : Bytes) :
    fs.entity_exists e i = true ↔ i ∈ fs.list_entity_ids e := by
  rw [entity_exists_eq, list_entity_ids_eq]
  exact mapFind_isSome_iff _ _

theorem next_entity_id_fresh (fs : MockFilesystem) (E s : Bytes)
    (h : fs.next_entity_id E = Except.ok s) :
    s ∉ fs.list_entity_ids E := by
  have hI := INT_MAX_eq
  unfold MockFilesystem.next_entity_id at h
  cases hl : MockFilesystem.next_id_loop E
      (MockFilesystem.used_ids (fs.list_entity_ids E)) (MockFilesystem.INT_MAX - 1) with
  | error e => rw [hl] at h; cases h
  | ok c =>
    rw [hl] at h
    obtain ⟨n, h1, h2, h3, h4⟩ := next_id_loop_ok _ _ _ _ hl
    have hs : to_string_int c = s := by
      injection h
    rw [h1, to_string_int_of_nat] at hs
    intro hmem
    apply h4
    rw [mem_used_ids]
    exact ⟨by omega, s, hmem, by rw [← hs]; exact stoi_to_string_nat n (by omega)⟩

theorem keys_umSet_of_not_mem {V : Type} (k : Bytes) (v : V) (m : List (Bytes × V))
    (h : k ∉ m.map Prod.fst) : (umSet k v m).map Prod.fst = m.map Prod.fst ++ [k] := by
  induction m with
  | nil => rfl
  | cons e rest ih =>
    obtain ⟨k', v'⟩ := e
    have hk : k ≠ k' := fun hh => h (by rw [hh]; exact List.mem_cons_self _ _)
    have hr : k ∉ rest.map Prod.fst := fun hh => h (List.mem_cons_of_mem _ hh)
    unfold umSet
    rw [if_neg hk]
    simp only [List.map_cons, List.cons_append]
    rw [ih hr]

theorem list_entity_ids_write_entity (fs : MockFilesystem) (e i d e2 : Bytes) :
    (fs.write_entity e i d).2.list_entity_ids e2
      = if e2 = e then (umSet i d ((mapFind e fs.data_).getD [])).map Prod.fst
        else fs.list_entity_ids e2 := by
  rw [list_entity_ids_eq, list_entity_ids_eq]
  unfold MockFilesystem.write_entity
  simp only
  by_cases he : e2 = e
  · subst he
    rw [mapFind_umSet_self, if_pos rfl, Option.getD_some]
  · rw [mapFind_umSet_ne _ _ _ _ he, if_neg he]

theorem handle_post_created (fs : MockFilesystem) (request : HttpRequest) (E : Bytes)
    (h : (CrudHandler.handle_post fs request E).1.status_code = 201) :
    ∃ s, fs.next_entity_id E = Except.ok s ∧
      CrudHandler.handle_post fs request E =
        (typed_response 201 "Created".toList "application/json".toList
          ("\x7b\"id\": ".toList ++ s ++ "\x7d".toList),
          (fs.write_entity E s request.body_).2) := by
  cases hn : fs.next_entity_id E with
  | error e =>
    unfold CrudHandler.handle_post at h
    rw [hn] at h
    have h500 : (500 : Int) = 201 := h
    exact absurd h500 (by decide)
  | ok s => exact ⟨s, rfl, handle_post_ok fs request E s hn⟩

/-! ## Path sanitization -/

theorem splitOn_getlines (d : Char) (s : Bytes) :
    s.splitOn d = getlines d s ++ [[]] ∨ (getlines d s ≠ [] ∧ s.splitOn d = getlines d s) := by
  induction s with
  | nil => exact Or.inl rfl
  | cons c cs ih =>
    have key : (c :: cs).splitOn d
        = if (c == d) = true then [] :: cs.splitOn d
          else (cs.splitOn d).modifyHead (List.cons c) := List.splitOnP_cons _ c cs
    by_cases hc : c = d
    · have hb : (c == d) = true := by simp [hc]
      rw [key, if_pos hb, getlines, if_pos hc]
      rcases ih with h | ⟨_, h⟩
      · exact Or.inl (by rw [h]; rfl)
      · exact Or.inr ⟨by simp, by rw [h]⟩
    · have hb : ¬ (c == d) = true := by simp [hc]
      rw [key, if_neg hb, getlines, if_neg hc]
      cases hg : getlines d cs with
      | nil =>
        rcases ih with h | ⟨h1, _⟩
        · rw [hg] at h
          refine Or.inr ⟨by simp, ?_⟩
          rw [h]
          rfl
        · exact absurd hg h1
      | cons l ls =>
        rcases ih with h | ⟨_, h⟩
        · rw [hg] at h
          exact Or.inl (by rw [h]; rfl)
        · rw [hg] at h
          exact Or.inr ⟨by simp, by rw [h]; rfl⟩

theorem keeps_part_spec (c : Bytes) :
    keeps_part c = true ↔ c ≠ [] ∧ c ≠ ".".toList ∧ c ≠ "..".toList := by
  unfold keeps_part
  cases c with
  | nil => simp
  | cons a as => simp [and_comm]

theorem filter_keeps_splitOn (s : Bytes) :
    (s.splitOn '/').filter keeps_part = (getlines '/' s).filter keeps_part := by
  rcases splitOn_getlines '/' s with h | ⟨_, h⟩
  · rw [h, List.filter_append]
    have : [([] : Bytes)].filter keeps_part = [] := by decide
    rw [this, List.append_nil]
  · rw [h]

theorem filter_keeps_dropWhile (p : Bytes) :
    (p.splitOn '/').filter keeps_part
      = ((p.dropWhile (fun c => c == '/')).splitOn '/').filter keeps_part := by
  induction p with
  | nil => rfl
  | cons c cs ih =>
    by_cases hc : c = '/'
    · subst hc
      have key : ('/' :: cs).splitOn '/' = [] :: cs.splitOn '/' := by
        simp [List.splitOn]
      have hd : ('/' :: cs).dropWhile (fun c => c == '/')
          = cs.dropWhile (fun c => c == '/') := by
        simp [List.dropWhile_cons]
      rw [key, hd, ← ih]
      rfl
    · have hd : (c :: cs).dropWhile (fun c => c == '/') = c :: cs := by
        simp [List.dropWhile_cons, hc]
      rw [hd]

theorem intercalate_cons_cons (a b : Bytes) (rest : List Bytes) :
    ['/'].intercalate (a :: b :: rest) = a ++ '/' :: ['/'].intercalate (b :: rest) := by
  simp [List.intercalate]

theorem intercalate_shape (parts : List Bytes)
    (hgood : ∀ c ∈ parts, c ≠ [] ∧ '/' ∉ c) (hne : parts ≠ []) :
    ['/'].intercalate parts ≠ [] ∧
    (['/'].intercalate parts).head? ≠ some '/' ∧
    (['/'].intercalate parts).getLast? ≠ some '/' := by
  induction parts with
  | nil => exact absurd rfl hne
  | cons a rest ih =>
    obtain ⟨ha1, ha2⟩ := hgood a (List.mem_cons_self _ _)
    obtain ⟨x, xs, hx⟩ := List.exists_cons_of_ne_nil ha1
    have hxn : x ≠ '/' := by
      intro hh
      apply ha2
      rw [hx, hh]
      exact List.mem_cons_self _ _
    cases rest with
    | nil =>
      have hj : ['/'].intercalate [a] = a := by simp [List.intercalate]
      rw [hj]
      refine ⟨ha1, ?_, ?_⟩
      · rw [hx]
        simpa using hxn
      · intro hl
        exact ha2 (List.mem_of_getLast?_eq_some hl)
    | cons b rest2 =>
      obtain ⟨i1, _, i3⟩ := ih (fun c hc => hgood c (List.mem_cons_of_mem _ hc)) (by simp)
      rw [intercalate_cons_cons]
      refine ⟨by simp, ?_, ?_⟩
      · rw [hx]
        simpa using hxn
      · rw [List.getLast?_append]
        have hne2 : ('/' :: ['/'].intercalate (b :: rest2)).getLast?
            = (['/'].intercalate (b :: rest2)).getLast? := by
          obtain ⟨y, ys, hy⟩ := List.exists_cons_of_ne_nil i1
          rw [hy]
          simp [List.getLast?_cons_cons]
        rw [hne2]
        cases hl : (['/'].intercalate (b :: rest2)).getLast? with
        | none =>
          obtain ⟨y, ys, hy⟩ := List.exists_cons_of_ne_nil i1
          rw [hy] at hl
          simp at hl
        | some z =>
          rw [hl] at i3
          simpa using i3

theorem getlines_intercalate (parts : List Bytes)
    (hgood : ∀ c ∈ parts, c ≠ [] ∧ '/' ∉ c) :
    getlines '/' (['/'].intercalate parts) = parts := by
  cases parts with
  | nil => rfl
  | cons a rest =>
    have hsplit : (['/'].intercalate (a :: rest)).splitOn '/' = a :: rest :=
      List.splitOn_intercalate (a :: rest) '/' (fun l hl => (hgood l hl).2) (by simp)
    rcases splitOn_getlines '/' (['/'].intercalate (a :: rest)) with h | ⟨_, h⟩
    · rw [hsplit] at h
      have hmem : ([] : Bytes) ∈ a :: rest := by
        rw [h]
        simp
      exact absurd rfl (hgood [] hmem).1
    · rw [← h, hsplit]

/-! ## The first terminator in CRLF-ended lines -/

theorem not_lf_prefix_after_line (l Z : Bytes) (hl : '\n' ∉ l) (n : Bytes) :
    ('\n' :: n).isPrefixOf (l ++ '\r' :: Z) = false := by
  cases l with
  | nil => simp [List.isPrefixOf]
  | cons c cs =>
    have hc : '\n' ≠ c := fun hh => hl (by rw [← hh]; exact List.mem_cons_self _ _)
    simp [List.isPrefixOf, hc]

theorem find_skip_line (l Z : Bytes) (hl : '\n' ∉ l) :
    find (l ++ '\r' :: '\n' :: Z) CRLFCRLF
      = (find ('\r' :: '\n' :: Z) CRLFCRLF).map (· + l.length) := by
  induction l with
  | nil => simp
  | cons c cs ih =>
    have hcs : '\n' ∉ cs := fun hh => hl (List.mem_cons_of_mem _ hh)
    have hpre : CRLFCRLF.isPrefixOf (c :: (cs ++ '\r' :: '\n' :: Z)) = false := by
      unfold CRLFCRLF
      rw [List.isPrefixOf_cons₂, not_lf_prefix_after_line cs ('\n' :: Z) hcs]
      simp
    rw [List.cons_append, find_cons_eq_map _ _ _ hpre, ih hcs, Option.map_map]
    rfl

theorem find_skip_crlf (l Z : Bytes) (hne : l ≠ []) (hl : '\n' ∉ l) :
    find ('\r' :: '\n' :: (l ++ '\r' :: '\n' :: Z)) CRLFCRLF
      = (find (l ++ '\r' :: '\n' :: Z) CRLFCRLF).map (· + 2) := by
  obtain ⟨c, cs, rfl⟩ := List.exists_cons_of_ne_nil hne
  have hcs : '\n' ∉ cs := fun hh => hl (List.mem_cons_of_mem _ hh)
  have h0 : CRLFCRLF.isPrefixOf ('\r' :: '\n' :: (c :: cs ++ '\r' :: '\n' :: Z)) = false := by
    unfold CRLFCRLF
    rw [List.isPrefixOf_cons₂, List.isPrefixOf_cons₂, List.cons_append,
      List.isPrefixOf_cons₂, not_lf_prefix_after_line cs ('\n' :: Z) hcs]
    simp
  have h1 : CRLFCRLF.isPrefixOf ('\n' :: (c :: cs ++ '\r' :: '\n' :: Z)) = false := by
    unfold CRLFCRLF
    rw [List.isPrefixOf_cons₂]
    simp
  rw [find_cons_eq_map _ _ _ h0, find_cons_eq_map _ _ _ h1, Option.map_map]
  rfl

theorem find_terminator_lines (lines : List Bytes) (B : Bytes) (hne : lines ≠ [])
    (hgood : ∀ l ∈ lines, l ≠ [] ∧ '\n' ∉ l) :
    ∃ i, find ((lines.map (fun l => l ++ ['\r', '\n'])).flatten ++ '\r' :: '\n' :: B) CRLFCRLF
        = some i ∧
      i + 2 = (lines.map (fun l => l ++ ['\r', '\n'])).flatten.length := by
  induction lines with
  | nil => exact absurd rfl hne
  | cons l rest ih =>
    obtain ⟨_, hl2⟩ := hgood l (List.mem_cons_self _ _)
    have hform : ((l :: rest).map (fun l => l ++ ['\r', '\n'])).flatten ++ '\r' :: '\n' :: B
        = l ++ '\r' :: '\n' ::
          ((rest.map (fun l => l ++ ['\r', '\n'])).flatten ++ '\r' :: '\n' :: B) := by
      simp [List.append_assoc]
    have hlen : ((l :: rest).map (fun l => l ++ ['\r', '\n'])).flatten.length
        = l.length + 2 + (rest.map (fun l => l ++ ['\r', '\n'])).flatten.length := by
      simp only [List.map_cons, List.flatten_cons, List.length_append, List.length_cons,
        List.length_nil]
    rw [hform, find_skip_line l _ hl2, hlen]
    cases rest with
    | nil =>
      refine ⟨l.length, ?_, by simp⟩
      have h0b : find ('\r' :: '\n' :: ((([] : List Bytes).map
          (fun l => l ++ ['\r', '\n'])).flatten ++ '\r' :: '\n' :: B)) CRLFCRLF = some 0 :=
        find_eq_zero _ _ (by simp [CRLFCRLF, List.isPrefixOf])
      rw [h0b]
      simp
    | cons l2 r2 =>
      obtain ⟨hl3, hl4⟩ := hgood l2 (List.mem_cons_of_mem _ (List.mem_cons_self _ _))
      obtain ⟨j, hj1, hj2⟩ := ih (by simp) (fun x hx => hgood x (List.mem_cons_of_mem _ hx))
      have hform2 : ((l2 :: r2).map (fun l => l ++ ['\r', '\n'])).flatten ++ '\r' :: '\n' :: B
          = l2 ++ '\r' :: '\n' ::
            ((r2.map (fun l => l ++ ['\r', '\n'])).flatten ++ '\r' :: '\n' :: B) := by
        simp [List.append_assoc]
      rw [hform2] at hj1 ⊢
      rw [find_skip_crlf l2 _ hl3 hl4, hj1]
      refine ⟨j + 2 + l.length, by simp, ?_⟩
      omega

/-! ## The serialized response as CRLF-ended lines -/

theorem convert_to_string_lines (r : HttpResponse) :
    r.convert_to_string =
      (((r.version ++ " ".toList ++ to_string_int r.status_code ++ " ".toList
            ++ r.reason_phrase)
          :: r.headers_map.map (fun kv => kv.1 ++ ": ".toList ++ kv.2)).map
        (fun l => l ++ ['\r', '\n'])).flatten ++ '\r' :: '\n' :: r.message_body := by
  have hc : "\r\n".toList = ['\r', '\n'] := rfl
  simp only [HttpResponse.convert_to_string]
  rw [foldl_append_lines (fun kv => kv.1 ++ ": ".toList ++ kv.2 ++ "\r\n".toList), hc]
  simp [List.append_assoc, Function.comp]
  congr 1
  apply List.map_congr_left
  intro kv _
  simp

theorem to_string_int_no_lf (i : Int) : '\n' ∉ to_string_int i := by
  have hd : ∀ n : Nat, '\n' ∉ Nat.toDigits 10 n := by
    intro n hh
    have := (to_string_nat_spec n).2.1 '\n' hh
    exact absurd this (by decide)
  unfold to_string_int
  by_cases h : i < 0
  · rw [if_pos h]
    intro hh
    rcases List.mem_cons.mp hh with hh | hh
    · exact absurd hh (by decide)
    · exact hd _ hh
  · rw [if_neg h]
    exact hd _

theorem foldl_digits_cast (l : List Char) (a : Nat) :
    ((l.foldl (fun acc d => acc * 10 + (d.toNat - '0'.toNat)) a : Nat) : Int)
      = l.foldl (fun (acc : Int) d => acc * 10 + ((d.toNat - '0'.toNat : Nat) : Int))
          (a : Int) := by
  induction l generalizing a with
  | nil => rfl
  | cons c cs ih =>
    rw [List.foldl_cons, List.foldl_cons, ih]
    push_cast
    rfl

theorem stoull_to_string_nat (n : Nat) (h : n < 2 ^ 64) :
    stoull (to_string_nat n) = some n := by
  obtain ⟨hne, hdig, hval⟩ := to_string_nat_spec n
  have hvalN : (to_string_nat n).foldl (fun acc d => acc * 10 + (d.toNat - '0'.toNat)) 0
      = n := by
    have := foldl_digits_cast (to_string_nat n) 0
    rw [Nat.cast_zero, hval] at this
    exact_mod_cast this
  obtain ⟨c, cs, hL⟩ := List.exists_cons_of_ne_nil hne
  rw [hL] at hdig hvalN ⊢
  have hc := isspace_of_isDigit c (hdig c (List.mem_cons_self _ _))
  have h1 : (c :: cs).dropWhile isspace = c :: cs :=
    List.dropWhile_cons_of_neg (by simp [hc.1])
  have h2 : (c :: cs).takeWhile Char.isDigit = c :: cs :=
    List.takeWhile_eq_self_iff.mpr hdig
  have h3 : ((c :: cs).head? == some '+') = false := by
    simp [hc.2.2.1]
  have h4 : ((c :: cs).head? == some '-') = false := by
    simp [hc.2.1]
  unfold stoull
  simp only [h1, h3, h4, Bool.or_self, Bool.false_eq_true, if_false, h2, List.isEmpty_cons,
    hvalN]
  rw [if_neg (by omega)]

/-! ## Loading the configuration -/

theorem mapInsert_ne_nil {V : Type} (k : Bytes) (v : V) (m : StdMap V) :
    mapInsert k v m ≠ [] := by
  cases m with
  | nil => simp [mapInsert]
  | cons e rest =>
    obtain ⟨k', v'⟩ := e
    unfold mapInsert
    by_cases h1 : k = k'
    · rw [if_pos h1]; simp
    · rw [if_neg h1]
      by_cases h2 : bytesLt k k' = true
      · rw [if_pos h2]; simp
      · rw [if_neg h2]; simp

theorem add_location_spec (cfg : ServerConfig) (st : NginxConfigStatement) :
    (ServerConfig.add_location cfg st).port_ = cfg.port_ ∧
    ((ServerConfig.add_location cfg st).routes_ ≠ [] ↔
      cfg.routes_ ≠ [] ∨
        (ServerConfig.is_location st = true ∧ st.child_block_.isSome = true)) := by
  unfold ServerConfig.add_location
  by_cases hl : ServerConfig.is_location st = true
  · rw [if_pos hl]
    cases hc : st.child_block_ with
    | none => simp
    | some block =>
      exact ⟨rfl, ⟨fun _ => Or.inr ⟨hl, rfl⟩, fun _ => mapInsert_ne_nil _ _ _⟩⟩
  · rw [if_neg hl]
    simp [hl]

theorem load_server_block_spec (S : List NginxConfigStatement) (cfg : ServerConfig) :
    ((ServerConfig.load_server_block S cfg).1 = true ↔
      (∀ v ∈ ServerConfig.listen_values S, v.isSome = true) ∧
      0 < ServerConfig.last_port S cfg.port_ ∧
      (cfg.routes_ ≠ [] ∨
        ∃ st ∈ S, ServerConfig.is_location st = true ∧ st.child_block_.isSome = true)) ∧
    ((ServerConfig.load_server_block S cfg).1 = true →
      (ServerConfig.load_server_block S cfg).2.port_ = ServerConfig.last_port S cfg.port_ ∧
      (ServerConfig.load_server_block S cfg).2.routes_ ≠ []) := by
  induction S generalizing cfg with
  | nil =>
    have hres : ServerConfig.load_server_block [] cfg
        = (decide (cfg.port_ > 0) && !cfg.routes_.isEmpty, cfg) := rfl
    have hlv : ServerConfig.listen_values [] = [] := rfl
    have hlp : ServerConfig.last_port [] cfg.port_ = cfg.port_ := rfl
    rw [hres, hlv, hlp]
    constructor
    · constructor
      · intro h
        have h2 : (decide (cfg.port_ > 0) && !cfg.routes_.isEmpty) = true := h
        rw [Bool.and_eq_true] at h2
        refine ⟨fun v hv => absurd hv (List.not_mem_nil v), of_decide_eq_true h2.1,
          Or.inl ?_⟩
        intro hnil
        have h3 := h2.2
        rw [hnil] at h3
        simp at h3
      · rintro ⟨_, h2, h3⟩
        show (decide (cfg.port_ > 0) && !cfg.routes_.isEmpty) = true
        rcases h3 with h3 | ⟨st, hst, _⟩
        · rw [Bool.and_eq_true]
          refine ⟨decide_eq_true h2, ?_⟩
          cases hr : cfg.routes_ with
          | nil => exact absurd hr h3
          | cons a b => rfl
        · exact absurd hst (List.not_mem_nil st)
    · intro h
      have h2 : (decide (cfg.port_ > 0) && !cfg.routes_.isEmpty) = true := h
      rw [Bool.and_eq_true] at h2
      refine ⟨rfl, ?_⟩
      intro hnil
      have h3 := h2.2
      change cfg.routes_ = [] at hnil
      rw [hnil] at h3
      simp at h3
  | cons st rest ih =>
    by_cases hl : ServerConfig.is_listen st = true
    · have hlv : ServerConfig.listen_values (st :: rest)
          = stoi ((st.tokens_.get? 1).getD []) :: ServerConfig.listen_values rest := by
        unfold ServerConfig.listen_values
        rw [List.filter_cons_of_pos hl, List.map_cons]
      cases hs : stoi ((st.tokens_.get? 1).getD []) with
      | none =>
        have hres : ServerConfig.load_server_block (st :: rest) cfg = (false, cfg) := by
          rw [ServerConfig.load_server_block, if_pos hl, hs]
        rw [hres, hlv, hs]
        constructor
        · constructor
          · intro h; cases h
          · intro h
            have := h.1 none (List.mem_cons_self _ _)
            cases this
        · intro h; cases h
      | some port =>
        have hres : ServerConfig.load_server_block (st :: rest) cfg
            = ServerConfig.load_server_block rest
                (ServerConfig.add_location { cfg with port_ := port } st) := by
          rw [ServerConfig.load_server_block, if_pos hl, hs]
        have hlp : ServerConfig.last_port (st :: rest) cfg.port_
            = ServerConfig.last_port rest port := by
          unfold ServerConfig.last_port
          rw [List.foldl_cons, if_pos hl, hs]
          rfl
        obtain ⟨a1, a2⟩ := add_location_spec { cfg with port_ := port } st
        obtain ⟨i1, i2⟩ := ih (ServerConfig.add_location { cfg with port_ := port } st)
        have a1b : (ServerConfig.add_location { cfg with port_ := port } st).port_ = port := a1
        rw [a1b] at i1 i2
        rw [hres, hlv, hs, hlp]
        constructor
        · rw [i1, a2]
          simp only [List.mem_cons, forall_eq_or_imp, Option.isSome_some, true_and,
            exists_eq_or_imp]
          constructor
          · rintro ⟨h1, h2, h3⟩
            refine ⟨h1, h2, ?_⟩
            rcases h3 with (h3 | h3) | h3
            · exact Or.inl h3
            · exact Or.inr (Or.inl h3)
            · exact Or.inr (Or.inr h3)
          · rintro ⟨h1, h2, h3⟩
            refine ⟨h1, h2, ?_⟩
            rcases h3 with h3 | h3 | h3
            · exact Or.inl (Or.inl h3)
            · exact Or.inl (Or.inr h3)
            · exact Or.inr h3
        · exact i2
    · have hlv : ServerConfig.listen_values (st :: rest)
          = ServerConfig.listen_values rest := by
        unfold ServerConfig.listen_values
        rw [List.filter_cons_of_neg hl]
      have hres : ServerConfig.load_server_block (st :: rest) cfg
          = ServerConfig.load_server_block rest (ServerConfig.add_location cfg st) := by
        rw [ServerConfig.load_server_block, if_neg hl]
      have hlp : ServerConfig.last_port (st :: rest) cfg.port_
          = ServerConfig.last_port rest cfg.port_ := by
        unfold ServerConfig.last_port
        rw [List.foldl_cons, if_neg hl]
      obtain ⟨a1, a2⟩ := add_location_spec cfg st
      obtain ⟨i1, i2⟩ := ih (ServerConfig.add_location cfg st)
      rw [a1] at i1 i2
      rw [hres, hlv, hlp]
      constructor
      · rw [i1, a2]
        simp only [List.mem_cons, exists_eq_or_imp]
        constructor
        · rintro ⟨h1, h2, h3⟩
          refine ⟨h1, h2, ?_⟩
          rcases h3 with (h3 | h3) | h3
          · exact Or.inl h3
          · exact Or.inr (Or.inl h3)
          · exact Or.inr (Or.inr h3)
        · rintro ⟨h1, h2, h3⟩
          refine ⟨h1, h2, ?_⟩
          rcases h3 with h3 | h3 | h3
          · exact Or.inl (Or.inl h3)
          · exact Or.inl (Or.inr h3)
          · exact Or.inr h3
      · exact i2

theorem load_statements_none (L : List NginxConfigStatement) (cfg : ServerConfig)
    (h : ∀ st ∈ L, ServerConfig.is_server_block st = false) :
    ServerConfig.load_statements L cfg = (false, cfg) := by
  induction L with
  | nil => rfl
  | cons st rest ih =>
    have h0 := h st (List.mem_cons_self _ _)
    rw [ServerConfig.load_statements, if_neg (by simp [h0])]
    exact ih (fun s hs => h s (List.mem_cons_of_mem _ hs))

theorem load_statements_first (pre post : List NginxConfigStatement)
    (st : NginxConfigStatement) (block : NginxConfig) (cfg : ServerConfig)
    (hpre : ∀ s ∈ pre, ServerConfig.is_server_block s = false)
    (hst : ServerConfig.is_server_block st = true) (hb : st.child_block_ = some block) :
    ServerConfig.load_statements (pre ++ st :: post) cfg
      = ServerConfig.load_server_block block.statements_ cfg := by
  induction pre with
  | nil =>
    rw [List.nil_append, ServerConfig.load_statements, if_pos hst, hb]
  | cons s rest ih =>
    have h0 := hpre s (List.mem_cons_self _ _)
    rw [List.cons_append, ServerConfig.load_statements, if_neg (by simp [h0])]
    exact ih (fun x hx => hpre x (List.mem_cons_of_mem _ hx))

/-! ## CRUD paths -/

theorem cut_at_char (s : Bytes) (c : Char) :
    (match find s [c] with
      | some i => s.take i
      | none => s) = s.takeWhile (fun x => x != c) ∧
    (match find s [c] with
      | some i => s.drop (i + 1)
      | none => []) = (s.dropWhile (fun x => x != c)).drop 1 := by
  cases hf : find s [c] with
  | none =>
    have hc : c ∉ s := (find_singleton_none s c).mp hf
    have hall : ∀ x ∈ s, (x != c) = true := by
      intro x hx
      have : x ≠ c := fun hh => hc (by rw [← hh]; exact hx)
      simpa using this
    constructor
    · exact (List.takeWhile_eq_self_iff.mpr hall).symm
    · rw [List.dropWhile_eq_nil_iff.mpr hall]
      rfl
  | some i =>
    obtain ⟨h1, h2⟩ := find_singleton_some s c i hf
    have hall : ∀ x ∈ s.take i, (x != c) = true := by
      intro x hx
      have : x ≠ c := fun hh => h2 (by rw [← hh]; exact hx)
      simpa using this
    constructor
    · simp only
      conv_rhs => rw [h1]
      rw [List.takeWhile_append_of_pos hall, List.takeWhile_cons_of_neg (by simp),
        List.append_nil]
    · simp only
      conv_rhs => rw [h1]
      rw [List.dropWhile_append_of_pos hall, List.dropWhile_cons_of_neg (by simp)]
      rfl

theorem parse_path_none_iff (P path : Bytes) :
    CrudHandler.parse_entity_and_id_from_path P path = none ↔
      invalid_crud_path P path = true := by
  have hp := (cut_at_char path '?').1
  unfold CrudHandler.parse_entity_and_id_from_path invalid_crud_path
  simp only [hp]
  by_cases hpre : P.isPrefixOf (path.takeWhile (fun c => c != '?')) = true
  · simp only [hpre, Bool.not_true, Bool.and_false, Bool.false_eq_true, if_false]
    generalize hrest : (if ((path.takeWhile (fun c => c != '?')).drop P.length).head?
        == some '/' then ((path.takeWhile (fun c => c != '?')).drop P.length).drop 1
        else (path.takeWhile (fun c => c != '?')).drop P.length) = rest
    obtain ⟨c1, c2⟩ := cut_at_char rest '/'
    rw [← c1, ← c2]
    cases hf : find rest ['/'] with
    | none =>
      simp only
      cases rest with
      | nil => simp
      | cons a as => simp
    | some sp =>
      simp only
      have hid : (find (rest.drop (sp + 1)) ['/']).isSome = (rest.drop (sp + 1)).contains '/' := by
        cases hx : find (rest.drop (sp + 1)) ['/'] with
        | none =>
          have := (find_singleton_none _ _).mp hx
          simp [this]
        | some j =>
          have hin : '/' ∈ rest.drop (sp + 1) := by
            by_contra hh
            rw [(find_singleton_none _ _).mpr hh] at hx
            cases hx
          simp [hin]
      rw [hid]
      cases (rest.drop (sp + 1)).contains '/' <;> cases (rest.take sp).isEmpty <;> simp
  · have hne : P.isEmpty = false := by
      cases P with
      | nil => simp at hpre
      | cons a as => rfl
    have hpre2 : P.isPrefixOf (path.takeWhile (fun c => c != '?')) = false :=
      Bool.eq_false_iff.mpr hpre
    simp [hpre2, hne]

/-! ## The answers of the CRUD handler -/

theorem handle_post_not_400 (fs : MockFilesystem) (request : HttpRequest) (E : Bytes) :
    (CrudHandler.handle_post fs request E).1.status_code ≠ 400 ∧
    ((CrudHandler.handle_post fs request E).1.status_code ≠ 201 →
      (CrudHandler.handle_post fs request E).2 = fs) := by
  cases hn : fs.next_entity_id E with
  | error e =>
    have hres : CrudHandler.handle_post fs request E
        = (typed_response 500 "Internal Server Error".toList "text/plain".toList
            ("Failed to allocate ID: ".toList ++ e), fs) := by
      unfold CrudHandler.handle_post
      rw [hn]
    rw [hres]
    refine ⟨?_, fun _ => rfl⟩
    intro h
    have h500 : (500 : Int) = 400 := h
    exact absurd h500 (by decide)
  | ok s =>
    rw [handle_post_ok fs request E s hn]
    refine ⟨?_, fun h => ?_⟩
    · intro h
      have h201 : (201 : Int) = 400 := h
      exact absurd h201 (by decide)
    · exact absurd rfl h

theorem handle_get_cases (fs : MockFilesystem) (E id : Bytes) :
    CrudHandler.handle_get fs E id =
      if fs.entity_exists E id = false then
        Except.ok (typed_response 404 "Not Found".toList "text/html".toList
          "Entity not found".toList)
      else
        Except.ok (typed_response 200 "OK".toList "application/json".toList
          ((mapFind id ((mapFind E fs.data_).getD [])).getD [])) := by
  unfold CrudHandler.handle_get
  cases hex : fs.entity_exists E id with
  | false => simp
  | true =>
    have hr : fs.read_entity E id
        = Except.ok ((mapFind id ((mapFind E fs.data_).getD [])).getD []) := by
      unfold MockFilesystem.read_entity
      rw [hex]
      rfl
    simp [hr]

theorem handle_put_cases (fs : MockFilesystem) (request : HttpRequest) (E id : Bytes) :
    CrudHandler.handle_put fs request E id =
      if fs.entity_exists E id = false then
        (typed_response 404 "Not Found".toList "text/html".toList "Entity not found".toList,
          fs)
      else
        (typed_response 200 "OK".toList "application/json".toList request.body_,
          (fs.write_entity E id request.body_).2) := by
  unfold CrudHandler.handle_put
  cases hex : fs.entity_exists E id with
  | false => simp
  | true => simp [MockFilesystem.write_entity]

theorem handle_delete_cases (fs : MockFilesystem) (E id : Bytes) :
    CrudHandler.handle_delete fs E id =
      if fs.entity_exists E id = false then
        (typed_response 404 "Not Found".toList "text/html".toList "Entity not found".toList,
          fs)
      else
        (typed_response 200 "OK".toList "text/plain".toList
          "Entity deleted successfully".toList, (fs.delete_entity E id).2) := by
  unfold CrudHandler.handle_delete
  cases hex : fs.entity_exists E id with
  | false => simp
  | true =>
    have hd : fs.delete_entity E id = (true, (fs.delete_entity E id).2) := by
      rw [delete_entity_eq, if_pos hex]
    rw [hd]
    simp

theorem handle_list_status (fs : MockFilesystem) (request : HttpRequest) (E : Bytes)
    (resp : HttpResponse) (h : CrudHandler.handle_list fs request E = Except.ok resp) :
    resp.status_code = 200 := by
  unfold CrudHandler.handle_list at h
  cases hf : CrudHandler.filter_ids fs E (request.get_query_param "name".toList)
      (request.get_query_param "tag".toList) (fs.list_entity_ids E) with
  | error e => rw [hf] at h; cases h
  | ok ids =>
    rw [hf] at h
    have := Except.ok.inj h
    rw [← this]
    rfl

theorem handle_request_valid_path (P : Bytes) (fs fs2 : MockFilesystem)
    (request : HttpRequest) (E id : Bytes) (has_id : Bool) (resp : HttpResponse)
    (hparse : CrudHandler.parse_entity_and_id_from_path P request.path_
      = some (E, id, has_id))
    (h : CrudHandler.handle_request P fs request = Except.ok (resp, fs2)) :
    ¬ (resp.status_code = 400 ∧ resp.message_body = "Invalid CRUD path".toList) := by
  unfold CrudHandler.handle_request at h
  rw [hparse] at h
  simp only at h
  rintro ⟨hs, hb⟩
  by_cases hPOST : request.method_ = "POST".toList
  · rw [if_pos hPOST] at h
    cases has_id with
    | true =>
      simp only [if_true] at h
      have this : _ = resp := congrArg Prod.fst (Except.ok.inj h)
      rw [← this] at hb
      simp [typed_response, HttpResponse.mk5, HttpResponse.set_header] at hb
    | false =>
      simp only [Bool.false_eq_true, if_false] at h
      have this : _ = resp := congrArg Prod.fst (Except.ok.inj h)
      rw [← this] at hs
      exact (handle_post_not_400 fs request E).1 hs
  · rw [if_neg hPOST] at h
    by_cases hGET : request.method_ = "GET".toList
    · rw [if_pos hGET] at h
      cases has_id with
      | true =>
        simp only [if_true] at h
        rw [handle_get_cases] at h
        by_cases hex : fs.entity_exists E id = false
        · rw [if_pos hex] at h
          have this : _ = resp := congrArg Prod.fst (Except.ok.inj h)
          rw [← this] at hs
          have h404 : (404 : Int) = 400 := hs
          exact absurd h404 (by decide)
        · rw [if_neg hex] at h
          have this : _ = resp := congrArg Prod.fst (Except.ok.inj h)
          rw [← this] at hs
          have h200 : (200 : Int) = 400 := hs
          exact absurd h200 (by decide)
      | false =>
        simp only [Bool.false_eq_true, if_false] at h
        cases hl : CrudHandler.handle_list fs request E with
        | error e => rw [hl] at h; cases h
        | ok r =>
          rw [hl] at h
          have this : _ = resp := congrArg Prod.fst (Except.ok.inj h)
          rw [← this, handle_list_status fs request E r hl] at hs
          exact absurd hs (by decide)
    · rw [if_neg hGET] at h
      by_cases hPUT : request.method_ = "PUT".toList
      · rw [if_pos hPUT] at h
        cases has_id with
        | false =>
          simp only [Bool.not_false, if_true] at h
          have this : _ = resp := congrArg Prod.fst (Except.ok.inj h)
          rw [← this] at hb
          simp [typed_response, HttpResponse.mk5, HttpResponse.set_header] at hb
        | true =>
          simp only [Bool.not_true, Bool.false_eq_true, if_false] at h
          rw [handle_put_cases] at h
          by_cases hex : fs.entity_exists E id = false
          · rw [if_pos hex] at h
            have this : _ = resp := congrArg Prod.fst (Except.ok.inj h)
            rw [← this] at hs
            have h404 : (404 : Int) = 400 := hs
            exact absurd h404 (by decide)
          · rw [if_neg hex] at h
            have this : _ = resp := congrArg Prod.fst (Except.ok.inj h)
            rw [← this] at hs
            have h200 : (200 : Int) = 400 := hs
            exact absurd h200 (by decide)
      · rw [if_neg hPUT] at h
        by_cases hDEL : request.method_ = "DELETE".toList
        · rw [if_pos hDEL] at h
          cases has_id with
          | false =>
            simp only [Bool.not_false, if_true] at h
            have this : _ = resp := congrArg Prod.fst (Except.ok.inj h)
            rw [← this] at hb
            simp [typed_response, HttpResponse.mk5, HttpResponse.set_header] at hb
          | true =>
            simp only [Bool.not_true, Bool.false_eq_true, if_false] at h
            rw [handle_delete_cases] at h
            by_cases hex : fs.entity_exists E id = false
            · rw [if_pos hex] at h
              have this : _ = resp := congrArg Prod.fst (Except.ok.inj h)
              rw [← this] at hs
              have h404 : (404 : Int) = 400 := hs
              exact absurd h404 (by decide)
            · rw [if_neg hex] at h
              have this : _ = resp := congrArg Prod.fst (Except.ok.inj h)
              rw [← this] at hs
              have h200 : (200 : Int) = 400 := hs
              exact absurd h200 (by decide)
        · rw [if_neg hDEL] at h
          have this : _ = resp := congrArg Prod.fst (Except.ok.inj h)
          rw [← this] at hs
          have h501 : (501 : Int) = 400 := hs
          exact absurd h501 (by decide)

/-! ## Sorting and filtering the listed ids -/

theorem bytesLt_irrefl (a : Bytes) : bytesLt a a = false := by
  induction a with
  | nil => rfl
  | cons x xs ih => simp [bytesLt, ih]

theorem bytesLt_asymm (a b : Bytes) (h : bytesLt a b = true) : bytesLt b a = false := by
  cases hba : bytesLt b a with
  | false => rfl
  | true =>
    have := bytesLt_trans a b a h hba
    rw [bytesLt_irrefl] at this
    cases this

theorem bytesLe_trans (x y z : Bytes) (h1 : bytesLt y x = false) (h2 : bytesLt z y = false) :
    bytesLt z x = false := by
  cases hzx : bytesLt z x with
  | false => rfl
  | true =>
    by_cases hxy : y = x
    · rw [hxy, hzx] at h2
      cases h2
    · have hlt := bytesLt_of_ne_of_not_lt y x hxy (by simp [h1])
      have := bytesLt_trans z x y hzx hlt
      rw [this] at h2
      cases h2

theorem insert_sorted_perm (x : Bytes) (l : List Bytes) :
    (insert_sorted x l).Perm (x :: l) := by
  induction l with
  | nil => exact List.Perm.refl _
  | cons y ys ih =>
    unfold insert_sorted
    by_cases h : bytesLt y x = true
    · rw [if_pos h]
      exact (List.Perm.cons y ih).trans (List.Perm.swap x y ys)
    · rw [if_neg h]

theorem sort_strings_perm (l : List Bytes) : (sort_strings l).Perm l := by
  induction l with
  | nil => exact List.Perm.refl _
  | cons x xs ih =>
    unfold sort_strings at ih ⊢
    rw [List.foldr_cons]
    exact (insert_sorted_perm x _).trans (List.Perm.cons x ih)

theorem insert_sorted_pairwise (x : Bytes) (l : List Bytes)
    (h : l.Pairwise (fun a b => bytesLt b a = false)) :
    (insert_sorted x l).Pairwise (fun a b => bytesLt b a = false) := by
  induction l with
  | nil => simp [insert_sorted]
  | cons y ys ih =>
    obtain ⟨hy, hys⟩ := List.pairwise_cons.mp h
    unfold insert_sorted
    by_cases hlt : bytesLt y x = true
    · rw [if_pos hlt]
      refine List.pairwise_cons.mpr ⟨?_, ih hys⟩
      intro z hz
      rcases List.mem_cons.mp ((insert_sorted_perm x ys).mem_iff.mp hz) with hz | hz
      · rw [hz]
        exact bytesLt_asymm y x hlt
      · exact hy z hz
    · rw [if_neg hlt]
      have hyx : bytesLt y x = false := by simpa using hlt
      refine List.pairwise_cons.mpr ⟨?_, h⟩
      intro z hz
      rcases List.mem_cons.mp hz with hz | hz
      · rw [hz]
        exact hyx
      · exact bytesLe_trans x y z hyx (hy z hz)

theorem sort_strings_pairwise (l : List Bytes) :
    (sort_strings l).Pairwise (fun a b => bytesLt b a = false) := by
  induction l with
  | nil => exact List.Pairwise.nil
  | cons x xs ih =>
    unfold sort_strings at ih ⊢
    rw [List.foldr_cons]
    exact insert_sorted_pairwise x _ ih

theorem sort_strings_strict (l : List Bytes) (hnodup : l.Nodup) :
    (sort_strings l).Pairwise (fun a b => bytesLt a b = true) := by
  have hn : (sort_strings l).Nodup := (sort_strings_perm l).nodup_iff.mpr hnodup
  have hp := sort_strings_pairwise l
  have hboth := hp.and hn
  refine hboth.imp ?_
  intro a b hab
  exact bytesLt_of_ne_of_not_lt b a (fun hh => hab.2 hh.symm) (by simp [hab.1])

theorem find_skip_plain (a rest n : Bytes) (c : Char) (hc : c ∉ a) :
    find (a ++ rest) (c :: n) = (find rest (c :: n)).map (· + a.length) := by
  induction a with
  | nil => simp
  | cons x xs ih =>
    have hx : c ≠ x := fun hh => hc (by rw [hh]; exact List.mem_cons_self _ _)
    have hxs : c ∉ xs := fun hh => hc (List.mem_cons_of_mem _ hh)
    have hpre : (c :: n).isPrefixOf (x :: (xs ++ rest)) = false := by
      simp [List.isPrefixOf, hx]
    rw [List.cons_append, find_cons_eq_map _ _ _ hpre, ih hxs, Option.map_map]
    congr 1

theorem find_absent_byte (s n : Bytes) (c : Char) (hc : c ∉ s) : find s (c :: n) = none := by
  have := find_skip_plain s [] n c hc
  rw [List.append_nil] at this
  rw [this]
  simp [find, List.isPrefixOf]

theorem quoted_prefix_iff (f s rest : Bytes) (hf : '"' ∉ f) (hs : '"' ∉ s) :
    (f ++ ['"']) <+: (s ++ '"' :: rest) ↔ f = s := by
  constructor
  · intro h
    induction f generalizing s with
    | nil =>
      cases s with
      | nil => rfl
      | cons y ys =>
        rw [List.nil_append, List.cons_append, List.cons_prefix_cons] at h
        exact absurd (h.1 ▸ List.mem_cons_self _ _) hs
    | cons x xs ih =>
      cases s with
      | nil =>
        rw [List.nil_append, List.cons_append, List.cons_prefix_cons] at h
        exact absurd (h.1 ▸ List.mem_cons_self _ _) hf
      | cons y ys =>
        rw [List.cons_append, List.cons_append, List.cons_prefix_cons] at h
        rw [h.1, ih ys (fun hh => hf (List.mem_cons_of_mem _ hh))
          (fun hh => hs (List.mem_cons_of_mem _ hh)) h.2]
  · intro h
    rw [h]
    exact (List.prefix_append_right_inj s).mpr ⟨rest, rfl⟩

theorem find_quoted_segment (f s rest : Bytes) (hf : '"' ∉ f) (hs : '"' ∉ s) :
    find ('"' :: (s ++ '"' :: rest)) ('"' :: (f ++ ['"']))
      = if f = s then some 0
        else (find ('"' :: rest) ('"' :: (f ++ ['"']))).map (· + (s.length + 1)) := by
  by_cases h : f = s
  · rw [if_pos h]
    apply find_eq_zero
    rw [List.isPrefixOf_iff_prefix, List.cons_prefix_cons]
    exact ⟨rfl, (quoted_prefix_iff f s rest hf hs).mpr h⟩
  · rw [if_neg h]
    have hpre : ('"' :: (f ++ ['"'])).isPrefixOf ('"' :: (s ++ '"' :: rest)) = false := by
      rw [isPrefixOf_false_iff, List.cons_prefix_cons]
      exact fun hh => h ((quoted_prefix_iff f s rest hf hs).mp hh.2)
    rw [find_cons_eq_map _ _ _ hpre,
      find_skip_plain s ('"' :: rest) (f ++ ['"']) '"' hs, Option.map_map]
    congr 1

theorem find_quoted_last (f s : Bytes) (hs : '"' ∉ s) :
    find ('"' :: s) ('"' :: (f ++ ['"'])) = none := by
  have hpre : ('"' :: (f ++ ['"'])).isPrefixOf ('"' :: s) = false := by
    rw [isPrefixOf_false_iff, List.cons_prefix_cons]
    rintro ⟨_, t, ht⟩
    apply hs
    rw [← ht]
    simp
  rw [find_cons_eq_map _ _ _ hpre, find_absent_byte s (f ++ ['"']) '"' hs]
  rfl

theorem json_member_append (sp : Bytes) (kv : Bytes × Bytes) (tail : Bytes) :
    json_member sp kv ++ tail
      = '"' :: (kv.1 ++ '"' :: ((':' :: sp) ++ '"' :: (kv.2 ++ '"' :: tail))) := by
  simp [json_member]

theorem find_skip_member (sp f : Bytes) (kv : Bytes × Bytes) (tail : Bytes)
    (hsp : '"' ∉ sp) (hf : '"' ∉ f) (hfc : ':' ∉ f)
    (hk : '"' ∉ kv.1) (hv : '"' ∉ kv.2) (hkf : f ≠ kv.1) (hvf : f ≠ kv.2) :
    find (json_member sp kv ++ tail) ('"' :: (f ++ ['"']))
      = (find ('"' :: tail) ('"' :: (f ++ ['"']))).map
          (· + (kv.1.length + sp.length + kv.2.length + 4)) := by
  have hcs : '"' ∉ ':' :: sp := by
    intro hh
    rcases List.mem_cons.mp hh with hh | hh
    · exact absurd hh (by decide)
    · exact hsp hh
  have hfcs : f ≠ ':' :: sp := fun hh => hfc (by rw [hh]; exact List.mem_cons_self _ _)
  rw [json_member_append, find_quoted_segment f kv.1 _ hf hk, if_neg hkf,
    find_quoted_segment f (':' :: sp) _ hf hcs, if_neg hfcs,
    find_quoted_segment f kv.2 _ hf hv, if_neg hvf, Option.map_map, Option.map_map]
  congr 1
  funext x
  simp only [Function.comp, List.length_cons]
  omega

theorem find_skip_separator (sp f rest : Bytes) (hsp : '"' ∉ sp) (hf : '"' ∉ f)
    (hfm : ',' ∉ f) :
    find ('"' :: ((',' :: sp) ++ '"' :: rest)) ('"' :: (f ++ ['"']))
      = (find ('"' :: rest) ('"' :: (f ++ ['"']))).map (· + (sp.length + 2)) := by
  have hcs : '"' ∉ ',' :: sp := by
    intro hh
    rcases List.mem_cons.mp hh with hh | hh
    · exact absurd hh (by decide)
    · exact hsp hh
  have hfcs : f ≠ ',' :: sp := fun hh => hfm (by rw [hh]; exact List.mem_cons_self _ _)
  rw [find_quoted_segment f (',' :: sp) _ hf hcs, if_neg hfcs]
  rfl

theorem intercalate_step (sep a b : Bytes) (rest : List Bytes) :
    sep.intercalate (a :: b :: rest) = a ++ (sep ++ sep.intercalate (b :: rest)) := by
  simp [List.intercalate]

theorem find_in_members (sp f : Bytes) (hsp : '"' ∉ sp) (hf : '"' ∉ f) (hfc : ':' ∉ f)
    (hfm : ',' ∉ f) (kv : Bytes × Bytes) (post : List (Bytes × Bytes))
    (hq : ∀ m ∈ kv :: post, '"' ∉ m.1 ∧ '"' ∉ m.2) (hv : ∀ m ∈ kv :: post, m.2 ≠ f) :
    (mapFind f (kv :: post) = none →
      find ((',' :: sp).intercalate ((kv :: post).map (json_member sp)) ++ ['\x7d'])
        ('"' :: (f ++ ['"'])) = none) ∧
    (∀ w, mapFind f (kv :: post) = some w →
      ∃ A R, (',' :: sp).intercalate ((kv :: post).map (json_member sp)) ++ ['\x7d']
          = A ++ ('"' :: (f ++ ['"'])) ++ ':' :: (sp ++ '"' :: (w ++ '"' :: R)) ∧
        find ((',' :: sp).intercalate ((kv :: post).map (json_member sp)) ++ ['\x7d'])
          ('"' :: (f ++ ['"'])) = some A.length) := by
  induction post generalizing kv with
  | nil =>
    have hkv := hq kv (List.mem_cons_self _ _)
    have hvf : f ≠ kv.2 := fun hh => hv kv (List.mem_cons_self _ _) hh.symm
    have hbody : (',' :: sp).intercalate ([kv].map (json_member sp)) ++ ['\x7d']
        = json_member sp kv ++ ['\x7d'] := by simp [List.intercalate]
    rw [hbody]
    by_cases hk : f = kv.1
    · refine ⟨fun h => ?_, fun w h => ?_⟩
      · rw [mapFind, if_pos hk] at h
        cases h
      · rw [mapFind, if_pos hk] at h
        cases h
        refine ⟨[], ['\x7d'], ?_, ?_⟩
        · rw [json_member_append, hk]
          simp
        · rw [json_member_append, find_quoted_segment f kv.1 _ hf hkv.1, if_pos hk]
          rfl
    · refine ⟨fun _ => ?_, fun w h => ?_⟩
      · rw [find_skip_member sp f kv _ hsp hf hfc hkv.1 hkv.2 hk hvf,
          find_quoted_last f ['\x7d'] (by decide)]
        rfl
      · rw [mapFind, if_neg hk] at h
        cases h
  | cons kv2 post2 ih =>
    have hkv := hq kv (List.mem_cons_self _ _)
    have hvf : f ≠ kv.2 := fun hh => hv kv (List.mem_cons_self _ _) hh.symm
    have hbody : (',' :: sp).intercalate ((kv :: kv2 :: post2).map (json_member sp)) ++ ['\x7d']
        = json_member sp kv ++ ((',' :: sp)
          ++ ((',' :: sp).intercalate ((kv2 :: post2).map (json_member sp)) ++ ['\x7d'])) := by
      rw [List.map_cons, List.map_cons, intercalate_step, ← List.map_cons]
      simp only [List.append_assoc]
    rw [hbody]
    by_cases hk : f = kv.1
    · refine ⟨fun h => ?_, fun w h => ?_⟩
      · rw [mapFind, if_pos hk] at h
        cases h
      · rw [mapFind, if_pos hk] at h
        cases h
        refine ⟨[], (',' :: sp)
          ++ ((',' :: sp).intercalate ((kv2 :: post2).map (json_member sp)) ++ ['\x7d']), ?_, ?_⟩
        · rw [json_member_append, hk]
          simp only [List.nil_append, List.cons_append, List.append_assoc]
        · rw [json_member_append, find_quoted_segment f kv.1 _ hf hkv.1, if_pos hk]
          rfl
    · obtain ⟨ih1, ih2⟩ := ih kv2 (fun m hm => hq m (List.mem_cons_of_mem _ hm))
        (fun m hm => hv m (List.mem_cons_of_mem _ hm))
      have hnext : ∃ X, (',' :: sp).intercalate ((kv2 :: post2).map (json_member sp)) ++ ['\x7d']
          = '"' :: X := by
        cases post2 with
        | nil => exact ⟨_, by rw [List.map_cons, List.map_nil]; simp [List.intercalate, json_member]; rfl⟩
        | cons kv3 post3 =>
          exact ⟨_, by rw [List.map_cons, List.map_cons, intercalate_step]; simp [json_member]; rfl⟩
      obtain ⟨X, hX⟩ := hnext
      have hfind : find (json_member sp kv ++ ((',' :: sp)
          ++ ((',' :: sp).intercalate ((kv2 :: post2).map (json_member sp)) ++ ['\x7d'])))
            ('"' :: (f ++ ['"']))
          = (find ((',' :: sp).intercalate ((kv2 :: post2).map (json_member sp)) ++ ['\x7d'])
              ('"' :: (f ++ ['"']))).map
              (· + (kv.1.length + sp.length + kv.2.length + 4 + (sp.length + 2))) := by
        rw [find_skip_member sp f kv _ hsp hf hfc hkv.1 hkv.2 hk hvf, hX,
          find_skip_separator sp f X hsp hf hfm, Option.map_map]
        congr 1
        funext x
        simp only [Function.comp]
        omega
      rw [hfind]
      refine ⟨fun h => ?_, fun w h => ?_⟩
      · rw [mapFind, if_neg hk] at h
        rw [ih1 h]
        rfl
      · rw [mapFind, if_neg hk] at h
        obtain ⟨A, R, hA, hfA⟩ := ih2 w h
        refine ⟨json_member sp kv ++ ((',' :: sp) ++ A), R, ?_, ?_⟩
        · rw [hA]
          simp only [List.append_assoc]
        · rw [hfA]
          simp only [Option.map_some', List.length_append, List.length_cons, json_member,
            List.length_nil]
          congr 1
          omega

theorem find_first_not_of_skip (set sp rest : Bytes) (c : Char)
    (hsp : ∀ x ∈ sp, set.contains x = true) (hc : set.contains c = false) :
    find_first_not_of set (sp ++ c :: rest) = some sp.length := by
  induction sp with
  | nil =>
    rw [List.nil_append, find_first_not_of, if_neg (by rw [hc]; exact Bool.false_ne_true)]
    rfl
  | cons x xs ih =>
    rw [List.cons_append, find_first_not_of, if_pos (hsp x (List.mem_cons_self _ _)),
      ih (fun y hy => hsp y (List.mem_cons_of_mem _ hy))]
    rfl

theorem extract_json_field_at (A f sp w R : Bytes)
    (hfind : find (A ++ ('"' :: (f ++ ['"'])) ++ ':' :: (sp ++ '"' :: (w ++ '"' :: R)))
      ('"' :: (f ++ ['"'])) = some A.length)
    (hfc : ':' ∉ f) (hsp : ∀ c ∈ sp, c = ' ' ∨ c = '\t' ∨ c = '\n') (hw : '"' ∉ w) :
    CrudHandler.extract_json_field
      (A ++ ('"' :: (f ++ ['"'])) ++ ':' :: (sp ++ '"' :: (w ++ '"' :: R))) f = w := by
  have hQ : ':' ∉ '"' :: (f ++ ['"']) := by
    intro hh
    rcases List.mem_cons.mp hh with hh | hh
    · exact absurd hh (by decide)
    · rcases List.mem_append.mp hh with hh | hh
      · exact hfc hh
      · exact absurd (List.mem_singleton.mp hh) (by decide)
  have hset : ∀ x ∈ sp, " \t\n".toList.contains x = true := by
    intro x hx
    rcases hsp x hx with h | h | h <;> rw [h] <;> decide
  generalize hJ : A ++ ('"' :: (f ++ ['"'])) ++ ':' :: (sp ++ '"' :: (w ++ '"' :: R)) = J
    at hfind
  have e1 : J = A ++ (('"' :: (f ++ ['"'])) ++ ':' :: (sp ++ '"' :: (w ++ '"' :: R))) := by
    rw [← hJ, List.append_assoc]
  have e2 : J = (A ++ ('"' :: (f ++ ['"'])) ++ [':']) ++ (sp ++ '"' :: (w ++ '"' :: R)) := by
    rw [← hJ]; simp
  have e3 : J = (A ++ ('"' :: (f ++ ['"'])) ++ [':'] ++ sp) ++ '"' :: (w ++ '"' :: R) := by
    rw [← hJ]; simp
  have e4 : J = (A ++ ('"' :: (f ++ ['"'])) ++ [':'] ++ sp ++ ['"']) ++ (w ++ '"' :: R) := by
    rw [← hJ]; simp
  have hlen : J.length = A.length + (f.length + 2) + 1 + sp.length + 1 + w.length + 1
      + R.length := by
    rw [← hJ]; simp; omega
  have h1 : find_from J [':'] A.length = some (f.length + 2 + A.length) := by
    unfold find_from
    rw [if_pos (by omega)]
    conv_lhs => rw [e1, List.drop_left, find_singleton_append _ _ ':' hQ]
    simp
  have h2 : find_first_not_of_from " \t\n".toList J (f.length + 2 + A.length + 1)
      = some (sp.length + (f.length + 2 + A.length + 1)) := by
    unfold find_first_not_of_from
    rw [if_pos (by omega)]
    conv_lhs =>
      rw [e2, List.drop_left' (by simp; omega),
        find_first_not_of_skip _ sp _ '"' hset (by decide)]
    simp
  have h3 : J.get? (sp.length + (f.length + 2 + A.length + 1)) = some '"' := by
    rw [e3, List.get?_eq_getElem?, List.getElem?_append_right (by simp; omega)]
    have : sp.length + (f.length + 2 + A.length + 1)
        - (A ++ ('"' :: (f ++ ['"'])) ++ [':'] ++ sp).length = 0 := by simp; omega
    rw [this]
    simp
  have h4 : find_from J ['"'] (sp.length + (f.length + 2 + A.length + 1) + 1)
      = some (w.length + (sp.length + (f.length + 2 + A.length + 1) + 1)) := by
    unfold find_from
    rw [if_pos (by omega)]
    conv_lhs => rw [e4, List.drop_left' (by simp; omega), find_singleton_append _ _ '"' hw]
    simp
  have h5 : (J.drop (sp.length + (f.length + 2 + A.length + 1) + 1)).take
      (w.length + (sp.length + (f.length + 2 + A.length + 1) + 1)
        - (sp.length + (f.length + 2 + A.length + 1) + 1)) = w := by
    rw [e4, List.drop_left' (by simp; omega), Nat.add_sub_cancel, List.take_left]
  unfold CrudHandler.extract_json_field
  simp only [List.cons_append, hfind, h1, h2, h3, h4, h5]
  simp

theorem extract_json_field_absent (json f : Bytes)
    (h : find json ('"' :: (f ++ ['"'])) = none) :
    CrudHandler.extract_json_field json f = [] := by
  unfold CrudHandler.extract_json_field
  simp only [List.cons_append, h]

theorem extract_json_field_object (sp f : Bytes) (members : List (Bytes × Bytes))
    (hsp : ∀ c ∈ sp, c = ' ' ∨ c = '\t' ∨ c = '\n')
    (hq : ∀ m ∈ members, '"' ∉ m.1 ∧ '"' ∉ m.2)
    (hf : '"' ∉ f) (hfc : ':' ∉ f) (hfm : ',' ∉ f)
    (hv : ∀ m ∈ members, m.2 ≠ f) :
    CrudHandler.extract_json_field (json_object sp members) f
      = (mapFind f members).getD [] := by
  have hspq : '"' ∉ sp := by
    intro hh
    rcases hsp _ hh with h | h | h <;> exact absurd h (by decide)
  cases members with
  | nil =>
    have hno : '"' ∉ json_object sp [] := by
      show '"' ∉ ['\x7b', '\x7d']
      decide
    rw [extract_json_field_absent _ _ (find_absent_byte _ _ '"' hno)]
    rfl
  | cons kv post =>
    obtain ⟨h1, h2⟩ := find_in_members sp f hspq hf hfc hfm kv post hq hv
    have hobj : json_object sp (kv :: post)
        = ['\x7b'] ++ ((',' :: sp).intercalate ((kv :: post).map (json_member sp)) ++ ['\x7d']) := rfl
    cases hm : mapFind f (kv :: post) with
    | none =>
      rw [extract_json_field_absent _ _ (by
        rw [hobj, find_skip_plain ['\x7b'] _ _ '"' (by decide), h1 hm]
        rfl)]
      rfl
    | some w =>
      obtain ⟨A, R, hA, hfA⟩ := h2 w hm
      have hwq : '"' ∉ w := by
        have hmem : (f, w) ∈ kv :: post := by
          obtain ⟨v, hv1, hv2⟩ := mapFind_of_mem_keys (kv :: post) f (by
            by_contra hn
            rw [mapFind_eq_none_of_not_mem _ _ hn] at hm
            cases hm)
          rw [hm] at hv1
          cases hv1
          exact hv2
        exact (hq _ hmem).2
      have hobj2 : json_object sp (kv :: post)
          = ('\x7b' :: A) ++ ('"' :: (f ++ ['"'])) ++ ':' :: (sp ++ '"' :: (w ++ '"' :: R)) := by
        rw [hobj, hA]
        simp
      have hfind : find (('\x7b' :: A) ++ ('"' :: (f ++ ['"']))
          ++ ':' :: (sp ++ '"' :: (w ++ '"' :: R))) ('"' :: (f ++ ['"']))
          = some ('\x7b' :: A).length := by
        rw [← hobj2, hobj, find_skip_plain ['\x7b'] _ _ '"' (by decide), hfA]
        rfl
      rw [hobj2, extract_json_field_at ('\x7b' :: A) f sp w R hfind hfc hsp hwq]
      rfl

theorem field_value_contains_iff (f v : Bytes) (members : List (Bytes × Bytes))
    (hnodup : (members.map Prod.fst).Nodup) :
    v <:+: (mapFind f members).getD [] ↔ (v = [] ∨ ∃ w, (f, w) ∈ members ∧ v <:+: w) := by
  constructor
  · intro h
    cases hm : mapFind f members with
    | none =>
      rw [hm] at h
      exact Or.inl (List.eq_nil_of_infix_nil h)
    | some w =>
      rw [hm] at h
      have hmem : (f, w) ∈ members := by
        obtain ⟨x, hx1, hx2⟩ := mapFind_of_mem_keys members f (by
          by_contra hn
          rw [mapFind_eq_none_of_not_mem _ _ hn] at hm
          cases hm)
        rw [hm] at hx1
        cases hx1
        exact hx2
      exact Or.inr ⟨w, hmem, h⟩
  · rintro (h | ⟨w, hmem, h⟩)
    · rw [h]
      exact List.nil_infix
    · obtain ⟨x, hx1, hx2⟩ := mapFind_of_mem_keys members f
        (List.mem_map.mpr ⟨(f, w), hmem, rfl⟩)
      have := value_unique_of_nodup_keys members f x w hnodup hx2 hmem
      rw [hx1, ← this]
      exact h

theorem filter_ids_eq (fs : MockFilesystem) (E : Bytes) (nf tf : Option Bytes)
    (ids : List Bytes) (h : ∀ i ∈ ids, fs.entity_exists E i = true) :
    CrudHandler.filter_ids fs E nf tf ids
      = Except.ok (ids.filter (fun i =>
          list_selects nf tf ((mapFind i ((mapFind E fs.data_).getD [])).getD []))) := by
  induction ids with
  | nil => rfl
  | cons i rest ih =>
    have ih2 := ih (fun j hj => h j (List.mem_cons_of_mem _ hj))
    have hex := h i (List.mem_cons_self _ _)
    have hr : fs.read_entity E i
        = Except.ok ((mapFind i ((mapFind E fs.data_).getD [])).getD []) := by
      unfold MockFilesystem.read_entity
      rw [hex]
      rfl
    unfold CrudHandler.filter_ids
    rw [ih2, hr]
    cases nf with
    | none =>
      cases tf with
      | none => simp [list_selects]
      | some t =>
        simp only [list_selects, Option.isNone_none, Option.isNone_some, Bool.and_false,
          Bool.false_eq_true, if_false, Bool.true_and, if_true, List.filter_cons]
    | some n =>
      cases tf with
      | none =>
        simp only [list_selects, Option.isNone_none, Option.isNone_some, Bool.false_and,
          Bool.false_eq_true, if_false, Bool.and_true, List.filter_cons]
      | some t =>
        simp only [list_selects, Option.isNone_some, Bool.false_and,
          Bool.false_eq_true, if_false, List.filter_cons]
        by_cases hn : (find (CrudHandler.extract_json_field
          ((mapFind i ((mapFind E fs.data_).getD [])).getD []) "name".toList) n).isSome = true
        · simp [hn]
        · simp [hn]

theorem list_selects_iff (nf tf : Option Bytes) (d : Bytes) :
    list_selects nf tf d = true ↔
      (∀ v, nf = some v → v <:+: CrudHandler.extract_json_field d "name".toList) ∧
      (∀ v, tf = some v → v <:+: CrudHandler.extract_json_field d "tag".toList) := by
  unfold list_selects
  rw [Bool.and_eq_true]
  apply and_congr
  · cases nf with
    | none => simp
    | some n => simp [find_isSome_iff]
  · cases tf with
    | none => simp
    | some t => simp [find_isSome_iff]

theorem read_entity_ok_iff (fs : MockFilesystem) (E i d : Bytes) :
    fs.read_entity E i = Except.ok d ↔ mapFind i ((mapFind E fs.data_).getD []) = some d := by
  rw [read_entity_eq]
  cases mapFind i ((mapFind E fs.data_).getD []) with
  | none =>
    constructor
    · intro h; cases h
    · intro h; cases h
  | some x =>
    constructor
    · intro h
      rw [Except.ok.inj h]
    · intro h
      rw [Option.some.inj h]

theorem handle_list_eq (fs : MockFilesystem) (request : HttpRequest) (E : Bytes) :
    CrudHandler.handle_list fs request E =
      Except.ok (typed_response 200 "OK".toList "application/json".toList
        (CrudHandler.json_id_array (sort_strings ((fs.list_entity_ids E).filter (fun i =>
          list_selects (request.get_query_param "name".toList)
            (request.get_query_param "tag".toList)
            ((mapFind i ((mapFind E fs.data_).getD [])).getD [])))))) := by
  unfold CrudHandler.handle_list
  rw [filter_ids_eq fs E _ _ _ (fun i hi => (entity_exists_iff_mem fs E i).mpr hi)]

theorem keys_umSet_of_mem {V : Type} (k : Bytes) (v : V) (m : List (Bytes × V))
    (h : k ∈ m.map Prod.fst) : (umSet k v m).map Prod.fst = m.map Prod.fst := by
  induction m with
  | nil => cases h
  | cons e rest ih =>
    obtain ⟨k', v'⟩ := e
    unfold umSet
    by_cases hk : k = k'
    · rw [if_pos hk, hk]
      rfl
    · rw [if_neg hk]
      have hr : k ∈ rest.map Prod.fst := by
        rcases List.mem_cons.mp h with h | h
        · exact absurd h hk
        · exact h
      simp only [List.map_cons]
      rw [ih hr]

theorem nodup_keys_umSet {V : Type} (k : Bytes) (v : V) (m : List (Bytes × V))
    (h : (m.map Prod.fst).Nodup) : ((umSet k v m).map Prod.fst).Nodup := by
  by_cases hk : k ∈ m.map Prod.fst
  · rw [keys_umSet_of_mem k v m hk]
    exact h
  · rw [keys_umSet_of_not_mem k v m hk]
    exact List.Nodup.append h (List.nodup_singleton k)
      (by
        intro x hx hx2
        rw [List.mem_singleton.mp hx2] at hx
        exact hk hx)

theorem nodup_keys_umErase {V : Type} (k : Bytes) (m : List (Bytes × V))
    (h : (m.map Prod.fst).Nodup) : ((umErase k m).map Prod.fst).Nodup := by
  unfold umErase
  exact (List.Nodup.sublist ((List.filter_sublist m).map Prod.fst) h)

/-! ## Classification and detection -/

/-- C8: `check_malformed_request(b)` is `Empty` exactly when `b` is empty,
`NoHeaderTerminator` exactly when `b` is non-empty and does not contain `\r\n\r\n`, and
`None` exactly when `b` contains `\r\n\r\n`; so `"GET /path HTTP/1.1"` and random text
are `NoHeaderTerminator` and the buffer `"\r\n\r\n"` is `None`. -/
theorem check_malformed_request_as_tested :
    (∀ b : Bytes,
      (check_malformed_request b = MalformedType.Empty ↔ b = []) ∧
      (check_malformed_request b = MalformedType.NoHeaderTerminator ↔
        (b ≠ [] ∧ ¬ CRLFCRLF <:+: b)) ∧
      (check_malformed_request b = MalformedType.None ↔ CRLFCRLF <:+: b)) ∧
    check_malformed_request "GET /path HTTP/1.1".toList = MalformedType.NoHeaderTerminator ∧
    check_malformed_request "GARBAGE DATA RANDOM TEXT".toList
      = MalformedType.NoHeaderTerminator ∧
    check_malformed_request "GET /path HTTP/1.1\r\nHost: example.com\r\n\r\n".toList
      = MalformedType.None ∧
    check_malformed_request "\r\n\r\n".toList = MalformedType.None := by
  refine ⟨fun b => ⟨?_, ?_, check_malformed_request_none_iff b⟩, by decide, by decide,
    by decide, by decide⟩
  · unfold check_malformed_request
    cases b with
    | nil => simp
    | cons c cs =>
      simp only [List.isEmpty_cons, Bool.false_eq_true, if_false]
      by_cases h : (find (c :: cs) CRLFCRLF).isNone = true <;> simp [h]
  · unfold check_malformed_request
    cases b with
    | nil => simp
    | cons c cs =>
      simp only [List.isEmpty_cons, Bool.false_eq_true, if_false]
      by_cases h : (find (c :: cs) CRLFCRLF).isNone = true
      · rw [if_pos h]
        exact ⟨fun _ => ⟨List.cons_ne_nil _ _, (find_isNone_iff _ _).mp h⟩, fun _ => rfl⟩
      · rw [if_neg h]
        constructor
        · intro h'; cases h'
        · rintro ⟨_, h'⟩
          exact absurd ((find_isNone_iff _ _).mpr h') h

/-- C7 (counterexample): the buffer `"GET / HTTP/1.1\n\n"` contains the double-LF
terminator, yet `check_malformed_request` classifies it `NoHeaderTerminator`, not
`None`. -/
theorem check_malformed_request_double_lf :
    LFLF <:+: "GET / HTTP/1.1\n\n".toList ∧
    check_malformed_request "GET / HTTP/1.1\n\n".toList = MalformedType.NoHeaderTerminator ∧
    check_malformed_request "GET / HTTP/1.1\n\n".toList ≠ MalformedType.None := by
  refine ⟨?_, by decide, by decide⟩
  rw [← find_isSome_iff]
  decide

/-- C7 (amended): `check_malformed_request(b)` is `Empty` if `b` has zero bytes,
`NoHeaderTerminator` if `b` is non-empty and does not contain `\r\n\r\n` (whether or not
it contains `\n\n`), and `None` as soon as `b` contains `\r\n\r\n`. -/
theorem check_malformed_request_crlf_only (b : Bytes) :
    (b = [] → check_malformed_request b = MalformedType.Empty) ∧
    (b ≠ [] → ¬ CRLFCRLF <:+: b →
      check_malformed_request b = MalformedType.NoHeaderTerminator) ∧
    (CRLFCRLF <:+: b → check_malformed_request b = MalformedType.None) := by
  refine ⟨fun h => ?_, fun hne h => ?_, fun h => (check_malformed_request_none_iff b).mpr h⟩
  · subst h; rfl
  · unfold check_malformed_request
    cases b with
    | nil => exact absurd rfl hne
    | cons c cs =>
      simp only [List.isEmpty_cons, Bool.false_eq_true, if_false]
      rw [if_pos ((find_isNone_iff _ _).mpr h)]

theorem check_malformed_request_crlf_only_witness :
    check_malformed_request [] = MalformedType.Empty ∧
    check_malformed_request "GET / HTTP/1.1\n\n".toList = MalformedType.NoHeaderTerminator ∧
    check_malformed_request "GET / HTTP/1.1\r\n\r\n".toList = MalformedType.None :=
  ⟨(check_malformed_request_crlf_only []).1 rfl,
   (check_malformed_request_crlf_only "GET / HTTP/1.1\n\n".toList).2.1 (by decide)
     ((find_isNone_iff _ _).mp (by decide)),
   (check_malformed_request_crlf_only "GET / HTTP/1.1\r\n\r\n".toList).2.2
     ((find_isSome_iff _ _).mp (by decide))⟩

/-- C9: `detect_http_request(b)` is true exactly when `b` contains `\r\n\r\n` or `\n\n`
somewhere, whatever precedes or follows the terminator; it is false for the empty buffer
and for a request line and header line that end in a single CRLF. -/
theorem detect_http_request_spec :
    (∀ b : Bytes, detect_http_request b = true ↔ (CRLFCRLF <:+: b ∨ LFLF <:+: b)) ∧
    (∀ garbage tail : Bytes, detect_http_request (garbage ++ CRLFCRLF ++ tail) = true) ∧
    (∀ garbage tail : Bytes, detect_http_request (garbage ++ LFLF ++ tail) = true) ∧
    detect_http_request [] = false ∧
    detect_http_request "GET /index.html HTTP/1.1\r\nHost: www.example.com\r\n".toList
      = false := by
  refine ⟨detect_http_request_iff, fun g t => ?_, fun g t => ?_, by decide, by decide⟩
  · exact (detect_http_request_iff _).mpr (Or.inl ⟨g, t, rfl⟩)
  · exact (detect_http_request_iff _).mpr (Or.inr ⟨g, t, rfl⟩)

/-- C10: when `b` contains `\r\n\r\n`, appending any bytes `s` keeps
`detect_http_request` true and `check_malformed_request` at `None`, and the first
`\r\n\r\n` of `b ++ s` is at the same index as in `b`. -/
theorem framing_stable_under_append (b s : Bytes) (h : CRLFCRLF <:+: b) :
    detect_http_request (b ++ s) = true ∧
    check_malformed_request (b ++ s) = MalformedType.None ∧
    find (b ++ s) CRLFCRLF = find b CRLFCRLF ∧
    (find b CRLFCRLF).isSome = true := by
  have hin : CRLFCRLF <:+: b ++ s := h.trans (List.prefix_append b s).isInfix
  have hs := (find_isSome_iff b CRLFCRLF).mpr h
  refine ⟨(detect_http_request_iff _).mpr (Or.inl hin),
    (check_malformed_request_none_iff _).mpr hin, ?_, hs⟩
  obtain ⟨i, hi⟩ := Option.isSome_iff_exists.mp hs
  rw [hi, find_append b s CRLFCRLF i hi]

theorem framing_stable_under_append_witness :
    detect_http_request ("GET /index.html HTTP/1.1\r\n\r\n".toList ++
      "GET /index.html HTTP/1.1\r\nHost: www.example.com\r\n\r\n".toList) = true ∧
    check_malformed_request ("GET /index.html HTTP/1.1\r\n\r\n".toList ++
      "GET /index.html HTTP/1.1\r\nHost: www.example.com\r\n\r\n".toList)
      = MalformedType.None ∧
    find ("GET /index.html HTTP/1.1\r\n\r\n".toList ++
      "GET /index.html HTTP/1.1\r\nHost: www.example.com\r\n\r\n".toList) CRLFCRLF
      = find "GET /index.html HTTP/1.1\r\n\r\n".toList CRLFCRLF ∧
    (find "GET /index.html HTTP/1.1\r\n\r\n".toList CRLFCRLF).isSome = true :=
  framing_stable_under_append "GET /index.html HTTP/1.1\r\n\r\n".toList
    "GET /index.html HTTP/1.1\r\nHost: www.example.com\r\n\r\n".toList
    ((find_isSome_iff _ _).mp (by decide))

/-! ## The session step -/

/-- C1 (the code at partial input): whenever the buffer after appending the received
bytes is classified `Empty` or `NoHeaderTerminator`, `handle_read` writes the 400
response "Malformed HTTP request" and clears the buffer; it does not keep the bytes and
issue another read. -/
theorem handle_read_partial_input (mh : Bytes → Option RequestHandler) (s : Session)
    (data : Bytes)
    (h : check_malformed_request (s.buffer_ ++ data) = MalformedType.Empty ∨
      check_malformed_request (s.buffer_ ++ data) = MalformedType.NoHeaderTerminator) :
    handle_read mh s false data =
      (⟨[]⟩,
        [Op.async_write
          "HTTP/1.1 400 Bad Request\r\nContent-Length: 22\r\nContent-Type: text/plain\r\n\r\nMalformed HTTP request".toList]) ∧
    handle_read mh s false data ≠ (⟨s.buffer_ ++ data⟩, [Op.async_read_some]) := by
  have hne : check_malformed_request (s.buffer_ ++ data) ≠ MalformedType.None := by
    rcases h with h | h <;> rw [h] <;> decide
  have hr := handle_read_malformed mh s data hne
  have hstr : (bad_request "Malformed HTTP request".toList).convert_to_string =
      "HTTP/1.1 400 Bad Request\r\nContent-Length: 22\r\nContent-Type: text/plain\r\n\r\nMalformed HTTP request".toList := by
    decide
  rw [hr, hstr]
  refine ⟨rfl, ?_⟩
  intro he
  have := congrArg Prod.snd he
  simp at this

theorem handle_read_partial_input_witness :
    handle_read (fun _ => some EchoHandler) ⟨[]⟩ false "GET / HTTP/1.1\r\n".toList =
      (⟨[]⟩,
        [Op.async_write
          "HTTP/1.1 400 Bad Request\r\nContent-Length: 22\r\nContent-Type: text/plain\r\n\r\nMalformed HTTP request".toList]) ∧
    handle_read (fun _ => some EchoHandler) ⟨[]⟩ false "GET / HTTP/1.1\r\n".toList ≠
      (⟨([] : Bytes) ++ "GET / HTTP/1.1\r\n".toList⟩, [Op.async_read_some]) :=
  handle_read_partial_input (fun _ => some EchoHandler) ⟨[]⟩ "GET / HTTP/1.1\r\n".toList
    (Or.inr (by decide))

/-- C6: a call of `handle_read` without an I/O error issues exactly one operation:
either one read, the buffer holding the accumulated bytes, or one write of a response,
the buffer cleared.  A call with an I/O error issues no operation and leaves the state
unchanged, and `handle_write` issues one read without an error and nothing otherwise. -/
theorem one_operation_per_step (mh : Bytes → Option RequestHandler) (s : Session)
    (data : Bytes) :
    (handle_read mh s false data = (⟨s.buffer_ ++ data⟩, [Op.async_read_some]) ∨
      ∃ response_str, handle_read mh s false data = (⟨[]⟩, [Op.async_write response_str])) ∧
    ((handle_read mh s false data).1.buffer_ = s.buffer_ ++ data ∨
      ∃ response_str, (handle_read mh s false data).2 = [Op.async_write response_str]) ∧
    (handle_read mh s false data).2.length = 1 ∧
    handle_read mh s true data = (s, []) ∧
    handle_write false = [Op.async_read_some] ∧
    handle_write true = [] := by
  have main : handle_read mh s false data = (⟨s.buffer_ ++ data⟩, [Op.async_read_some]) ∨
      ∃ response_str, handle_read mh s false data = (⟨[]⟩, [Op.async_write response_str]) := by
    by_cases hc : check_malformed_request (s.buffer_ ++ data) = MalformedType.None
    · have hin := (check_malformed_request_none_iff _).mp hc
      rw [handle_read_framed mh s data hin]
      split
      · split
        · exact Or.inr ⟨_, rfl⟩
        · split_ifs
          · exact Or.inl rfl
          · exact Or.inr (validate_and_answer_writes mh _)
      · exact Or.inr (validate_and_answer_writes mh _)
    · exact Or.inr ⟨_, handle_read_malformed mh s data hc⟩
  refine ⟨main, ?_, ?_, handle_read_error mh s data, rfl, rfl⟩
  · rcases main with h | ⟨r, h⟩
    · exact Or.inl (by rw [h])
    · exact Or.inr ⟨r, by rw [h]⟩
  · rcases main with h | ⟨r, h⟩ <;> rw [h] <;> rfl

/-- C5: when the buffer (of fewer than `2 ^ 64` bytes) has its first `\r\n\r\n` at index
`i` and the parsed request carries a Content-Length that `std::stoull` converts to `n`,
`handle_read` issues another read, sending nothing and keeping the buffer, exactly when
`buffer.size() - (i + 4) < n`; otherwise it goes on to validate and answer the
request. -/
theorem body_completeness (mh : Bytes → Option RequestHandler) (s : Session)
    (data value : Bytes) (i n : Nat)
    (hlen : (s.buffer_ ++ data).length < 2 ^ 64)
    (hfind : find (s.buffer_ ++ data) CRLFCRLF = some i)
    (hcl : (HttpRequest.parse (s.buffer_ ++ data)).get_header "Content-Length".toList
      = some value)
    (hn : stoull value = some n) :
    (handle_read mh s false data = (⟨s.buffer_ ++ data⟩, [Op.async_read_some]) ↔
      (s.buffer_ ++ data).length - (i + 4) < n) ∧
    (¬ (s.buffer_ ++ data).length - (i + 4) < n →
      handle_read mh s false data =
        validate_and_answer mh (HttpRequest.parse (s.buffer_ ++ data))) := by
  have hin : CRLFCRLF <:+: s.buffer_ ++ data :=
    (find_isSome_iff _ _).mp (by rw [hfind]; rfl)
  have hb := find_bound _ _ _ hfind
  have h4 : CRLFCRLF.length = 4 := rfl
  rw [h4] at hb
  have hmod : (i + 4) % 2 ^ 64 = i + 4 := Nat.mod_eq_of_lt (by omega)
  have hsub : size_t_sub (s.buffer_ ++ data).length (i + 4)
      = (s.buffer_ ++ data).length - (i + 4) := by
    unfold size_t_sub; rw [if_pos hb]
  have hstep := handle_read_framed mh s data hin
  rw [hcl] at hstep
  simp only [hn, hfind, Option.getD_some, hmod, hsub] at hstep
  by_cases hlt : (s.buffer_ ++ data).length - (i + 4) < n
  · rw [if_pos hlt] at hstep
    exact ⟨⟨fun _ => hlt, fun _ => hstep⟩, fun hc => absurd hlt hc⟩
  · rw [if_neg hlt] at hstep
    refine ⟨⟨fun he => ?_, fun hc => absurd hc hlt⟩, fun _ => hstep⟩
    obtain ⟨r, hr⟩ := validate_and_answer_writes mh (HttpRequest.parse (s.buffer_ ++ data))
    rw [hstep, hr] at he
    have := congrArg Prod.snd he
    simp at this

theorem body_completeness_witness :
    (handle_read (fun _ => some EchoHandler) ⟨[]⟩ false
        "POST /x HTTP/1.1\r\nContent-Length: 5\r\n\r\nab".toList
      = (⟨([] : Bytes) ++ "POST /x HTTP/1.1\r\nContent-Length: 5\r\n\r\nab".toList⟩,
          [Op.async_read_some]) ↔
      (([] : Bytes) ++ "POST /x HTTP/1.1\r\nContent-Length: 5\r\n\r\nab".toList).length
        - (35 + 4) < 5) ∧
    (¬ (([] : Bytes) ++ "POST /x HTTP/1.1\r\nContent-Length: 5\r\n\r\nab".toList).length
        - (35 + 4) < 5 →
      handle_read (fun _ => some EchoHandler) ⟨[]⟩ false
        "POST /x HTTP/1.1\r\nContent-Length: 5\r\n\r\nab".toList
      = validate_and_answer (fun _ => some EchoHandler)
          (HttpRequest.parse
            (([] : Bytes) ++ "POST /x HTTP/1.1\r\nContent-Length: 5\r\n\r\nab".toList))) :=
  body_completeness (fun _ => some EchoHandler) ⟨[]⟩
    "POST /x HTTP/1.1\r\nContent-Length: 5\r\n\r\nab".toList "5".toList 35 5
    (by decide) (by decide) (by decide) (by decide)

/-- C4: when the buffer contains `\r\n\r\n` and the parsed request carries a
Content-Length whose value has no decimal digit, `handle_read` writes the 400 response
"Invalid Content-Length header" (Content-Type text/plain) and leaves the buffer empty,
the state of a fresh connection: every later step, and the responses to all later
chunks, are those of a new connection. -/
theorem invalid_content_length_recovery (mh : Bytes → Option RequestHandler) (s : Session)
    (data value : Bytes) (rest : List Bytes)
    (h : CRLFCRLF <:+: s.buffer_ ++ data)
    (hcl : (HttpRequest.parse (s.buffer_ ++ data)).get_header "Content-Length".toList
      = some value)
    (hnd : ∀ c ∈ value, c.isDigit = false) :
    handle_read mh s false data =
      (⟨[]⟩,
        [Op.async_write
          (bad_request "Invalid Content-Length header".toList).convert_to_string]) ∧
    (bad_request "Invalid Content-Length header".toList).status_code = 400 ∧
    (bad_request "Invalid Content-Length header".toList).reason_phrase
      = "Bad Request".toList ∧
    (bad_request "Invalid Content-Length header".toList).get_header "Content-Type".toList
      = "text/plain".toList ∧
    (bad_request "Invalid Content-Length header".toList).message_body
      = "Invalid Content-Length header".toList ∧
    (bad_request "Invalid Content-Length header".toList).convert_to_string =
      "HTTP/1.1 400 Bad Request\r\nContent-Length: 29\r\nContent-Type: text/plain\r\n\r\nInvalid Content-Length header".toList ∧
    (∀ data2 : Bytes,
      handle_read mh (handle_read mh s false data).1 false data2
        = handle_read mh ⟨[]⟩ false data2) ∧
    run mh s (data :: rest) =
      (bad_request "Invalid Content-Length header".toList).convert_to_string
        :: run mh ⟨[]⟩ rest := by
  have hstep : handle_read mh s false data =
      (⟨[]⟩,
        [Op.async_write
          (bad_request "Invalid Content-Length header".toList).convert_to_string]) := by
    rw [handle_read_framed mh s data h, hcl]
    simp only [stoull_eq_none_of_no_digit value hnd]
  refine ⟨hstep, rfl, rfl, by decide, rfl, by decide, fun data2 => by rw [hstep],
    run_write mh s _ data _ rest hstep⟩

theorem invalid_content_length_recovery_witness :
    run (fun _ => some EchoHandler) ⟨[]⟩
      ["GET /x HTTP/1.1\r\nContent-Length: notanumber\r\n\r\n".toList,
        "GET /y HTTP/1.1\r\n\r\n".toList] =
      (bad_request "Invalid Content-Length header".toList).convert_to_string
        :: run (fun _ => some EchoHandler) ⟨[]⟩ ["GET /y HTTP/1.1\r\n\r\n".toList] :=
  (invalid_content_length_recovery (fun _ => some EchoHandler) ⟨[]⟩
    "GET /x HTTP/1.1\r\nContent-Length: notanumber\r\n\r\n".toList "notanumber".toList
    ["GET /y HTTP/1.1\r\n\r\n".toList]
    ((find_isSome_iff _ _).mp (by decide)) (by decide) (by decide)).2.2.2.2.2.2.2

/-- C3 (counterexample): two complete, valid requests without a body that arrive in the
same read give one response only (here the echo of both), not one response each: the
bytes of the second request are parsed as the body of the first and dropped with the
buffer. -/
theorem keep_alive_same_read :
    CRLFCRLF <:+: "GET /a HTTP/1.1\r\n\r\n".toList ∧
    (HttpRequest.parse "GET /a HTTP/1.1\r\n\r\n".toList).is_valid = true ∧
    (HttpRequest.parse "GET /a HTTP/1.1\r\n\r\n".toList).get_header "Content-Length".toList
      = none ∧
    CRLFCRLF <:+: "GET /b HTTP/1.1\r\n\r\n".toList ∧
    (HttpRequest.parse "GET /b HTTP/1.1\r\n\r\n".toList).is_valid = true ∧
    (HttpRequest.parse "GET /b HTTP/1.1\r\n\r\n".toList).get_header "Content-Length".toList
      = none ∧
    run (fun _ => some EchoHandler) ⟨[]⟩
      ["GET /a HTTP/1.1\r\n\r\n".toList ++ "GET /b HTTP/1.1\r\n\r\n".toList] =
      ["HTTP/1.1 200 OK\r\nContent-Length: 38\r\nContent-Type: text/plain\r\n\r\nGET /a HTTP/1.1\r\n\r\nGET /b HTTP/1.1\r\n\r\n".toList] ∧
    (run (fun _ => some EchoHandler) ⟨[]⟩
      ["GET /a HTTP/1.1\r\n\r\n".toList ++ "GET /b HTTP/1.1\r\n\r\n".toList]).length ≠ 2 ∧
    (HttpRequest.parse
      ("GET /a HTTP/1.1\r\n\r\n".toList ++ "GET /b HTTP/1.1\r\n\r\n".toList)).body_
      = "GET /b HTTP/1.1\r\n\r".toList := by
  refine ⟨(find_isSome_iff _ _).mp (by decide), by decide, by decide,
    (find_isSome_iff _ _).mp (by decide), by decide, by decide, by decide, by decide,
    by decide⟩

/-- C3 (amended): for two complete, valid requests `r1` and `r2` that declare no body
(no Content-Length header) and arrive each in a read of its own, `r2` after the response
to `r1` was written, the session writes exactly two responses, the response to `r1`
followed by the response to `r2`. -/
theorem keep_alive_separate_reads (mh : Bytes → Option RequestHandler) (r1 r2 : Bytes)
    (h1 : CRLFCRLF <:+: r1) (hv1 : (HttpRequest.parse r1).is_valid = true)
    (hb1 : (HttpRequest.parse r1).get_header "Content-Length".toList = none)
    (h2 : CRLFCRLF <:+: r2) (hv2 : (HttpRequest.parse r2).is_valid = true)
    (hb2 : (HttpRequest.parse r2).get_header "Content-Length".toList = none) :
    run mh ⟨[]⟩ [r1, r2] =
      [(dispatch mh (HttpRequest.parse r1)).convert_to_string,
        (dispatch mh (HttpRequest.parse r2)).convert_to_string] := by
  have e1 := handle_read_bodyless mh ⟨[]⟩ r1 (by simpa using h1) (by simpa using hv1)
    (by simpa using hb1)
  have e2 := handle_read_bodyless mh ⟨[]⟩ r2 (by simpa using h2) (by simpa using hv2)
    (by simpa using hb2)
  simp only [List.nil_append] at e1 e2
  rw [run_write mh _ _ r1 _ [r2] e1, run_write mh _ _ r2 _ [] e2]
  rfl

theorem keep_alive_separate_reads_witness :
    run (fun _ => some EchoHandler) ⟨[]⟩
      ["GET /a HTTP/1.1\r\n\r\n".toList, "GET /b HTTP/1.1\r\n\r\n".toList] =
      [(dispatch (fun _ => some EchoHandler)
          (HttpRequest.parse "GET /a HTTP/1.1\r\n\r\n".toList)).convert_to_string,
        (dispatch (fun _ => some EchoHandler)
          (HttpRequest.parse "GET /b HTTP/1.1\r\n\r\n".toList)).convert_to_string] :=
  keep_alive_separate_reads (fun _ => some EchoHandler) "GET /a HTTP/1.1\r\n\r\n".toList
    "GET /b HTTP/1.1\r\n\r\n".toList
    ((find_isSome_iff _ _).mp (by decide)) (by decide) (by decide)
    ((find_isSome_iff _ _).mp (by decide)) (by decide) (by decide)

/-! ## Routing -/

/-- C2 (counterexample): with the two routes `a` repeated `2 ^ 31` times (an echo route)
and `a` repeated `2 ^ 31 + 1` times (a static route), both prefixes of the path `a`
repeated `2 ^ 31 + 1` times, `match_handler` builds the handler from the shorter route:
`int max_len` receives `2 ^ 31` as `-2 ^ 31`, which the comparison with the next
`size_t` length reads as `2 ^ 64 - 2 ^ 31`, so the longer prefix is not taken. -/
theorem longest_prefix_int_wrap :
    match_handler (fun cfg mount => (cfg, mount))
      [(List.replicate (2 ^ 31) 'a', { type := "EchoHandler".toList }),
        (List.replicate (2 ^ 31 + 1) 'a', { type := "StaticHandler".toList })]
      (List.replicate (2 ^ 31 + 1) 'a')
      = some ({ type := "EchoHandler".toList }, List.replicate (2 ^ 31) 'a') ∧
    List.replicate (2 ^ 31) 'a' <+: List.replicate (2 ^ 31 + 1) 'a' ∧
    List.replicate (2 ^ 31 + 1) 'a' <+: List.replicate (2 ^ 31 + 1) 'a' ∧
    (List.replicate (2 ^ 31) 'a').length = 2 ^ 31 ∧
    (List.replicate (2 ^ 31 + 1) 'a').length = 2 ^ 31 + 1 ∧
    to_int (2 ^ 31) = -(2 ^ 31) ∧
    to_size_t (-(2 ^ 31)) = 2 ^ 64 - 2 ^ 31 :=
  ⟨(match_handler_wrapped _ _ _ _ _ _ (replicate_prefix_succ (2 ^ 31) 'a')
      (List.prefix_refl _) (List.length_replicate _ _) (List.length_replicate _ _)).1,
    replicate_prefix_succ (2 ^ 31) 'a', List.prefix_refl _, List.length_replicate _ _,
    List.length_replicate _ _, to_int_wrapped.1, to_size_t_wrapped.1⟩

/-- C2 (amended): for a route table with distinct, non-empty prefixes, each shorter than
`2 ^ 31` bytes so that `int max_len` holds its length, and a path that some prefix is a
byte-wise prefix of, `match_handler` builds the handler from the configuration stored
under the longest such prefix and passes that prefix to the factory.  With routes
`"/api"` to `H1` and `"/api/files"` to `H2`: `"/api/files/x.txt"` selects `H2`,
`"/api/other"` selects `H1` and `"/zzz"` selects the not-found configuration. -/
theorem longest_prefix_routing {H : Type} (create_handler : HandlerConfig → Bytes → H) :
    (∀ (routes_ : StdMap HandlerConfig) (path : Bytes),
      (routes_.map Prod.fst).Nodup →
      (∀ k ∈ routes_.map Prod.fst, k ≠ [] ∧ k.length < 2 ^ 31) →
      (∃ k ∈ routes_.map Prod.fst, k <+: path) →
      ∃ p cfg, (p, cfg) ∈ routes_ ∧ (∀ cfg', (p, cfg') ∈ routes_ → cfg' = cfg) ∧
        p <+: path ∧
        (∀ q ∈ routes_.map Prod.fst, q <+: path → q.length ≤ p.length) ∧
        match_handler create_handler routes_ path = some (create_handler cfg p)) ∧
    (∀ H1 H2 : HandlerConfig,
      match_handler create_handler [("/api".toList, H1), ("/api/files".toList, H2)]
        "/api/files/x.txt".toList = some (create_handler H2 "/api/files".toList)) ∧
    (∀ H1 H2 : HandlerConfig,
      match_handler create_handler [("/api".toList, H1), ("/api/files".toList, H2)]
        "/api/other".toList = some (create_handler H1 "/api".toList)) ∧
    (∀ H1 H2 : HandlerConfig,
      match_handler create_handler [("/api".toList, H1), ("/api/files".toList, H2)]
        "/zzz".toList = some (create_handler not_found_config "/zzz".toList)) := by
  refine ⟨?_, fun _ _ => rfl, fun _ _ => rfl, fun _ _ => rfl⟩
  intro routes_ path hnodup hkeys hex
  have hinv := match_foldl_invariant path (routes_.map Prod.fst) []
    { prefix_match := [], max_len := 0 } hkeys (by simp) (Or.inl ⟨rfl, rfl, by simp⟩)
  rw [← match_loop_eq, List.nil_append] at hinv
  rcases hinv with ⟨_, _, h3⟩ | ⟨h1, h2, _, h4⟩
  · obtain ⟨k, hk, hkp⟩ := hex
    exact absurd hkp (h3 k hk)
  · obtain ⟨cfg, hfind, hmem⟩ := mapFind_of_mem_keys routes_ _ h1
    refine ⟨(match_loop routes_ path).prefix_match, cfg, hmem,
      fun cfg' hc => value_unique_of_nodup_keys routes_ _ cfg cfg' hnodup hmem hc, h2, h4, ?_⟩
    have hne : (match_loop routes_ path).prefix_match ≠ [] := (hkeys _ h1).1
    unfold match_handler
    simp only [hfind]
    rw [if_pos]
    simpa using hne

theorem longest_prefix_routing_witness :
    ∃ p cfg, (p, cfg) ∈ [("/api".toList, ({ type := "EchoHandler".toList } : HandlerConfig)),
          ("/api/files".toList, { type := "StaticHandler".toList })] ∧
      (∀ cfg', (p, cfg') ∈ [("/api".toList, ({ type := "EchoHandler".toList } : HandlerConfig)),
          ("/api/files".toList, { type := "StaticHandler".toList })] → cfg' = cfg) ∧
      p <+: "/api/files/x.txt".toList ∧
      (∀ q ∈ [("/api".toList, ({ type := "EchoHandler".toList } : HandlerConfig)),
          ("/api/files".toList, { type := "StaticHandler".toList })].map Prod.fst,
        q <+: "/api/files/x.txt".toList → q.length ≤ p.length) ∧
      match_handler (fun cfg mount => (cfg, mount))
        [("/api".toList, ({ type := "EchoHandler".toList } : HandlerConfig)),
          ("/api/files".toList, { type := "StaticHandler".toList })]
        "/api/files/x.txt".toList = some (cfg, p) :=
  (longest_prefix_routing (fun cfg mount => (cfg, mount))).1
    [("/api".toList, { type := "EchoHandler".toList }),
      ("/api/files".toList, { type := "StaticHandler".toList })]
    "/api/files/x.txt".toList (by decide) (by decide)
    ⟨"/api".toList, by decide, List.isPrefixOf_iff_prefix.mp (by decide)⟩

/-! ## Request parsing and validity -/

/-- C11: a buffer made only of CR, LF, space and tab bytes that contains `\r\n\r\n` is
classified `None` by `check_malformed_request`, while `HttpRequest::parse` of the same
bytes gives an empty method, path and version, and `is_valid()` is false. -/
theorem terminator_only_two_stage (b : Bytes)
    (hws : ∀ c ∈ b, c = '\r' ∨ c = '\n' ∨ c = ' ' ∨ c = '\t')
    (hterm : CRLFCRLF <:+: b) :
    check_malformed_request b = MalformedType.None ∧
    (HttpRequest.parse b).method_ = [] ∧
    (HttpRequest.parse b).path_ = [] ∧
    (HttpRequest.parse b).version_ = [] ∧
    (HttpRequest.parse b).is_valid = false := by
  have hsp : ∀ c ∈ b, isspace c = true := by
    intro c hc
    rcases hws c hc with h | h | h | h <;> rw [h] <;> rfl
  have hp := parse_of_read_token_none b (read_token_of_whitespace b hsp)
  rw [hp]
  exact ⟨(check_malformed_request_none_iff b).mpr hterm, rfl, rfl, rfl, rfl⟩

theorem terminator_only_two_stage_witness :
    check_malformed_request "\r\n\r\n".toList = MalformedType.None ∧
    (HttpRequest.parse "\r\n\r\n".toList).method_ = [] ∧
    (HttpRequest.parse "\r\n\r\n".toList).path_ = [] ∧
    (HttpRequest.parse "\r\n\r\n".toList).version_ = [] ∧
    (HttpRequest.parse "\r\n\r\n".toList).is_valid = false :=
  terminator_only_two_stage "\r\n\r\n".toList (by decide)
    ((find_isSome_iff _ _).mp (by decide))

/-- C19: `is_valid()` is true exactly when the method is one of GET, POST, PUT, DELETE
(compared byte for byte), the version is `HTTP/1.1`, the path is non-empty, starts with
`/` and contains no space, and the raw request bytes contain `\r\n\r\n`. -/
theorem request_validity (r : HttpRequest) :
    r.is_valid = true ↔
      ((r.method_ = "GET".toList ∨ r.method_ = "POST".toList ∨ r.method_ = "PUT".toList ∨
          r.method_ = "DELETE".toList) ∧
        r.version_ = "HTTP/1.1".toList ∧ r.path_ ≠ [] ∧ r.path_.head? = some '/' ∧
        ' ' ∉ r.path_ ∧ CRLFCRLF <:+: r.raw_request_) :=
  is_valid_iff r

/-! ## HttpResponse -/

/-- C15: the equation `get_header("Content-Length") = std::to_string(body size)` holds
after the default constructor, after the five-argument constructor for all arguments
(also when the header map passed in has another Content-Length, as with `"999"` for the
body `"Hello"`), and after `set_message_body`; `set_version`, `set_status_code`,
`set_reason_phrase` and `set_header(k, v)` with `k` other than `Content-Length`
preserve it. -/
theorem content_length_invariant :
    (∀ sc : Int, (HttpResponse.mk0 sc).get_header "Content-Length".toList
      = to_string_nat (HttpResponse.mk0 sc).message_body.length) ∧
    (∀ (v : Bytes) (sc : Int) (rp : Bytes) (hm : StdMap Bytes) (mb : Bytes),
      (HttpResponse.mk5 v sc rp hm mb).get_header "Content-Length".toList
        = to_string_nat (HttpResponse.mk5 v sc rp hm mb).message_body.length) ∧
    (HttpResponse.mk5 "HTTP/1.1".toList 200 "OK".toList
        [("Content-Length".toList, "999".toList), ("Content-Type".toList, "text/plain".toList)]
        "Hello".toList).get_header "Content-Length".toList = "5".toList ∧
    (∀ (r : HttpResponse) (mb : Bytes),
      (r.set_message_body mb).get_header "Content-Length".toList
        = to_string_nat (r.set_message_body mb).message_body.length) ∧
    (∀ (r : HttpResponse) (v : Bytes),
      r.get_header "Content-Length".toList = to_string_nat r.message_body.length →
      (r.set_version v).get_header "Content-Length".toList
        = to_string_nat (r.set_version v).message_body.length) ∧
    (∀ (r : HttpResponse) (sc : Int),
      r.get_header "Content-Length".toList = to_string_nat r.message_body.length →
      (r.set_status_code sc).get_header "Content-Length".toList
        = to_string_nat (r.set_status_code sc).message_body.length) ∧
    (∀ (r : HttpResponse) (rp : Bytes),
      r.get_header "Content-Length".toList = to_string_nat r.message_body.length →
      (r.set_reason_phrase rp).get_header "Content-Length".toList
        = to_string_nat (r.set_reason_phrase rp).message_body.length) ∧
    (∀ (r : HttpResponse) (k v : Bytes), k ≠ "Content-Length".toList →
      r.get_header "Content-Length".toList = to_string_nat r.message_body.length →
      (r.set_header k v).get_header "Content-Length".toList
        = to_string_nat (r.set_header k v).message_body.length) := by
  refine ⟨fun sc => ?_, fun v sc rp hm mb => ?_, by decide, fun r mb => ?_,
    fun r v h => h, fun r sc h => h, fun r rp h => h, fun r k v hk h => ?_⟩
  · have h0 : to_string_nat 0 = "0".toList := by decide
    simp only [HttpResponse.mk0, HttpResponse.get_header, List.length_nil, h0]
    decide
  · simp only [HttpResponse.mk5, HttpResponse.set_header, HttpResponse.get_header,
      mapFind_mapInsert_self, Option.getD_some]
  · simp only [HttpResponse.set_message_body, HttpResponse.set_header,
      HttpResponse.get_header, mapFind_mapInsert_self, Option.getD_some]
  · simp only [HttpResponse.set_header, HttpResponse.get_header] at h ⊢
    rw [mapFind_mapInsert_ne _ _ _ _ (Ne.symm hk)]
    exact h

theorem content_length_invariant_witness :
    ((HttpResponse.mk0 200).set_header "Content-Type".toList
        "text/plain".toList).get_header "Content-Length".toList
      = to_string_nat ((HttpResponse.mk0 200).set_header "Content-Type".toList
        "text/plain".toList).message_body.length :=
  content_length_invariant.2.2.2.2.2.2.2 (HttpResponse.mk0 200) "Content-Type".toList
    "text/plain".toList (by decide) (content_length_invariant.1 200)

/-- C16 (counterexample): no constructor arguments make the constructed response report
a Content-Length, taken from the header map passed in, that differs from the decimal
byte length of the body. -/
theorem no_content_length_injection :
    ¬ ∃ (v : Bytes) (sc : Int) (rp : Bytes) (hm : StdMap Bytes) (mb val : Bytes),
      mapFind "Content-Length".toList hm = some val ∧ val ≠ to_string_nat mb.length ∧
      (HttpResponse.mk5 v sc rp hm mb).get_header "Content-Length".toList = val := by
  rintro ⟨v, sc, rp, hm, mb, val, _, hne, hget⟩
  apply hne
  rw [← hget]
  simp only [HttpResponse.mk5, HttpResponse.set_header, HttpResponse.get_header,
    mapFind_mapInsert_self, Option.getD_some]

/-- C16 (amended): for all constructor arguments, whatever `Content-Length: val` the
header map holds, the constructed response reports the decimal byte length of the body
as its Content-Length, hence not `val` when `val` differs from it; only a later
`set_header("Content-Length", val)` makes the response report `val`. -/
theorem content_length_overridden (v : Bytes) (sc : Int) (rp : Bytes) (hm : StdMap Bytes)
    (mb val : Bytes) :
    (HttpResponse.mk5 v sc rp hm mb).get_header "Content-Length".toList
      = to_string_nat mb.length ∧
    (val ≠ to_string_nat mb.length →
      (HttpResponse.mk5 v sc rp hm mb).get_header "Content-Length".toList ≠ val) ∧
    ((HttpResponse.mk5 v sc rp hm mb).set_header "Content-Length".toList
      val).get_header "Content-Length".toList = val := by
  have h : (HttpResponse.mk5 v sc rp hm mb).get_header "Content-Length".toList
      = to_string_nat mb.length := by
    simp only [HttpResponse.mk5, HttpResponse.set_header, HttpResponse.get_header,
      mapFind_mapInsert_self, Option.getD_some]
  refine ⟨h, fun hne he => hne (by rw [← he, h]), ?_⟩
  simp only [HttpResponse.set_header, HttpResponse.get_header, mapFind_mapInsert_self,
    Option.getD_some]

theorem content_length_overridden_witness :
    (HttpResponse.mk5 "HTTP/1.1".toList 200 "OK".toList
        [("Content-Length".toList, "999".toList), ("Content-Type".toList, "text/plain".toList)]
        "Hello".toList).get_header "Content-Length".toList ≠ "999".toList :=
  (content_length_overridden "HTTP/1.1".toList 200 "OK".toList
    [("Content-Length".toList, "999".toList), ("Content-Type".toList, "text/plain".toList)]
    "Hello".toList "999".toList).2.1 (by decide)

/-- C17: `convert_to_string()` is the status line `version SP decimal(status_code) SP
reason_phrase CRLF`, then one line `name: value CRLF` per header in the order of the
header map, then `CRLF`, then the message body unchanged; the header map is in ascending
byte order of the names, an order that the constructors and `set_header` keep. -/
theorem response_serialization :
    (∀ r : HttpResponse,
      r.convert_to_string =
        r.version ++ " ".toList ++ to_string_int r.status_code ++ " ".toList
          ++ r.reason_phrase ++ "\r\n".toList
          ++ (r.headers_map.map
              (fun kv => kv.1 ++ ": ".toList ++ kv.2 ++ "\r\n".toList)).flatten
          ++ "\r\n".toList ++ r.message_body) ∧
    (∀ sc : Int, mapSorted (HttpResponse.mk0 sc).headers_map) ∧
    (∀ (v : Bytes) (sc : Int) (rp : Bytes) (hm : StdMap Bytes) (mb : Bytes),
      mapSorted hm → mapSorted (HttpResponse.mk5 v sc rp hm mb).headers_map) ∧
    (∀ (r : HttpResponse) (k v : Bytes),
      mapSorted r.headers_map → mapSorted (r.set_header k v).headers_map) ∧
    (∀ (r : HttpResponse) (mb : Bytes),
      mapSorted r.headers_map → mapSorted (r.set_message_body mb).headers_map) ∧
    (∀ n : Nat, to_string_int (n : Int) = Nat.toDigits 10 n) ∧
    HttpResponse.convert_to_string
        (HttpResponse.set_header
          (HttpResponse.set_header
            (HttpResponse.set_reason_phrase
              (HttpResponse.set_status_code (HttpResponse.mk0 0) 500)
              "Internal Server Error".toList)
            "Content-Type".toList "text/html".toList)
          "Connection".toList "close".toList)
      = "HTTP/1.1 500 Internal Server Error\r\nConnection: close\r\nContent-Length: 0\r\nContent-Type: text/html\r\n\r\n".toList := by
  refine ⟨fun r => ?_, fun sc => ?_, fun v sc rp hm mb h => ?_, fun r k v h => ?_,
    fun r mb h => ?_, fun n => ?_, by decide⟩
  · simp only [HttpResponse.convert_to_string]
    rw [foldl_append_lines (fun kv => kv.1 ++ ": ".toList ++ kv.2 ++ "\r\n".toList)]
    simp [List.append_assoc]
  · simp [HttpResponse.mk0, mapSorted]
  · exact mapSorted_mapInsert _ _ _ h
  · exact mapSorted_mapInsert _ _ _ h
  · exact mapSorted_mapInsert _ _ _ h
  · simp [to_string_int]

theorem response_serialization_witness :
    mapSorted (HttpResponse.mk5 "HTTP/1.1".toList 200 "OK".toList
      [("Content-Type".toList, "text/plain".toList)] "OK".toList).headers_map :=
  response_serialization.2.2.1 "HTTP/1.1".toList 200 "OK".toList
    [("Content-Type".toList, "text/plain".toList)] "OK".toList
    (List.pairwise_singleton _ _)

/-! ## Routing misses and the factory -/

/-- C12 (counterexample): with a route whose prefix is the empty string, that prefix is
a byte-wise prefix of the path `"/x"`, yet `match_handler` builds the handler from the
synthesized not-found configuration and not from the configured route. -/
theorem routing_empty_route_prefix :
    ([] : Bytes) <+: "/x".toList ∧
    match_handler (fun cfg mount => (cfg, mount))
      [(([] : Bytes), ({ type := "EchoHandler".toList } : HandlerConfig))] "/x".toList
      = some (not_found_config, "/x".toList) ∧
    match_handler (fun cfg mount => (cfg, mount))
      [(([] : Bytes), ({ type := "EchoHandler".toList } : HandlerConfig))] "/x".toList
      ≠ some ({ type := "EchoHandler".toList }, []) := by
  refine ⟨List.nil_prefix, by decide, by decide⟩

/-- C12 (amended): for every route table whose prefixes are all non-empty and every
path, `match_handler` takes its fallback branch (the loop leaves `prefix_match` empty)
and uses the synthesized configuration of type `NotFoundHandler` exactly when no
configured prefix is a byte-wise prefix of the path; whenever some configured prefix
matches, the handler is built from a configured route whose prefix matches. -/
theorem fallback_exactly_on_miss {H : Type} (create_handler : HandlerConfig → Bytes → H)
    (routes_ : StdMap HandlerConfig) (path : Bytes)
    (hkeys : ∀ k ∈ routes_.map Prod.fst, k ≠ []) :
    ((match_loop routes_ path).prefix_match = [] ↔
      ¬ ∃ k ∈ routes_.map Prod.fst, k <+: path) ∧
    ((¬ ∃ k ∈ routes_.map Prod.fst, k <+: path) →
      match_handler create_handler routes_ path
        = some (create_handler not_found_config path)) ∧
    ((∃ k ∈ routes_.map Prod.fst, k <+: path) →
      ∃ p cfg, (p, cfg) ∈ routes_ ∧ p <+: path ∧
        match_handler create_handler routes_ path = some (create_handler cfg p)) ∧
    not_found_config.type = "NotFoundHandler".toList := by
  have hcases := match_loop_cases routes_ path hkeys
  have hiff : (match_loop routes_ path).prefix_match = [] ↔
      ¬ ∃ k ∈ routes_.map Prod.fst, k <+: path := by
    rcases hcases with ⟨h1, h2⟩ | ⟨h1, h2, h3⟩
    · exact ⟨fun _ ⟨k, hk, hkp⟩ => h2 k hk hkp, fun _ => h1⟩
    · exact ⟨fun h => absurd h h3, fun h => absurd ⟨_, h1, h2⟩ h⟩
  refine ⟨hiff, fun hno => ?_, fun hex => ?_, rfl⟩
  · have he := hiff.mpr hno
    unfold match_handler
    simp [he]
  · rcases hcases with ⟨_, h2⟩ | ⟨h1, h2, h3⟩
    · obtain ⟨k, hk, hkp⟩ := hex
      exact absurd hkp (h2 k hk)
    · obtain ⟨cfg, hfind, hmem⟩ := mapFind_of_mem_keys routes_ _ h1
      refine ⟨_, cfg, hmem, h2, ?_⟩
      unfold match_handler
      simp only [hfind]
      rw [if_pos]
      simpa using h3

theorem fallback_exactly_on_miss_witness :
    match_handler (fun cfg mount => (cfg, mount))
      [("/echo".toList, ({ type := "EchoHandler".toList } : HandlerConfig))]
      "/notfound".toList = some (not_found_config, "/notfound".toList) :=
  (fallback_exactly_on_miss (fun cfg mount => (cfg, mount))
    [("/echo".toList, { type := "EchoHandler".toList })] "/notfound".toList
    (by decide)).2.1 (by
      rintro ⟨k, hk, hkp⟩
      simp only [List.map_cons, List.map_nil, List.mem_singleton] at hk
      rw [hk] at hkp
      exact absurd (List.isPrefixOf_iff_prefix.mpr hkp) (by decide))

/-- C14 (counterexample): for the route `/static` of type `StaticHandler` without a
`root`, the router returns the null handler at `/static/x`, and the session answers the
valid request for it with 404 Not Found, byte for byte the response it gives to the
routing miss `/zzz`. -/
theorem misconfigured_route_is_a_404 :
    match_handler
      (create_handler ⟨fun _ => true, fun _ => true⟩ (fun _ _ _ => EchoHandler)
        (fun _ => EchoHandler))
      [("/static".toList, { type := "StaticHandler".toList })] "/static/x".toList
      = some (Except.ok none) ∧
    (HttpRequest.parse "GET /static/x HTTP/1.1\r\n\r\n".toList).is_valid = true ∧
    handle_read
      (routed ⟨fun _ => true, fun _ => true⟩ (fun _ _ _ => EchoHandler) (fun _ => EchoHandler)
        [("/static".toList, { type := "StaticHandler".toList })])
      ⟨[]⟩ false "GET /static/x HTTP/1.1\r\n\r\n".toList
      = (⟨[]⟩,
          [Op.async_write
            "HTTP/1.1 404 Not Found\r\nContent-Length: 22\r\nContent-Type: text/html\r\n\r\n<h1>404 Not Found</h1>".toList]) ∧
    handle_read
      (routed ⟨fun _ => true, fun _ => true⟩ (fun _ _ _ => EchoHandler) (fun _ => EchoHandler)
        [("/static".toList, { type := "StaticHandler".toList })])
      ⟨[]⟩ false "GET /zzz HTTP/1.1\r\n\r\n".toList
      = (⟨[]⟩,
          [Op.async_write
            "HTTP/1.1 404 Not Found\r\nContent-Length: 22\r\nContent-Type: text/html\r\n\r\n<h1>404 Not Found</h1>".toList]) := by
  refine ⟨rfl, by decide, by decide, by decide⟩

/-- C14 (amended): when the router returns the null handler for a valid request, the
response the session sends is 404 Not Found with Content-Type text/html and the body
`<h1>404 Not Found</h1>`, the same response that `NotFoundHandler` gives on a routing
miss. -/
theorem null_handler_answered_with_404 (mh : Bytes → Option RequestHandler)
    (request : HttpRequest) (hv : request.is_valid = true) (hnull : mh request.path_ = none) :
    validate_and_answer mh request
      = (⟨[]⟩,
          [Op.async_write
            "HTTP/1.1 404 Not Found\r\nContent-Length: 22\r\nContent-Type: text/html\r\n\r\n<h1>404 Not Found</h1>".toList]) ∧
    dispatch mh request = NotFoundHandler.handle_request request ∧
    (dispatch mh request).status_code = 404 ∧
    (dispatch mh request).reason_phrase = "Not Found".toList ∧
    (∀ (s : Session) (data : Bytes), request = HttpRequest.parse (s.buffer_ ++ data) →
      CRLFCRLF <:+: s.buffer_ ++ data →
      request.get_header "Content-Length".toList = none →
      handle_read mh s false data
        = (⟨[]⟩, [Op.async_write (NotFoundHandler.handle_request request).convert_to_string])) := by
  have hd : dispatch mh request = fallback_404 := by
    unfold dispatch
    rw [hnull]
  have hs : fallback_404.convert_to_string =
      "HTTP/1.1 404 Not Found\r\nContent-Length: 22\r\nContent-Type: text/html\r\n\r\n<h1>404 Not Found</h1>".toList := by
    decide
  refine ⟨?_, hd, by rw [hd]; rfl, by rw [hd]; rfl, ?_⟩
  · unfold validate_and_answer
    simp [hv, hd, hs]
  · intro s data hreq hin hcl
    subst hreq
    rw [handle_read_bodyless mh s data hin hv hcl, hd]
    rfl

theorem null_handler_answered_with_404_witness :
    validate_and_answer (fun _ => none)
      (HttpRequest.parse "GET /static/x HTTP/1.1\r\n\r\n".toList)
      = (⟨[]⟩,
          [Op.async_write
            "HTTP/1.1 404 Not Found\r\nContent-Length: 22\r\nContent-Type: text/html\r\n\r\n<h1>404 Not Found</h1>".toList]) :=
  (null_handler_answered_with_404 (fun _ => none)
    (HttpRequest.parse "GET /static/x HTTP/1.1\r\n\r\n".toList) (by decide) rfl).1

/-- C18: with the route `/health` of type `HealthHandler`, the buffer
`"GET /health HTTP/1.1\r\nHost: h\r\n\r\n"` passes classification, detection, parsing
and validation, is routed to the health handler, and the response written is exactly
`"HTTP/1.1 200 OK\r\nContent-Length: 2\r\nContent-Type: text/plain\r\n\r\nOK"`;
`HealthHandler` gives this response to every request. -/
theorem health_end_to_end (disk : Disk)
    (file_handler : Bytes → Bytes → List Bytes → RequestHandler)
    (crud_handler : Bytes → RequestHandler) :
    check_malformed_request "GET /health HTTP/1.1\r\nHost: h\r\n\r\n".toList
      = MalformedType.None ∧
    detect_http_request "GET /health HTTP/1.1\r\nHost: h\r\n\r\n".toList = true ∧
    (HttpRequest.parse "GET /health HTTP/1.1\r\nHost: h\r\n\r\n".toList).method_
      = "GET".toList ∧
    (HttpRequest.parse "GET /health HTTP/1.1\r\nHost: h\r\n\r\n".toList).path_
      = "/health".toList ∧
    (HttpRequest.parse "GET /health HTTP/1.1\r\nHost: h\r\n\r\n".toList).version_
      = "HTTP/1.1".toList ∧
    (HttpRequest.parse "GET /health HTTP/1.1\r\nHost: h\r\n\r\n".toList).get_header
      "Host".toList = some "h".toList ∧
    (HttpRequest.parse "GET /health HTTP/1.1\r\nHost: h\r\n\r\n".toList).is_valid = true ∧
    match_handler (create_handler disk file_handler crud_handler)
      [("/health".toList, { type := "HealthHandler".toList })] "/health".toList
      = some (Except.ok (some HealthHandler)) ∧
    handle_read
      (routed disk file_handler crud_handler
        [("/health".toList, { type := "HealthHandler".toList })])
      ⟨[]⟩ false "GET /health HTTP/1.1\r\nHost: h\r\n\r\n".toList
      = (⟨[]⟩,
          [Op.async_write
            "HTTP/1.1 200 OK\r\nContent-Length: 2\r\nContent-Type: text/plain\r\n\r\nOK".toList]) ∧
    (∀ request : HttpRequest,
      (HealthHandler.handle_request request).convert_to_string
        = "HTTP/1.1 200 OK\r\nContent-Length: 2\r\nContent-Type: text/plain\r\n\r\nOK".toList) ∧
    HealthHandler.get_handler_name = "HealthHandler".toList := by
  have hroute : match_handler (create_handler disk file_handler crud_handler)
      [("/health".toList, { type := "HealthHandler".toList })] "/health".toList
      = some (Except.ok (some HealthHandler)) := rfl
  have hresp : ∀ request : HttpRequest,
      (HealthHandler.handle_request request).convert_to_string
        = "HTTP/1.1 200 OK\r\nContent-Length: 2\r\nContent-Type: text/plain\r\n\r\nOK".toList := by
    intro request
    have : HealthHandler.handle_request request
        = HttpResponse.mk5 "HTTP/1.1".toList 200 "OK".toList
            (mapInsert "Content-Type".toList "text/plain".toList []) "OK".toList := rfl
    rw [this]
    decide
  refine ⟨by decide, by decide, by decide, by decide, by decide, by decide, by decide, hroute,
    ?_, hresp, rfl⟩
  have hin : CRLFCRLF <:+: (⟨[]⟩ : Session).buffer_
      ++ "GET /health HTTP/1.1\r\nHost: h\r\n\r\n".toList :=
    (find_isSome_iff _ _).mp (by decide)
  rw [handle_read_bodyless _ ⟨[]⟩ _ hin (by decide) (by decide)]
  have hpath : (HttpRequest.parse ((⟨[]⟩ : Session).buffer_
      ++ "GET /health HTTP/1.1\r\nHost: h\r\n\r\n".toList)).path_ = "/health".toList := by
    decide
  have hdisp : dispatch
      (routed disk file_handler crud_handler
        [("/health".toList, { type := "HealthHandler".toList })])
      (HttpRequest.parse ((⟨[]⟩ : Session).buffer_
        ++ "GET /health HTTP/1.1\r\nHost: h\r\n\r\n".toList))
      = HealthHandler.handle_request (HttpRequest.parse ((⟨[]⟩ : Session).buffer_
        ++ "GET /health HTTP/1.1\r\nHost: h\r\n\r\n".toList)) := by
    unfold dispatch routed
    rw [hpath, hroute]
  rw [hdisp, hresp]

/-! ## The shape of the request line -/

/-- C20 (counterexample): the requests `"GET  /x HTTP/1.1\r\n\r\n"` (two spaces after the
method) and `"GET /x HTTP/1.1 junk\r\n\r\n"` (a fourth token) parse to valid requests
with method `GET`, path `/x` and version `HTTP/1.1`, although their first line is not
`METHOD SP PATH SP VERSION`. -/
theorem lenient_request_line :
    (HttpRequest.parse "GET  /x HTTP/1.1\r\n\r\n".toList).is_valid = true ∧
    "GET  /x HTTP/1.1\r\n\r\n".toList.take
        ((find "GET  /x HTTP/1.1\r\n\r\n".toList "\r\n".toList).getD 0)
      = "GET  /x HTTP/1.1".toList ∧
    (HttpRequest.parse "GET  /x HTTP/1.1\r\n\r\n".toList).method_ ++ " ".toList
        ++ (HttpRequest.parse "GET  /x HTTP/1.1\r\n\r\n".toList).path_ ++ " ".toList
        ++ (HttpRequest.parse "GET  /x HTTP/1.1\r\n\r\n".toList).version_
      = "GET /x HTTP/1.1".toList ∧
    "GET  /x HTTP/1.1".toList ≠ "GET /x HTTP/1.1".toList ∧
    (HttpRequest.parse "GET /x HTTP/1.1 junk\r\n\r\n".toList).is_valid = true ∧
    "GET /x HTTP/1.1 junk\r\n\r\n".toList.take
        ((find "GET /x HTTP/1.1 junk\r\n\r\n".toList "\r\n".toList).getD 0)
      = "GET /x HTTP/1.1 junk".toList ∧
    (HttpRequest.parse "GET /x HTTP/1.1 junk\r\n\r\n".toList).method_ ++ " ".toList
        ++ (HttpRequest.parse "GET /x HTTP/1.1 junk\r\n\r\n".toList).path_ ++ " ".toList
        ++ (HttpRequest.parse "GET /x HTTP/1.1 junk\r\n\r\n".toList).version_
      = "GET /x HTTP/1.1".toList ∧
    "GET /x HTTP/1.1 junk".toList ≠ "GET /x HTTP/1.1".toList := by
  refine ⟨by decide, by decide, by decide, by decide, by decide, by decide, by decide,
    by decide⟩

/-- C20 (amended): if `HttpRequest::parse(r).is_valid()` holds then `r` consists of
optional leading whitespace, the method, a non-empty run of whitespace, the path, a
non-empty run of whitespace, the version, and then either nothing or a whitespace byte
followed by any bytes; whitespace is what `std::isspace` accepts (space, tab, LF, VT, FF,
CR) and the three tokens hold none of it.  `method()`, `path()` and `version()` are
those three tokens; the method is one of GET, POST, PUT, DELETE and the version is
`HTTP/1.1`. -/
theorem request_line_tokens (r : Bytes) (hv : (HttpRequest.parse r).is_valid = true) :
    (∃ w0 w1 w2 rest : Bytes,
      r = w0 ++ (HttpRequest.parse r).method_ ++ w1 ++ (HttpRequest.parse r).path_ ++ w2
        ++ (HttpRequest.parse r).version_ ++ rest ∧
      (∀ c ∈ w0, isspace c = true) ∧
      w1 ≠ [] ∧ (∀ c ∈ w1, isspace c = true) ∧
      w2 ≠ [] ∧ (∀ c ∈ w2, isspace c = true) ∧
      (∀ c, rest.head? = some c → isspace c = true)) ∧
    (∀ c ∈ (HttpRequest.parse r).method_, isspace c = false) ∧
    (∀ c ∈ (HttpRequest.parse r).path_, isspace c = false) ∧
    (∀ c ∈ (HttpRequest.parse r).version_, isspace c = false) ∧
    ((HttpRequest.parse r).method_ = "GET".toList ∨
      (HttpRequest.parse r).method_ = "POST".toList ∨
      (HttpRequest.parse r).method_ = "PUT".toList ∨
      (HttpRequest.parse r).method_ = "DELETE".toList) ∧
    (HttpRequest.parse r).version_ = "HTTP/1.1".toList ∧
    (∀ c : Char, isspace c = true ↔
      (c = ' ' ∨ c = '\t' ∨ c = '\n' ∨ c = '\x0b' ∨ c = '\x0c' ∨ c = '\r')) := by
  have hvalid := (is_valid_iff _).mp hv
  have hm : (HttpRequest.parse r).method_ ≠ [] := by
    rcases hvalid.1 with h | h | h | h <;> rw [h] <;> decide
  obtain ⟨m, s1, p, s2, v, s3, h1, h2, h3⟩ := parse_tokens_of_method r hm
  obtain ⟨em, ep, ev⟩ := parse_fields r m s1 p s2 v s3 h1 h2 h3
  obtain ⟨a1, _, a3, a4⟩ := read_token_spec r m s1 h1
  obtain ⟨b1, _, b3, b4⟩ := read_token_spec s1 p s2 h2
  obtain ⟨c1, _, c3, c4⟩ := read_token_spec s2 v s3 h3
  rw [em, ep, ev]
  refine ⟨⟨r.takeWhile isspace, s1.takeWhile isspace, s2.takeWhile isspace, s3, ?_,
    fun c hc => List.mem_takeWhile_imp hc,
    takeWhile_isspace_ne_nil s1 (read_token_input_ne_nil s1 p s2 h2) a4,
    fun c hc => List.mem_takeWhile_imp hc,
    takeWhile_isspace_ne_nil s2 (read_token_input_ne_nil s2 v s3 h3) b4,
    fun c hc => List.mem_takeWhile_imp hc, c4⟩, a3, b3, c3, ?_, ?_, ?_⟩
  · calc r = r.takeWhile isspace ++ m ++ s1 := a1
      _ = r.takeWhile isspace ++ m ++ (s1.takeWhile isspace ++ p ++ s2) := by rw [← b1]
      _ = r.takeWhile isspace ++ m ++ (s1.takeWhile isspace ++ p
            ++ (s2.takeWhile isspace ++ v ++ s3)) := by rw [← c1]
      _ = _ := by simp only [List.append_assoc]
  · rw [← em]; exact hvalid.1
  · rw [← ev]; exact hvalid.2.1
  · intro c
    simp [isspace, or_assoc]

theorem request_line_tokens_witness :
    (HttpRequest.parse "GET  /x HTTP/1.1\r\n\r\n".toList).version_ = "HTTP/1.1".toList :=
  (request_line_tokens "GET  /x HTTP/1.1\r\n\r\n".toList (by decide)).2.2.2.2.2.1

/-! ## Parsing the request line, the headers, the query string and the body -/

/-- C21: `HttpRequest::parse(r)` keeps `r` unchanged as the raw request; when `r` has at
least three whitespace-delimited tokens, the method, path and version are the first,
second and third token; when it has fewer than three (as `"INVALID\r\n\r\n"` and
`"GET /path\r\n\r\n"`), the method, path and version are all empty and `is_valid()` is
false. -/
theorem request_line_parsing (r : Bytes) :
    (HttpRequest.parse r).raw_request_ = r ∧
    (∀ (t1 t2 t3 : Bytes) (ts : List Bytes), ws_tokens r = t1 :: t2 :: t3 :: ts →
      (HttpRequest.parse r).method_ = t1 ∧ (HttpRequest.parse r).path_ = t2 ∧
      (HttpRequest.parse r).version_ = t3) ∧
    ((ws_tokens r).length < 3 →
      (HttpRequest.parse r).method_ = [] ∧ (HttpRequest.parse r).path_ = [] ∧
      (HttpRequest.parse r).version_ = [] ∧ (HttpRequest.parse r).is_valid = false) ∧
    ws_tokens "INVALID\r\n\r\n".toList = ["INVALID".toList] ∧
    ws_tokens "GET /path\r\n\r\n".toList = ["GET".toList, "/path".toList] ∧
    ws_tokens "GET /index.html HTTP/1.1\r\nHost: www.example.com\r\n\r\n".toList
      = ["GET".toList, "/index.html".toList, "HTTP/1.1".toList, "Host:".toList,
          "www.example.com".toList] := by
  refine ⟨parse_raw_request r, fun t1 t2 t3 ts h => parse_of_three_tokens r t1 t2 t3 ts h,
    fun h => ?_, by decide, by decide, by decide⟩
  rw [parse_of_few_tokens r h]
  exact ⟨rfl, rfl, rfl, rfl⟩

theorem request_line_parsing_witness :
    ((HttpRequest.parse "GET /index.html HTTP/1.1\r\nHost: www.example.com\r\n\r\n".toList).method_
        = "GET".toList ∧
      (HttpRequest.parse "GET /index.html HTTP/1.1\r\nHost: www.example.com\r\n\r\n".toList).path_
        = "/index.html".toList ∧
      (HttpRequest.parse
          "GET /index.html HTTP/1.1\r\nHost: www.example.com\r\n\r\n".toList).version_
        = "HTTP/1.1".toList) ∧
    ((HttpRequest.parse "GET /path\r\n\r\n".toList).method_ = [] ∧
      (HttpRequest.parse "GET /path\r\n\r\n".toList).path_ = [] ∧
      (HttpRequest.parse "GET /path\r\n\r\n".toList).version_ = [] ∧
      (HttpRequest.parse "GET /path\r\n\r\n".toList).is_valid = false) :=
  ⟨(request_line_parsing
      "GET /index.html HTTP/1.1\r\nHost: www.example.com\r\n\r\n".toList).2.1
      "GET".toList "/index.html".toList "HTTP/1.1".toList
      ["Host:".toList, "www.example.com".toList] (by decide),
    (request_line_parsing "GET /path\r\n\r\n".toList).2.2.1 (by decide)⟩

/-- C23 (counterexample): for the path `"/p?k=a&k=b"` on a fresh request,
`get_query_param("k")` is `"b"`, the value of the last occurrence, not `"a"`. -/
theorem duplicate_query_key_last_wins :
    (HttpRequest.set_path {} "/p?k=a&k=b".toList).get_query_param "k".toList
      = some "b".toList ∧
    (HttpRequest.set_path {} "/p?k=a&k=b".toList).get_query_param "k".toList
      ≠ some "a".toList ∧
    (HttpRequest.parse "GET /p?k=a&k=b HTTP/1.1\r\n\r\n".toList).get_query_param "k".toList
      = some "b".toList := by
  refine ⟨by decide, by decide, by decide⟩

/-- C23 (amended): when the same key occurs more than once in a path's query string,
the last occurrence wins: on a fresh request, if the segment `k=v` is followed by no
other segment with the key `k`, then `get_query_param(k)` is `v`, whatever the earlier
segments are. -/
theorem duplicate_query_key (r : HttpRequest) (base query k v : Bytes) (A B : List Bytes)
    (hfresh : r.query_params_ = []) (hbase : '?' ∉ base) (hk : '=' ∉ k)
    (hsegs : getlines '&' query = A ++ (k ++ '=' :: v) :: B)
    (hB : ∀ s ∈ B, ∀ v', s ≠ k ++ '=' :: v') :
    (r.set_path (base ++ '?' :: query)).get_query_param k = some v := by
  rw [get_query_param_set_path r base query k hfresh hbase, hsegs]
  exact select_fold_last k v A B none hk hB

theorem duplicate_query_key_witness :
    (HttpRequest.set_path {} ("/p".toList ++ '?' :: "k=a&k=b".toList)).get_query_param
      "k".toList = some "b".toList :=
  duplicate_query_key {} "/p".toList "k=a&k=b".toList "k".toList "b".toList
    ["k=a".toList] [] rfl (by decide) (by decide) (by decide) (by simp)

/-- C24: on a fresh request, after `set_path(p)` the path is `p` unchanged and the base
path is the part of `p` before its first `?` (all of `p` without one);
`get_query_param(k)` is present exactly when some `&`-separated segment of the text
after the first `?` has the form `k=v` with no `=` in `k`, its value is the `v` of such
a segment, and segments without `=` contribute nothing.  `parse` leaves the same base
path and query parameters as `set_path` of the parsed path on a fresh request. -/
theorem path_and_query_splitting (r : HttpRequest) (p : Bytes)
    (hfresh : r.query_params_ = []) :
    (r.set_path p).path_ = p ∧
    ('?' ∉ p → (r.set_path p).base_path_ = p ∧
      ∀ k, (r.set_path p).get_query_param k = none) ∧
    (∀ base query : Bytes, '?' ∉ base → p = base ++ '?' :: query →
      (r.set_path p).base_path_ = base ∧
      (∀ k, ((r.set_path p).get_query_param k).isSome = true ↔
        ∃ seg ∈ getlines '&' query, ∃ v, seg = k ++ '=' :: v ∧ '=' ∉ k) ∧
      (∀ k v, (r.set_path p).get_query_param k = some v →
        ∃ seg ∈ getlines '&' query, seg = k ++ '=' :: v ∧ '=' ∉ k)) ∧
    (∀ query : Bytes,
      (∀ seg ∈ getlines '&' query, '&' ∉ seg) ∧
      ((getlines '&' query).map (fun seg => seg ++ ['&'])).flatten
        = if query.getLast? = some '&' ∨ query = [] then query else query ++ ['&']) ∧
    (∀ raw : Bytes,
      (HttpRequest.parse raw).base_path_
        = (HttpRequest.set_path {} (HttpRequest.parse raw).path_).base_path_ ∧
      (HttpRequest.parse raw).query_params_
        = (HttpRequest.set_path {} (HttpRequest.parse raw).path_).query_params_) := by
  refine ⟨(parse_path_and_query_fields _).2.1, fun hq => ?_, fun base query hbase hp => ?_,
    fun query => ⟨fun seg hseg => not_mem_of_mem_getlines '&' query seg hseg,
      getlines_flatten '&' query⟩, parse_query_state⟩
  · have hnone := (find_singleton_none p '?').mpr hq
    refine ⟨?_, fun k => ?_⟩
    · unfold HttpRequest.set_path
      rw [parse_path_and_query_base]
      simp only [hnone]
    · unfold HttpRequest.get_query_param HttpRequest.set_path
      rw [parse_path_and_query_params]
      simp only [hnone, hfresh]
      rfl
  · subst hp
    refine ⟨?_, fun k => ?_, fun k v hv => ?_⟩
    · unfold HttpRequest.set_path
      rw [parse_path_and_query_base]
      simp only [find_singleton_append base query '?' hbase]
      simp
    · rw [get_query_param_set_path r base query k hfresh hbase]
      exact select_fold_isSome k (getlines '&' query)
    · rw [get_query_param_set_path r base query k hfresh hbase] at hv
      rcases select_fold_some k v (getlines '&' query) none hv with h | h
      · cases h
      · exact h

theorem path_and_query_splitting_witness :
    (HttpRequest.set_path {} "/api/data?invalid&name=test".toList).base_path_
      = "/api/data".toList ∧
    (((HttpRequest.set_path {} "/api/data?invalid&name=test".toList).get_query_param
        "name".toList).isSome = true ↔
      ∃ seg ∈ getlines '&' "invalid&name=test".toList,
        ∃ v, seg = "name".toList ++ '=' :: v ∧ '=' ∉ "name".toList) :=
  ⟨((path_and_query_splitting {} "/api/data?invalid&name=test".toList rfl).2.2.1
      "/api/data".toList "invalid&name=test".toList (by decide) (by decide)).1,
    ((path_and_query_splitting {} "/api/data?invalid&name=test".toList rfl).2.2.1
      "/api/data".toList "invalid&name=test".toList (by decide) (by decide)).2.1
      "name".toList⟩

/-- C25: for a request in the wire format (request line, header lines, empty line, then
the bytes `B`), `HttpRequest::parse` gives as body the bytes `B` with one trailing `\n`
removed: the body is `B` byte for byte exactly when `B` does not end in `\n`, and a body
ending in `\n` loses that last byte. -/
theorem body_extraction (m p v : Bytes) (hdrs : List Bytes) (B : Bytes)
    (hm : m ≠ []) (hp : p ≠ []) (hv : v ≠ [])
    (hms : ∀ c ∈ m, isspace c = false) (hps : ∀ c ∈ p, isspace c = false)
    (hvs : ∀ c ∈ v, isspace c = false)
    (hl : ∀ l ∈ hdrs, l ≠ [] ∧ '\n' ∉ l) :
    (HttpRequest.parse (wire_request m p v hdrs B)).body_
      = (if B.getLast? = some '\n' then B.dropLast else B) ∧
    ((HttpRequest.parse (wire_request m p v hdrs B)).body_ = B ↔ B.getLast? ≠ some '\n') := by
  have hparse := parse_wire_request m p v hdrs B hm hp hv hms hps hvs hl
  have hbody : (HttpRequest.parse (wire_request m p v hdrs B)).body_
      = (if B.getLast? = some '\n' then B.dropLast else B) := by
    rw [hparse]
  refine ⟨hbody, ?_⟩
  rw [hbody]
  by_cases hlast : B.getLast? = some '\n'
  · rw [if_pos hlast]
    constructor
    · intro h
      have hlen := congrArg List.length h
      rw [List.length_dropLast] at hlen
      cases B with
      | nil => simp at hlast
      | cons c cs => simp at hlen
    · intro h
      exact absurd hlast h
  · rw [if_neg hlast]
    exact ⟨fun _ => hlast, fun _ => rfl⟩

theorem body_extraction_witness :
    (HttpRequest.parse (wire_request "POST".toList "/x".toList "HTTP/1.1".toList
        ["Content-Length: 4".toList] "abc\n".toList)).body_ = "abc".toList ∧
    wire_request "POST".toList "/x".toList "HTTP/1.1".toList
        ["Content-Length: 4".toList] "abc\n".toList
      = "POST /x HTTP/1.1\r\nContent-Length: 4\r\n\r\nabc\n".toList :=
  ⟨(body_extraction "POST".toList "/x".toList "HTTP/1.1".toList
      ["Content-Length: 4".toList] "abc\n".toList (by decide) (by decide) (by decide)
      (by decide) (by decide) (by decide) (by decide)).1, by decide⟩

/-- C26: `HandlerFactory::parse_extensions(s)` holds exactly the normal forms of the
comma-separated items of `s` (spaces and tabs trimmed, blank items dropped, `.` put in
front when missing); every element starts with `.` and does not end in a space or tab;
`"html, css, js,txt"` gives `.html`, `.css`, `.js`, `.txt` and `""` gives the empty set.
The letter case is kept as written: `"HTML"` gives `.HTML`, which is not lower-case. -/
theorem parse_extensions_normalization (s e : Bytes) :
    (e ∈ parse_extensions s ↔ ∃ item ∈ getlines ',' s, normalize_extension item = some e) ∧
    (e ∈ parse_extensions s →
      e.head? = some '.' ∧ ∃ c, e.getLast? = some c ∧ c ≠ ' ' ∧ c ≠ '\t') ∧
    parse_extensions "html, css, js,txt".toList
      = [".html".toList, ".css".toList, ".js".toList, ".txt".toList] ∧
    parse_extensions [] = [] ∧
    parse_extensions "HTML".toList = [".HTML".toList] ∧
    to_lower ".HTML".toList ≠ ".HTML".toList := by
  have hmem : e ∈ parse_extensions s ↔
      ∃ item ∈ getlines ',' s, normalize_extension item = some e := by
    unfold parse_extensions
    rw [mem_parse_extensions_fold]
    simp
  refine ⟨hmem, fun h => ?_, by decide, by decide, by decide, by decide⟩
  obtain ⟨item, _, hn⟩ := hmem.mp h
  exact normalize_extension_shape item e hn

theorem parse_extensions_normalization_witness :
    ".gif".toList ∈ parse_extensions "  .jpg ,.png,  , gif,".toList ∧
    (".gif".toList.head? = some '.' ∧
      ∃ c, ".gif".toList.getLast? = some c ∧ c ≠ ' ' ∧ c ≠ '\t') :=
  ⟨by decide,
    (parse_extensions_normalization "  .jpg ,.png,  , gif,".toList ".gif".toList).2.1
      (by decide)⟩

/-! ## The in-memory store and the CRUD handler -/

/-- C28: `write_entity(e, i, d)` returns true; afterwards `entity_exists(e, i)` is true
and `read_entity(e, i)` is `d`, whatever was stored before; existence and contents of
every other (entity, id) pair are unchanged; and in every store `read_entity` raises its
runtime error exactly when `entity_exists` is false. -/
theorem store_write_read (fs : MockFilesystem) (e i d : Bytes) :
    (fs.write_entity e i d).1 = true ∧
    (fs.write_entity e i d).2.entity_exists e i = true ∧
    (fs.write_entity e i d).2.read_entity e i = Except.ok d ∧
    (∀ e2 i2 : Bytes, ¬ (e2 = e ∧ i2 = i) →
      (fs.write_entity e i d).2.entity_exists e2 i2 = fs.entity_exists e2 i2 ∧
      (fs.write_entity e i d).2.read_entity e2 i2 = fs.read_entity e2 i2) ∧
    (∀ (s : MockFilesystem) (e2 i2 : Bytes),
      (∃ msg, s.read_entity e2 i2 = Except.error msg) ↔ s.entity_exists e2 i2 = false) := by
  refine ⟨rfl, ?_, ?_, fun e2 i2 h => ⟨?_, ?_⟩, fun s e2 i2 => ?_⟩
  · rw [entity_exists_eq, lookup_write_entity, if_pos ⟨rfl, rfl⟩]
    rfl
  · rw [read_entity_eq, lookup_write_entity, if_pos ⟨rfl, rfl⟩]
  · rw [entity_exists_eq, entity_exists_eq, lookup_write_entity, if_neg h]
  · rw [read_entity_eq, read_entity_eq, lookup_write_entity, if_neg h]
  · rw [read_entity_eq, entity_exists_eq]
    cases mapFind i2 ((mapFind e2 s.data_).getD []) with
    | none => simp
    | some x => simp

theorem store_write_read_witness :
    (({ data_ := [("Shoes".toList, [("1".toList, "a".toList)])] } :
        MockFilesystem).write_entity "Shoes".toList "2".toList "b".toList).2.read_entity
      "Shoes".toList "1".toList = Except.ok "a".toList :=
  ((store_write_read { data_ := [("Shoes".toList, [("1".toList, "a".toList)])] }
      "Shoes".toList "2".toList "b".toList).2.2.2.1 "Shoes".toList "1".toList
      (by decide)).2

/-- C29: `delete_entity(e, i)` returns true exactly when `entity_exists(e, i)` held
before the call; when it returns true, `entity_exists(e, i)` is false afterwards and `i`
is not in `list_entity_ids(e)`; when it returns false the store is unchanged; in both
cases existence, contents and listing of every other (entity, id) pair are unaffected. -/
theorem store_delete (fs : MockFilesystem) (e i : Bytes) :
    (fs.delete_entity e i).1 = fs.entity_exists e i ∧
    ((fs.delete_entity e i).1 = true →
      (fs.delete_entity e i).2.entity_exists e i = false ∧
      i ∉ (fs.delete_entity e i).2.list_entity_ids e) ∧
    ((fs.delete_entity e i).1 = false → (fs.delete_entity e i).2 = fs) ∧
    (∀ e2 i2 : Bytes, ¬ (e2 = e ∧ i2 = i) →
      (fs.delete_entity e i).2.entity_exists e2 i2 = fs.entity_exists e2 i2 ∧
      (fs.delete_entity e i).2.read_entity e2 i2 = fs.read_entity e2 i2 ∧
      (i2 ∈ (fs.delete_entity e i).2.list_entity_ids e2 ↔ i2 ∈ fs.list_entity_ids e2)) := by
  have hret : (fs.delete_entity e i).1 = fs.entity_exists e i := by
    rw [delete_entity_eq]
    by_cases hex : fs.entity_exists e i = true
    · rw [if_pos hex, hex]
    · rw [if_neg hex]
      simpa using hex
  refine ⟨hret, fun h => ?_, fun h => ?_, fun e2 i2 h => ⟨?_, ?_, ?_⟩⟩
  · rw [hret] at h
    refine ⟨?_, ?_⟩
    · rw [entity_exists_eq, lookup_delete_entity_self fs e i h]
      rfl
    · rw [list_entity_ids_eq, data_delete_entity fs e i e h, if_pos rfl, mem_keys_umErase]
      exact fun hh => hh.1 rfl
  · rw [hret] at h
    rw [delete_entity_eq, if_neg (by simp [h])]
  · rw [entity_exists_eq, entity_exists_eq, lookup_delete_entity fs e i e2 i2 h]
  · rw [read_entity_eq, read_entity_eq, lookup_delete_entity fs e i e2 i2 h]
  · by_cases hex : fs.entity_exists e i = true
    · rw [list_entity_ids_eq, list_entity_ids_eq, data_delete_entity fs e i e2 hex]
      by_cases he : e2 = e
      · subst he
        rw [if_pos rfl, mem_keys_umErase]
        exact ⟨fun hh => hh.2, fun hh => ⟨fun hi => h ⟨rfl, hi⟩, hh⟩⟩
      · rw [if_neg he]
    · rw [delete_entity_eq, if_neg hex]

theorem store_delete_witness :
    ((({ data_ := [("Shoes".toList, [("1".toList, "a".toList), ("2".toList, "b".toList)])] } :
        MockFilesystem).delete_entity "Shoes".toList "1".toList).2.entity_exists
      "Shoes".toList "1".toList = false ∧
    "1".toList ∉ (({ data_ := [("Shoes".toList,
        [("1".toList, "a".toList), ("2".toList, "b".toList)])] } :
        MockFilesystem).delete_entity "Shoes".toList "1".toList).2.list_entity_ids
      "Shoes".toList) ∧
    (({ data_ := [("Shoes".toList, [("1".toList, "a".toList), ("2".toList, "b".toList)])] } :
        MockFilesystem).delete_entity "Shoes".toList "1".toList).2.read_entity
      "Shoes".toList "2".toList = Except.ok "b".toList :=
  ⟨(store_delete { data_ := [("Shoes".toList,
        [("1".toList, "a".toList), ("2".toList, "b".toList)])] }
      "Shoes".toList "1".toList).2.1 (by decide),
    ((store_delete { data_ := [("Shoes".toList,
        [("1".toList, "a".toList), ("2".toList, "b".toList)])] }
      "Shoes".toList "1".toList).2.2.2 "Shoes".toList "2".toList (by decide)).2.1⟩

/-- C27, counterexample: in a store where the entity has the ids `"1"`, `"2"`, ... up
to `"2147483647"`, every positive `int` is taken and `next_entity_id` throws
`std::overflow_error` instead of returning a decimal string. -/
theorem next_entity_id_overflow :
    ({ data_ := [("Shoes".toList,
        (List.range MockFilesystem.INT_MAX).map (fun k => (to_string_nat (k + 1), [])))] } :
        MockFilesystem).next_entity_id "Shoes".toList
      = Except.error
          "MockFilesystem: no available integer IDs for entity Shoes".toList := by
  have hI := INT_MAX_eq
  have hmsg : "MockFilesystem: no available integer IDs for entity Shoes".toList
      = "MockFilesystem: no available integer IDs for entity ".toList ++ "Shoes".toList := by
    decide
  rw [hmsg]
  apply next_entity_id_full
  intro n h1 h2
  refine ⟨to_string_nat n, ?_, stoi_to_string_nat n (by omega)⟩
  rw [list_entity_ids_single, List.map_map]
  refine List.mem_map.mpr ⟨n - 1, List.mem_range.mpr (by omega), ?_⟩
  show to_string_nat (n - 1 + 1) = to_string_nat n
  rw [Nat.sub_add_cancel h1]

/-- C27: while the entity has fewer than `INT_MAX` ids, `next_entity_id` returns the
decimal string of the smallest positive integer `n` that no existing id of the entity
converts to by `std::stoi`; ids that are non-numeric, zero, negative or out of `int`
range do not count, an empty entity gives `"1"` and the ids 1, 2, 4, 10 give `"3"`.
When every integer from 1 to `INT_MAX` is the value of an existing id, the call throws
`std::overflow_error`. -/
theorem next_entity_id_smallest_free (fs : MockFilesystem) (entity : Bytes)
    (h : (fs.list_entity_ids entity).length < 2 ^ 31 - 1) :
    (∃ n : Nat, 1 ≤ n ∧ fs.next_entity_id entity = Except.ok (to_string_nat n) ∧
      (∀ id ∈ fs.list_entity_ids entity, stoi id ≠ some (n : Int)) ∧
      (∀ k : Nat, 1 ≤ k → k < n →
        ∃ id ∈ fs.list_entity_ids entity, stoi id = some (k : Int))) ∧
    (∀ (s : MockFilesystem),
      (∀ n : Nat, 1 ≤ n → n ≤ MockFilesystem.INT_MAX →
        ∃ id ∈ s.list_entity_ids entity, stoi id = some (n : Int)) →
      s.next_entity_id entity
        = Except.error ("MockFilesystem: no available integer IDs for entity ".toList
            ++ entity)) ∧
    ({ data_ := [] } : MockFilesystem).next_entity_id "Shoes".toList = Except.ok "1".toList ∧
    ({ data_ := [("Shoes".toList, [("1".toList, []), ("2".toList, []), ("4".toList, []),
        ("10".toList, [])])] } : MockFilesystem).next_entity_id "Shoes".toList
      = Except.ok "3".toList ∧
    ({ data_ := [("Shoes".toList, [("abc".toList, []), ("0".toList, []), ("-5".toList, []),
        ("99999999999".toList, []), ("1".toList, [])])] } :
        MockFilesystem).next_entity_id "Shoes".toList
      = Except.ok "2".toList := by
  refine ⟨?_, fun s hs => next_entity_id_full s entity hs, rfl, rfl, rfl⟩
  obtain ⟨n, h1, _, h3, h4, h5⟩ := next_entity_id_spec fs entity h
  refine ⟨n, h1, h3, fun id hid hs => ?_, fun k hk1 hk2 => ?_⟩
  · exact h4 ((mem_used_ids _ _).mpr ⟨by omega, id, hid, hs⟩)
  · exact ((mem_used_ids _ _).mp (h5 k hk1 hk2)).2

theorem next_entity_id_smallest_free_witness :
    ∃ n : Nat, 1 ≤ n ∧
      ({ data_ := [("Shoes".toList, [("1".toList, []), ("2".toList, []), ("4".toList, []),
        ("10".toList, [])])] } : MockFilesystem).next_entity_id "Shoes".toList
        = Except.ok (to_string_nat n) ∧
      (∀ id ∈ ({ data_ := [("Shoes".toList, [("1".toList, []), ("2".toList, []),
          ("4".toList, []), ("10".toList, [])])] } : MockFilesystem).list_entity_ids
          "Shoes".toList, stoi id ≠ some (n : Int)) ∧
      (∀ k : Nat, 1 ≤ k → k < n →
        ∃ id ∈ ({ data_ := [("Shoes".toList, [("1".toList, []), ("2".toList, []),
          ("4".toList, []), ("10".toList, [])])] } : MockFilesystem).list_entity_ids
          "Shoes".toList, stoi id = some (k : Int)) :=
  (next_entity_id_smallest_free
    { data_ := [("Shoes".toList, [("1".toList, []), ("2".toList, []), ("4".toList, []),
        ("10".toList, [])])] } "Shoes".toList (by decide)).1

/-- C30, counterexample: with the route prefix `/a?b`, a POST to `/a?b/Shoes` is answered
400 "Invalid CRUD path" and nothing is stored, because the path is cut at its first `?`
before the prefix is compared. -/
theorem crud_post_prefix_with_question_mark :
    CrudHandler.handle_request "/a?b".toList { data_ := [] }
        { method_ := "POST".toList, path_ := "/a?b/Shoes".toList, body_ := "x".toList }
      = Except.ok (typed_response 400 "Bad Request".toList "text/plain".toList
          "Invalid CRUD path".toList, { data_ := [] }) ∧
    ({ data_ := [] } : MockFilesystem).next_entity_id "Shoes".toList
      = Except.ok "1".toList := by
  exact ⟨rfl, rfl⟩

/-- C30: for a route prefix `P` without `?`, an entity name `E` (non-empty, without `/`
or `?`) that has fewer than `INT_MAX` ids in the store, and a body `b`: a POST to `P/E`
returns 201 Created with Content-Type application/json and body `{"id": n}`, where `n`
is `next_entity_id(E)` before the call; afterwards GET `P/E/n` returns 200 with body
`b`; DELETE `P/E/n` returns 200, after which GET `P/E/n` returns 404 and a new POST to
`P/E` returns 201 with the same id `n` again. -/
theorem crud_create_then_read (fs : MockFilesystem) (P E b : Bytes) (post : HttpRequest)
    (hP : '?' ∉ P) (hE : E ≠ []) (hE1 : '/' ∉ E) (hE2 : '?' ∉ E)
    (hlen : (fs.list_entity_ids E).length < 2 ^ 31 - 1)
    (hm : post.method_ = "POST".toList) (hp : post.path_ = P ++ "/".toList ++ E)
    (hb : post.body_ = b) :
    ∃ (n : Bytes) (fs1 : MockFilesystem),
      fs.next_entity_id E = Except.ok n ∧
      CrudHandler.handle_request P fs post
        = Except.ok (typed_response 201 "Created".toList "application/json".toList
            ("\x7b\"id\": ".toList ++ n ++ "\x7d".toList), fs1) ∧
      (∀ get : HttpRequest, get.method_ = "GET".toList →
        get.path_ = P ++ "/".toList ++ E ++ "/".toList ++ n →
        CrudHandler.handle_request P fs1 get
          = Except.ok (typed_response 200 "OK".toList "application/json".toList b, fs1)) ∧
      (∀ del : HttpRequest, del.method_ = "DELETE".toList →
        del.path_ = P ++ "/".toList ++ E ++ "/".toList ++ n →
        ∃ fs2 : MockFilesystem,
          CrudHandler.handle_request P fs1 del
            = Except.ok (typed_response 200 "OK".toList "text/plain".toList
                "Entity deleted successfully".toList, fs2) ∧
          (∀ get : HttpRequest, get.method_ = "GET".toList →
            get.path_ = P ++ "/".toList ++ E ++ "/".toList ++ n →
            CrudHandler.handle_request P fs2 get
              = Except.ok (typed_response 404 "Not Found".toList "text/html".toList
                  "Entity not found".toList, fs2)) ∧
          (∀ post2 : HttpRequest, post2.method_ = "POST".toList →
            post2.path_ = P ++ "/".toList ++ E →
            ∃ fs3 : MockFilesystem,
              CrudHandler.handle_request P fs2 post2
                = Except.ok (typed_response 201 "Created".toList "application/json".toList
                    ("\x7b\"id\": ".toList ++ n ++ "\x7d".toList), fs3))) := by
  have hsl : "/".toList = ['/'] := rfl
  obtain ⟨k, hk1, hk2, hnext, hfree, _⟩ := next_entity_id_spec fs E hlen
  have hI := INT_MAX_eq
  obtain ⟨hne, hdig, _⟩ := to_string_nat_spec k
  have hn1 : '/' ∉ to_string_nat k := fun hh =>
    (isspace_of_isDigit _ (hdig _ hh)).2.2.2.1 rfl
  have hn2 : '?' ∉ to_string_nat k := fun hh =>
    (isspace_of_isDigit _ (hdig _ hh)).2.2.2.2 rfl
  have hpath1 : ∀ r : HttpRequest, r.path_ = P ++ "/".toList ++ E →
      CrudHandler.parse_entity_and_id_from_path P r.path_ = some (E, [], false) := by
    intro r hr
    rw [hr, hsl, List.append_assoc, List.singleton_append]
    exact parse_path_entity P E hP hE hE1 hE2
  have hpath2 : ∀ r : HttpRequest,
      r.path_ = P ++ "/".toList ++ E ++ "/".toList ++ to_string_nat k →
      CrudHandler.parse_entity_and_id_from_path P r.path_
        = some (E, to_string_nat k, true) := by
    intro r hr
    have : P ++ "/".toList ++ E ++ "/".toList ++ to_string_nat k
        = P ++ '/' :: (E ++ '/' :: to_string_nat k) := by
      rw [hsl]
      simp
    rw [hr, this]
    exact parse_path_entity_id P E _ hP hE hE1 hE2 hne hn1 hn2
  have hnotin : to_string_nat k ∉ fs.list_entity_ids E := by
    intro hh
    apply hfree
    rw [mem_used_ids]
    exact ⟨by omega, _, hh, stoi_to_string_nat k (by omega)⟩
  have hex1 : (fs.write_entity E (to_string_nat k) b).2.entity_exists E (to_string_nat k)
      = true := (write_entity_then_read fs E (to_string_nat k) b).1
  have hread1 : (fs.write_entity E (to_string_nat k) b).2.read_entity E (to_string_nat k)
      = Except.ok b := (write_entity_then_read fs E (to_string_nat k) b).2
  have hdel : ((fs.write_entity E (to_string_nat k) b).2.delete_entity E (to_string_nat k))
      = (true, ((fs.write_entity E (to_string_nat k) b).2.delete_entity E
          (to_string_nat k)).2) := by
    rw [delete_entity_eq, if_pos hex1]
  have hex2 : ((fs.write_entity E (to_string_nat k) b).2.delete_entity E
      (to_string_nat k)).2.entity_exists E (to_string_nat k) = false := by
    rw [entity_exists_eq, lookup_delete_entity_self _ E _ hex1]
    rfl
  have hnext2 : ((fs.write_entity E (to_string_nat k) b).2.delete_entity E
      (to_string_nat k)).2.next_entity_id E = Except.ok (to_string_nat k) := by
    rw [← hnext]
    unfold MockFilesystem.next_entity_id
    rw [list_after_write_delete fs E (to_string_nat k) b hnotin]
  refine ⟨to_string_nat k, (fs.write_entity E (to_string_nat k) b).2, hnext, ?_, ?_, ?_⟩
  · rw [handle_request_post P fs post E hm (hpath1 post hp), handle_post_ok fs post E _ hnext,
      hb]
  · intro get hgm hgp
    rw [handle_request_get P _ get E _ hgm (hpath2 get hgp)]
    unfold CrudHandler.handle_get
    rw [hex1, hread1]
    rfl
  · intro del hdm hdp
    refine ⟨((fs.write_entity E (to_string_nat k) b).2.delete_entity E (to_string_nat k)).2,
      ?_, ?_, ?_⟩
    · rw [handle_request_delete P _ del E _ hdm (hpath2 del hdp)]
      unfold CrudHandler.handle_delete
      rw [hex1, hdel]
      rfl
    · intro get hgm hgp
      rw [handle_request_get P _ get E _ hgm (hpath2 get hgp)]
      unfold CrudHandler.handle_get
      rw [hex2]
      rfl
    · intro post2 hpm hpp
      exact ⟨_, by rw [handle_request_post P _ post2 E hpm (hpath1 post2 hpp),
        handle_post_ok _ post2 E _ hnext2]⟩

theorem crud_create_then_read_witness :
    ∃ n : Bytes,
      ({ data_ := [("Shoes".toList, [("1".toList, "a".toList)])] } :
        MockFilesystem).next_entity_id "Shoes".toList = Except.ok n ∧
      ∃ fs1 : MockFilesystem,
        CrudHandler.handle_request "/api".toList
            { data_ := [("Shoes".toList, [("1".toList, "a".toList)])] }
            { method_ := "POST".toList, path_ := "/api/Shoes".toList, body_ := "x".toList }
          = Except.ok (typed_response 201 "Created".toList "application/json".toList
              ("\x7b\"id\": ".toList ++ n ++ "\x7d".toList), fs1) :=
  let ⟨n, fs1, h1, h2, _⟩ := crud_create_then_read
    { data_ := [("Shoes".toList, [("1".toList, "a".toList)])] } "/api".toList "Shoes".toList
    "x".toList { method_ := "POST".toList, path_ := "/api/Shoes".toList, body_ := "x".toList }
    (by decide) (by decide) (by decide) (by decide) (by decide) rfl rfl rfl
  ⟨n, h1, fs1, h2⟩

/-! ## Consequences of the classification, routing without ties -/

/-- C36: `check_malformed_request(b) = None` implies `detect_http_request(b)`; the
converse fails for `"a\n\n"`, whose only terminator is `\n\n`.  Hence, once
`handle_read` has passed its classification check, `\r\n\r\n` is found at some index
`i`, the body starts at `i + 4`, which is at most the buffer size, the subtraction
`buffer.size() - body_start` does not wrap, and the step is the one computed from `i`
alone: neither the `\n\n` fallback nor the keep-reading branch after a failed detection
takes part. -/
theorem classification_implies_detection :
    (∀ b : Bytes, check_malformed_request b = MalformedType.None →
      detect_http_request b = true) ∧
    (detect_http_request "a\n\n".toList = true ∧
      check_malformed_request "a\n\n".toList ≠ MalformedType.None) ∧
    (∀ (mh : Bytes → Option RequestHandler) (s : Session) (data : Bytes),
      check_malformed_request (s.buffer_ ++ data) = MalformedType.None →
      (s.buffer_ ++ data).length < 2 ^ 64 →
      ∃ i : Nat, find (s.buffer_ ++ data) CRLFCRLF = some i ∧
        i + 4 ≤ (s.buffer_ ++ data).length ∧
        (i + 4) % 2 ^ 64 = i + 4 ∧
        size_t_sub (s.buffer_ ++ data).length ((i + 4) % 2 ^ 64)
          = (s.buffer_ ++ data).length - (i + 4) ∧
        handle_read mh s false data =
          match (HttpRequest.parse (s.buffer_ ++ data)).get_header
              "Content-Length".toList with
          | some value =>
            match stoull value with
            | none =>
              (⟨[]⟩,
                [Op.async_write
                  (bad_request "Invalid Content-Length header".toList).convert_to_string])
            | some content_length =>
              if (s.buffer_ ++ data).length - (i + 4) < content_length
              then (⟨s.buffer_ ++ data⟩, [Op.async_read_some])
              else validate_and_answer mh (HttpRequest.parse (s.buffer_ ++ data))
          | none => validate_and_answer mh (HttpRequest.parse (s.buffer_ ++ data))) := by
  refine ⟨fun b h => ?_, ⟨by decide, by decide⟩, fun mh s data h hlen => ?_⟩
  · rw [detect_http_request_iff]
    exact Or.inl ((check_malformed_request_none_iff b).mp h)
  · have hin := (check_malformed_request_none_iff _).mp h
    have hsome := (find_isSome_iff _ _).mpr hin
    obtain ⟨i, hi⟩ := Option.isSome_iff_exists.mp hsome
    exact ⟨i, hi, handle_read_at_terminator mh s data i hlen hi⟩

theorem classification_implies_detection_witness :
    detect_http_request "GET / HTTP/1.1\r\n\r\n".toList = true ∧
    ∃ i : Nat, find (([] : Bytes) ++ "GET / HTTP/1.1\r\n\r\n".toList) CRLFCRLF = some i ∧
      i + 4 ≤ (([] : Bytes) ++ "GET / HTTP/1.1\r\n\r\n".toList).length :=
  ⟨classification_implies_detection.1 "GET / HTTP/1.1\r\n\r\n".toList (by decide),
    let ⟨i, h1, h2, _⟩ := classification_implies_detection.2.2 (fun _ => some EchoHandler)
      ⟨[]⟩ "GET / HTTP/1.1\r\n\r\n".toList (by decide) (by decide)
    ⟨i, h1, h2⟩⟩

/-- C37 (counterexample): the two routes `a` repeated `2 ^ 31` times (an echo route) and
`a` repeated `2 ^ 31 + 1` times (a static route) are both prefixes of the path `a`
repeated `2 ^ 31 + 1` times; visited in this order the loop of `match_handler` chooses
the echo route, visited in the other order it chooses the static route, because
`int max_len` does not hold a length of `2 ^ 31` or more. -/
theorem routing_order_dependence :
    match_handler (fun cfg mount => (cfg, mount))
      [(List.replicate (2 ^ 31) 'a', { type := "EchoHandler".toList }),
        (List.replicate (2 ^ 31 + 1) 'a', { type := "StaticHandler".toList })]
      (List.replicate (2 ^ 31 + 1) 'a')
      = some ({ type := "EchoHandler".toList }, List.replicate (2 ^ 31) 'a') ∧
    match_handler (fun cfg mount => (cfg, mount))
      [(List.replicate (2 ^ 31 + 1) 'a', { type := "StaticHandler".toList }),
        (List.replicate (2 ^ 31) 'a', { type := "EchoHandler".toList })]
      (List.replicate (2 ^ 31 + 1) 'a')
      = some ({ type := "StaticHandler".toList }, List.replicate (2 ^ 31 + 1) 'a') ∧
    List.Perm
      [(List.replicate (2 ^ 31) 'a', ({ type := "EchoHandler".toList } : HandlerConfig)),
        (List.replicate (2 ^ 31 + 1) 'a', { type := "StaticHandler".toList })]
      [(List.replicate (2 ^ 31 + 1) 'a', { type := "StaticHandler".toList }),
        (List.replicate (2 ^ 31) 'a', { type := "EchoHandler".toList })] ∧
    (List.replicate (2 ^ 31) 'a').length = 2 ^ 31 ∧
    (List.replicate (2 ^ 31 + 1) 'a').length = 2 ^ 31 + 1 :=
  ⟨(match_handler_wrapped _ _ _ _ _ _ (replicate_prefix_succ (2 ^ 31) 'a')
      (List.prefix_refl _) (List.length_replicate _ _) (List.length_replicate _ _)).1,
    (match_handler_wrapped _ _ _ _ _ _ (replicate_prefix_succ (2 ^ 31) 'a')
      (List.prefix_refl _) (List.length_replicate _ _) (List.length_replicate _ _)).2,
    List.Perm.swap _ _ _, List.length_replicate _ _, List.length_replicate _ _⟩

/-- C37 (amended): two route prefixes that are both prefixes of the same path and have
equal length are the same prefix, so the longest matching prefix is unique.  For a route
table whose prefixes are all shorter than `2 ^ 31` bytes the loop of `match_handler`
ends with exactly that prefix, whichever longest matching prefix is named, and for such
tables with the same entries in any order (keys unique, as in a `std::map`)
`PathRouter::match_handler` gives the same result. -/
theorem routing_has_no_ties {H : Type} (create_handler : HandlerConfig → Bytes → H) :
    (∀ (routes_ : StdMap HandlerConfig) (path p q : Bytes),
      p ∈ routes_.map Prod.fst → q ∈ routes_.map Prod.fst →
      p <+: path → q <+: path → p.length = q.length → p = q) ∧
    (∀ (routes1 routes2 : StdMap HandlerConfig) (path : Bytes),
      routes1.Perm routes2 → (routes1.map Prod.fst).Nodup →
      (∀ k ∈ routes1.map Prod.fst, k.length < 2 ^ 31) →
      match_handler create_handler routes1 path
        = match_handler create_handler routes2 path) ∧
    (∀ (routes1 routes2 : StdMap HandlerConfig) (path : Bytes),
      routes1.Perm routes2 →
      (∀ k ∈ routes1.map Prod.fst, k.length < 2 ^ 31) →
      (match_loop routes1 path).prefix_match = (match_loop routes2 path).prefix_match) ∧
    (∀ (routes_ : StdMap HandlerConfig) (path p : Bytes),
      (∀ k ∈ routes_.map Prod.fst, k.length < 2 ^ 31) →
      p ∈ routes_.map Prod.fst → p <+: path →
      (∀ q ∈ routes_.map Prod.fst, q <+: path → q.length ≤ p.length) →
      (match_loop routes_ path).prefix_match = p) := by
  refine ⟨fun _ path p q _ _ hp hq hlen => prefix_eq_of_length_eq p q path hp hq hlen,
    fun routes1 routes2 path hperm hnodup hlen => ?_,
    fun routes1 routes2 path hperm hlen => match_loop_perm routes1 routes2 path hperm hlen,
    fun routes_ path p hkeys hp hpp hmax => match_loop_longest routes_ path p hkeys hp hpp hmax⟩
  unfold match_handler
  simp only
  rw [← match_loop_perm routes1 routes2 path hperm hlen,
    mapFind_perm routes1 routes2 _ hperm hnodup]

theorem routing_has_no_ties_witness :
    match_handler (fun cfg p => (cfg, p))
        [("/api".toList, { type := "EchoHandler".toList }),
          ("/api/files".toList, { type := "StaticHandler".toList })] "/api/files/x".toList
      = match_handler (fun cfg p => (cfg, p))
        [("/api/files".toList, { type := "StaticHandler".toList }),
          ("/api".toList, { type := "EchoHandler".toList })] "/api/files/x".toList :=
  (routing_has_no_ties (fun cfg p => (cfg, p))).2.1
    [("/api".toList, { type := "EchoHandler".toList }),
      ("/api/files".toList, { type := "StaticHandler".toList })]
    [("/api/files".toList, { type := "StaticHandler".toList }),
      ("/api".toList, { type := "EchoHandler".toList })] "/api/files/x".toList
    (List.Perm.swap _ _ _) (by decide) (by decide)

/-- C35: after `set_path(p)` the base path is the part of `p` before its first `?`
whatever the prior state, but the query parameters are those of `p` added to the ones
already stored: a key of `p`'s own query string gets its new value, every other key
keeps its old value, and for `p` without `?` the map is left as it was.  Only on a
request without stored parameters does the map hold exactly the pairs of `p`.  After
`set_path("/a?x=1")`, `set_path("/b")` leaves `x = 1` in the map. -/
theorem set_path_query_state (r : HttpRequest) (p : Bytes) :
    ('?' ∉ p → (r.set_path p).base_path_ = p ∧
      (r.set_path p).get_query_params = r.get_query_params) ∧
    (∀ k, (r.set_path p).get_query_param k
      = ((HttpRequest.set_path {} p).get_query_param k).or (r.get_query_param k)) ∧
    (r.get_query_params = [] →
      (r.set_path p).get_query_params = (HttpRequest.set_path {} p).get_query_params) ∧
    (HttpRequest.set_path (HttpRequest.set_path {} "/a?x=1".toList)
        "/b".toList).get_query_params = [("x".toList, "1".toList)] ∧
    (HttpRequest.set_path (HttpRequest.set_path {} "/a?x=1".toList) "/b".toList).base_path_
      = "/b".toList ∧
    (HttpRequest.set_path (HttpRequest.set_path {} "/a?x=1".toList)
        "/b?y=2".toList).get_query_params
      = [("x".toList, "1".toList), ("y".toList, "2".toList)] := by
  refine ⟨fun hq => ?_, fun k => get_query_param_set_path_used r p k, fun hfresh => ?_,
    by decide, by decide, by decide⟩
  · have hnone := (find_singleton_none p '?').mpr hq
    constructor
    · unfold HttpRequest.set_path
      rw [parse_path_and_query_base]
      simp only [hnone]
    · unfold HttpRequest.get_query_params HttpRequest.set_path
      rw [parse_path_and_query_params]
      simp only [hnone]
  · unfold HttpRequest.get_query_params at hfresh ⊢
    unfold HttpRequest.set_path
    rw [parse_path_and_query_params, parse_path_and_query_params]
    simp only [hfresh]

theorem set_path_query_state_witness :
    (HttpRequest.set_path (HttpRequest.set_path {} "/a?x=1".toList) "/b".toList).base_path_
      = "/b".toList ∧
    (HttpRequest.set_path (HttpRequest.set_path {} "/a?x=1".toList)
        "/b".toList).get_query_params
      = (HttpRequest.set_path {} "/a?x=1".toList).get_query_params :=
  (set_path_query_state (HttpRequest.set_path {} "/a?x=1".toList) "/b".toList).1
    (by decide)

/-! ## The length header -/

/-- C34 (counterexample): the Content-Length values `12abc` and `-1` are not answered
400: `std::stoull` reads them as 12 and as `2 ^ 64 - 1`, and with fewer body bytes in
the buffer the session keeps the buffer and issues another read. -/
theorem content_length_numeric_prefix_accepted :
    handle_read (fun _ => some EchoHandler) ⟨[]⟩ false
        "POST /x HTTP/1.1\r\nContent-Length: 12abc\r\n\r\nab".toList
      = (⟨"POST /x HTTP/1.1\r\nContent-Length: 12abc\r\n\r\nab".toList⟩,
          [Op.async_read_some]) ∧
    handle_read (fun _ => some EchoHandler) ⟨[]⟩ false
        "POST /x HTTP/1.1\r\nContent-Length: -1\r\n\r\nab".toList
      = (⟨"POST /x HTTP/1.1\r\nContent-Length: -1\r\n\r\nab".toList⟩,
          [Op.async_read_some]) ∧
    stoull "12abc".toList = some 12 ∧
    stoull "-1".toList = some (2 ^ 64 - 1) := by
  refine ⟨by decide, by decide, by decide, by decide⟩

/-- C34 (amended): when the buffer contains `\r\n\r\n` and `std::stoull` throws on the
Content-Length value of the parsed request, the session answers 400 "Invalid
Content-Length header" in that step, empties the buffer and does not take the read-more
branch.  `std::stoull` throws on a value without a decimal digit after optional
whitespace and sign (`abc`, the empty value) or above `2 ^ 64 - 1`; it accepts a
numeric prefix. -/
theorem unparseable_content_length (mh : Bytes → Option RequestHandler) (s : Session)
    (data value : Bytes) (h : CRLFCRLF <:+: s.buffer_ ++ data)
    (hcl : (HttpRequest.parse (s.buffer_ ++ data)).get_header "Content-Length".toList
      = some value)
    (hthrow : stoull value = none) :
    handle_read mh s false data =
      (⟨[]⟩,
        [Op.async_write
          (bad_request "Invalid Content-Length header".toList).convert_to_string]) ∧
    handle_read mh s false data ≠ (⟨s.buffer_ ++ data⟩, [Op.async_read_some]) ∧
    (bad_request "Invalid Content-Length header".toList).status_code = 400 ∧
    stoull "abc".toList = none ∧ stoull [] = none ∧
    stoull "18446744073709551616".toList = none ∧
    stoull "18446744073709551615".toList = some (2 ^ 64 - 1) ∧
    stoull " +7 ".toList = some 7 := by
  have hstep := handle_read_framed mh s data h
  rw [hcl] at hstep
  simp only [hthrow] at hstep
  refine ⟨hstep, ?_, rfl, by decide, by decide, by decide, by decide, by decide⟩
  rw [hstep]
  intro he
  have := congrArg Prod.snd he
  simp at this

theorem unparseable_content_length_witness :
    handle_read (fun _ => some EchoHandler) ⟨[]⟩ false
        "POST /x HTTP/1.1\r\nContent-Length: abc\r\n\r\nab".toList =
      (⟨[]⟩,
        [Op.async_write
          (bad_request "Invalid Content-Length header".toList).convert_to_string]) :=
  (unparseable_content_length (fun _ => some EchoHandler) ⟨[]⟩
    "POST /x HTTP/1.1\r\nContent-Length: abc\r\n\r\nab".toList "abc".toList
    (by decide) (by decide) (by decide)).1

/-- C38: the string returned by `next_entity_id` is not an existing id of the entity
(`entity_exists` is false for it); hence a POST answered 201 stores the body under that
new id: the entity's ids are the old ones followed by the new id, and existence,
contents and listing of every other (entity, id) pair are as before. -/
theorem fresh_ids_never_collide (fs : MockFilesystem) (E : Bytes) :
    (∀ s, fs.next_entity_id E = Except.ok s →
      fs.entity_exists E s = false ∧ s ∉ fs.list_entity_ids E) ∧
    (∀ request : HttpRequest,
      (CrudHandler.handle_post fs request E).1.status_code = 201 →
      ∃ s, fs.next_entity_id E = Except.ok s ∧
        fs.entity_exists E s = false ∧
        (CrudHandler.handle_post fs request E).2.entity_exists E s = true ∧
        (CrudHandler.handle_post fs request E).2.read_entity E s
          = Except.ok request.body_ ∧
        (CrudHandler.handle_post fs request E).2.list_entity_ids E
          = fs.list_entity_ids E ++ [s] ∧
        (∀ e2 i2 : Bytes, ¬ (e2 = E ∧ i2 = s) →
          (CrudHandler.handle_post fs request E).2.entity_exists e2 i2
            = fs.entity_exists e2 i2 ∧
          (CrudHandler.handle_post fs request E).2.read_entity e2 i2
            = fs.read_entity e2 i2) ∧
        (∀ e2 : Bytes, e2 ≠ E →
          (CrudHandler.handle_post fs request E).2.list_entity_ids e2
            = fs.list_entity_ids e2)) := by
  have hfresh : ∀ s, fs.next_entity_id E = Except.ok s →
      fs.entity_exists E s = false ∧ s ∉ fs.list_entity_ids E := by
    intro s hs
    have hn := next_entity_id_fresh fs E s hs
    refine ⟨?_, hn⟩
    cases hx : fs.entity_exists E s with
    | false => rfl
    | true => exact absurd ((entity_exists_iff_mem fs E s).mp hx) hn
  refine ⟨hfresh, fun request h201 => ?_⟩
  obtain ⟨s, hs, hpost⟩ := handle_post_created fs request E h201
  obtain ⟨hex, hnot⟩ := hfresh s hs
  rw [hpost]
  simp only
  refine ⟨s, hs, hex, (write_entity_then_read fs E s request.body_).1,
    (write_entity_then_read fs E s request.body_).2, ?_, fun e2 i2 hne => ⟨?_, ?_⟩,
    fun e2 hne => ?_⟩
  · rw [list_entity_ids_write_entity, if_pos rfl, list_entity_ids_eq]
    rw [list_entity_ids_eq] at hnot
    exact keys_umSet_of_not_mem s request.body_ _ hnot
  · rw [entity_exists_eq, entity_exists_eq, lookup_write_entity, if_neg hne]
  · rw [read_entity_eq, read_entity_eq, lookup_write_entity, if_neg hne]
  · rw [list_entity_ids_write_entity, if_neg hne]

theorem fresh_ids_never_collide_witness :
    ({ data_ := [("Shoes".toList, [("1".toList, "a".toList), ("03".toList, "b".toList)])] } :
      MockFilesystem).entity_exists "Shoes".toList "2".toList = false ∧
    "2".toList ∉ ({ data_ := [("Shoes".toList,
        [("1".toList, "a".toList), ("03".toList, "b".toList)])] } :
      MockFilesystem).list_entity_ids "Shoes".toList :=
  (fresh_ids_never_collide
    { data_ := [("Shoes".toList, [("1".toList, "a".toList), ("03".toList, "b".toList)])] }
    "Shoes".toList).1 "2".toList rfl

/-! ## Path sanitization -/

/-- C40: `sanitize_path(p)` is the components of `p` that are not empty, `.` or `..`, in
their original order, joined by single `/`; it neither starts nor ends with `/`, its
own `/`-separated components are exactly those kept components (none of them empty,
`.` or `..`), it is empty when none is kept, and `sanitize_path` is idempotent. -/
theorem sanitize_path_components (p : Bytes) :
    sanitize_path p = ['/'].intercalate ((p.splitOn '/').filter keeps_part) ∧
    (∀ c ∈ (p.splitOn '/').filter keeps_part,
      c ≠ [] ∧ c ≠ ".".toList ∧ c ≠ "..".toList ∧ '/' ∉ c) ∧
    ((p.splitOn '/').filter keeps_part ≠ [] →
      (sanitize_path p).splitOn '/' = (p.splitOn '/').filter keeps_part) ∧
    ((p.splitOn '/').filter keeps_part = [] → sanitize_path p = []) ∧
    (sanitize_path p).head? ≠ some '/' ∧
    (sanitize_path p).getLast? ≠ some '/' ∧
    sanitize_path (sanitize_path p) = sanitize_path p ∧
    sanitize_path "../../etc/passwd".toList = "etc/passwd".toList ∧
    sanitize_path "//a/./b/../c/".toList = "a/b/c".toList := by
  have hparts : (getlines '/' (p.dropWhile (fun c => c == '/'))).filter keeps_part
      = (p.splitOn '/').filter keeps_part := by
    rw [filter_keeps_dropWhile p, filter_keeps_splitOn]
  have hdef : sanitize_path p = ['/'].intercalate ((p.splitOn '/').filter keeps_part) := by
    unfold sanitize_path
    simp only [hparts]
  have hgood : ∀ c ∈ (p.splitOn '/').filter keeps_part,
      c ≠ [] ∧ c ≠ ".".toList ∧ c ≠ "..".toList ∧ '/' ∉ c := by
    intro c hc
    have hk := (keeps_part_spec c).mp (List.mem_filter.mp hc).2
    refine ⟨hk.1, hk.2.1, hk.2.2, ?_⟩
    rw [← hparts] at hc
    exact not_mem_of_mem_getlines '/' _ c (List.mem_filter.mp hc).1
  have hgood2 : ∀ c ∈ (p.splitOn '/').filter keeps_part, c ≠ [] ∧ '/' ∉ c :=
    fun c hc => ⟨(hgood c hc).1, (hgood c hc).2.2.2⟩
  have hhead : (sanitize_path p).head? ≠ some '/' ∧ (sanitize_path p).getLast? ≠ some '/' := by
    rw [hdef]
    by_cases hne : (p.splitOn '/').filter keeps_part = []
    · rw [hne]
      exact ⟨by decide, by decide⟩
    · exact (intercalate_shape _ hgood2 hne).2
  have hidem : sanitize_path (sanitize_path p) = sanitize_path p := by
    have hd : (sanitize_path p).dropWhile (fun c => c == '/') = sanitize_path p := by
      cases hs : sanitize_path p with
      | nil => rfl
      | cons x xs =>
        have hx : x ≠ '/' := by
          intro hh
          apply hhead.1
          rw [hs, hh]
          rfl
        simp [List.dropWhile_cons, hx]
    have hfil : ((p.splitOn '/').filter keeps_part).filter keeps_part
        = (p.splitOn '/').filter keeps_part := by
      rw [List.filter_filter]
      simp
    have hu : ∀ s : Bytes, sanitize_path s
        = ['/'].intercalate
            ((getlines '/' (s.dropWhile (fun c => c == '/'))).filter keeps_part) :=
      fun _ => rfl
    rw [hu (sanitize_path p), hd, hdef, getlines_intercalate _ hgood2, hfil]
  refine ⟨hdef, hgood, fun hne => ?_, fun he => ?_, hhead.1, hhead.2, hidem,
    by decide, by decide⟩
  · rw [hdef]
    exact List.splitOn_intercalate _ '/' (fun l hl => (hgood l hl).2.2.2) hne
  · rw [hdef, he]
    rfl

theorem sanitize_path_components_witness :
    ("../../etc/passwd".toList.splitOn '/').filter keeps_part ≠ [] ∧
    (sanitize_path "../../etc/passwd".toList).splitOn '/'
      = ("../../etc/passwd".toList.splitOn '/').filter keeps_part :=
  ⟨by decide, (sanitize_path_components "../../etc/passwd".toList).2.2.1 (by decide)⟩

/-! ## Re-framing a serialized response -/

/-- C39: for a response built by the five-argument constructor whose version, reason
phrase, header names and header values contain no line feed, `convert_to_string()`
contains `\r\n\r\n`; the bytes after its first occurrence are exactly the message body,
and their number is the value of the Content-Length header, whose line
`Content-Length: <number>` is written before that terminator and reads back with
`std::stoull` as that number. -/
theorem response_reframing (v : Bytes) (sc : Int) (rp : Bytes) (hm : StdMap Bytes)
    (mb : Bytes) (hv : '\n' ∉ v) (hrp : '\n' ∉ rp)
    (hhm : ∀ kv ∈ hm, '\n' ∉ kv.1 ∧ '\n' ∉ kv.2) :
    ∃ i, find (HttpResponse.mk5 v sc rp hm mb).convert_to_string CRLFCRLF = some i ∧
      (HttpResponse.mk5 v sc rp hm mb).convert_to_string.drop (i + 4) = mb ∧
      ((HttpResponse.mk5 v sc rp hm mb).convert_to_string.drop (i + 4)).length = mb.length ∧
      (HttpResponse.mk5 v sc rp hm mb).get_header "Content-Length".toList
        = to_string_nat mb.length ∧
      ("Content-Length: ".toList ++ to_string_nat mb.length ++ "\r\n".toList)
        <:+: (HttpResponse.mk5 v sc rp hm mb).convert_to_string.take (i + 2) ∧
      (mb.length < 2 ^ 64 → stoull (to_string_nat mb.length) = some mb.length) := by
  have hnl : '\n' ∉ to_string_nat mb.length := fun hh =>
    absurd ((to_string_nat_spec mb.length).2.1 '\n' hh) (by decide)
  have hheaders : ∀ kv ∈ (HttpResponse.mk5 v sc rp hm mb).headers_map,
      '\n' ∉ kv.1 ∧ '\n' ∉ kv.2 := by
    intro kv hkv
    rcases mem_mapInsert_eq _ _ _ _ hkv with h | h
    · rw [h]
      exact ⟨(by decide : '\n' ∉ "Content-Length".toList), hnl⟩
    · exact hhm kv h
  have hmem : ("Content-Length".toList, to_string_nat mb.length)
      ∈ (HttpResponse.mk5 v sc rp hm mb).headers_map := mem_mapInsert_self _ _ _
  have hgood : ∀ l ∈ ((v ++ " ".toList ++ to_string_int sc ++ " ".toList ++ rp)
      :: (HttpResponse.mk5 v sc rp hm mb).headers_map.map
        (fun kv => kv.1 ++ ": ".toList ++ kv.2)), l ≠ [] ∧ '\n' ∉ l := by
    intro l hl
    rcases List.mem_cons.mp hl with h | h
    · rw [h]
      refine ⟨by simp, ?_⟩
      intro hh
      simp only [List.mem_append] at hh
      rcases hh with (((hh | hh) | hh) | hh) | hh
      · exact hv hh
      · exact absurd hh (by decide)
      · exact to_string_int_no_lf sc hh
      · exact absurd hh (by decide)
      · exact hrp hh
    · obtain ⟨kv, hkv, rfl⟩ := List.mem_map.mp h
      refine ⟨by simp, ?_⟩
      intro hh
      simp only [List.mem_append] at hh
      rcases hh with (hh | hh) | hh
      · exact (hheaders kv hkv).1 hh
      · exact absurd hh (by decide)
      · exact (hheaders kv hkv).2 hh
  obtain ⟨i, hi1, hi2⟩ := find_terminator_lines _ mb (by simp) hgood
  have hlines := convert_to_string_lines (HttpResponse.mk5 v sc rp hm mb)
  have hfields : (HttpResponse.mk5 v sc rp hm mb).version = v ∧
      (HttpResponse.mk5 v sc rp hm mb).status_code = sc ∧
      (HttpResponse.mk5 v sc rp hm mb).reason_phrase = rp ∧
      (HttpResponse.mk5 v sc rp hm mb).message_body = mb := ⟨rfl, rfl, rfl, rfl⟩
  rw [hfields.1, hfields.2.1, hfields.2.2.1, hfields.2.2.2] at hlines
  have hdrop : (HttpResponse.mk5 v sc rp hm mb).convert_to_string.drop (i + 4) = mb := by
    rw [hlines]
    have : i + 4 = (((v ++ " ".toList ++ to_string_int sc ++ " ".toList ++ rp)
        :: (HttpResponse.mk5 v sc rp hm mb).headers_map.map
          (fun kv => kv.1 ++ ": ".toList ++ kv.2)).map
        (fun l => l ++ ['\r', '\n'])).flatten.length + 2 := by omega
    rw [this, ← List.drop_drop, List.drop_left]
    rfl
  refine ⟨i, by rw [hlines]; exact hi1, hdrop, by rw [hdrop], ?_, ?_,
    fun hlt => stoull_to_string_nat _ hlt⟩
  · unfold HttpResponse.get_header
    have hmi : mapFind "Content-Length".toList (HttpResponse.mk5 v sc rp hm mb).headers_map
        = some (to_string_nat mb.length) := mapFind_mapInsert_self _ _ _
    rw [hmi]
    rfl
  · rw [hlines, hi2, List.take_left]
    apply List.infix_of_mem_flatten
    apply List.mem_map.mpr
    refine ⟨"Content-Length: ".toList ++ to_string_nat mb.length, ?_, rfl⟩
    apply List.mem_cons_of_mem
    exact List.mem_map.mpr ⟨_, hmem, rfl⟩

theorem response_reframing_witness :
    ∃ i, find (HttpResponse.mk5 "HTTP/1.1".toList 200 "OK".toList
          [("Content-Type".toList, "text/plain".toList)]
          "a\r\n\r\nb".toList).convert_to_string CRLFCRLF = some i ∧
      (HttpResponse.mk5 "HTTP/1.1".toList 200 "OK".toList
          [("Content-Type".toList, "text/plain".toList)]
          "a\r\n\r\nb".toList).convert_to_string.drop (i + 4) = "a\r\n\r\nb".toList :=
  let ⟨i, h1, h2, _⟩ := response_reframing "HTTP/1.1".toList 200 "OK".toList
    [("Content-Type".toList, "text/plain".toList)] "a\r\n\r\nb".toList
    (by decide) (by decide) (by decide)
  ⟨i, h1, h2⟩

/-! ## Loading the configuration -/

/-- C33 (counterexample): the configuration `server { location /echo { handler echo; } }`
has no `listen` directive, yet `load_from_nginx_config` on a new `ServerConfig` returns
true: the port keeps its default 8080 and the route `/echo` is stored. -/
theorem config_without_listen_loads :
    ServerConfig.load_from_nginx_config {}
        (NginxConfig.mk [NginxConfigStatement.mk ["server".toList]
          (some (NginxConfig.mk [NginxConfigStatement.mk ["location".toList, "/echo".toList]
            (some (NginxConfig.mk
              [NginxConfigStatement.mk ["handler".toList, "echo".toList] none]))]))])
      = (true, { port_ := 8080,
                 routes_ := [("/echo".toList, { type := "echo".toList, settings := [] })] }) := by
  decide

/-- C33 (amended): on a new `ServerConfig`, `load_from_nginx_config` returns false when
no top-level statement is a `server` statement with a block.  Otherwise the first such
block decides: the call returns true exactly when `std::stoi` throws on none of its
`listen` values, the resulting port (the value of the last `listen` directive, the
default 8080 when there is none) is positive, and some `location` statement with a
path and a child block gave a route; the port and the non-empty routes are then the
members afterwards.  `server { listen 8080; }` returns false. -/
theorem config_loading (config : NginxConfig) :
    ((∀ st ∈ config.statements_, ServerConfig.is_server_block st = false) →
      (ServerConfig.load_from_nginx_config {} config).1 = false) ∧
    (∀ (pre post : List NginxConfigStatement) (st : NginxConfigStatement)
        (block : NginxConfig),
      config.statements_ = pre ++ st :: post →
      (∀ s ∈ pre, ServerConfig.is_server_block s = false) →
      ServerConfig.is_server_block st = true → st.child_block_ = some block →
      ((ServerConfig.load_from_nginx_config {} config).1 = true ↔
        (∀ v ∈ ServerConfig.listen_values block.statements_, v.isSome = true) ∧
        0 < ServerConfig.last_port block.statements_ 8080 ∧
        ∃ s ∈ block.statements_,
          ServerConfig.is_location s = true ∧ s.child_block_.isSome = true) ∧
      ((ServerConfig.load_from_nginx_config {} config).1 = true →
        (ServerConfig.load_from_nginx_config {} config).2.port_
          = ServerConfig.last_port block.statements_ 8080 ∧
        (ServerConfig.load_from_nginx_config {} config).2.routes_ ≠ [])) ∧
    (∀ statements : List NginxConfigStatement,
      ServerConfig.listen_values statements = [] →
      ServerConfig.last_port statements 8080 = 8080) ∧
    (ServerConfig.load_from_nginx_config {}
        (NginxConfig.mk [NginxConfigStatement.mk ["server".toList]
          (some (NginxConfig.mk
            [NginxConfigStatement.mk ["listen".toList, "8080".toList] none]))])).1
      = false := by
  refine ⟨fun h => ?_, fun pre post st block hcfg hpre hst hb => ?_, fun S hS => ?_, by decide⟩
  · unfold ServerConfig.load_from_nginx_config
    rw [load_statements_none _ _ h]
  · have hload : ServerConfig.load_from_nginx_config {} config
        = ServerConfig.load_server_block block.statements_ {} := by
      unfold ServerConfig.load_from_nginx_config
      rw [hcfg, load_statements_first pre post st block {} hpre hst hb]
    obtain ⟨h1, h2⟩ := load_server_block_spec block.statements_ {}
    rw [hload]
    refine ⟨?_, h2⟩
    rw [h1]
    constructor
    · rintro ⟨a, b, c⟩
      refine ⟨a, b, ?_⟩
      rcases c with c | c
      · exact absurd rfl c
      · exact c
    · rintro ⟨a, b, c⟩
      exact ⟨a, b, Or.inr c⟩
  · induction S with
    | nil => rfl
    | cons s rest ih =>
      unfold ServerConfig.listen_values at hS
      by_cases hl : ServerConfig.is_listen s = true
      · rw [List.filter_cons_of_pos hl] at hS
        cases hS
      · rw [List.filter_cons_of_neg hl] at hS
        unfold ServerConfig.last_port
        rw [List.foldl_cons, if_neg hl]
        exact ih hS

theorem config_loading_witness :
    (ServerConfig.load_from_nginx_config {}
        (NginxConfig.mk [NginxConfigStatement.mk ["server".toList]
          (some (NginxConfig.mk
            [NginxConfigStatement.mk ["listen".toList, "80".toList] none,
              NginxConfigStatement.mk ["location".toList, "/echo".toList]
                (some (NginxConfig.mk []))]))])).2.port_
      = ServerConfig.last_port
          [NginxConfigStatement.mk ["listen".toList, "80".toList] none,
            NginxConfigStatement.mk ["location".toList, "/echo".toList]
              (some (NginxConfig.mk []))] 8080 ∧
    ServerConfig.last_port
        [NginxConfigStatement.mk ["listen".toList, "80".toList] none,
          NginxConfigStatement.mk ["location".toList, "/echo".toList]
            (some (NginxConfig.mk []))] 8080 = 80 :=
  ⟨(((config_loading (NginxConfig.mk [NginxConfigStatement.mk ["server".toList]
      (some (NginxConfig.mk
        [NginxConfigStatement.mk ["listen".toList, "80".toList] none,
          NginxConfigStatement.mk ["location".toList, "/echo".toList]
            (some (NginxConfig.mk []))]))])).2.1 []
      [] (NginxConfigStatement.mk ["server".toList]
        (some (NginxConfig.mk
          [NginxConfigStatement.mk ["listen".toList, "80".toList] none,
            NginxConfigStatement.mk ["location".toList, "/echo".toList]
              (some (NginxConfig.mk []))])))
      (NginxConfig.mk
        [NginxConfigStatement.mk ["listen".toList, "80".toList] none,
          NginxConfigStatement.mk ["location".toList, "/echo".toList]
            (some (NginxConfig.mk []))])
      rfl (by decide) (by decide) rfl).2 (by decide)).1, by decide⟩

/-! ## Validation and listing in the CRUD handler -/

/-- C32: `CrudHandler::handle_request` answers 400 "Invalid CRUD path" exactly when the
path, with its query string removed, does not start with the route prefix, or names no
entity after the prefix, or has a further `/` inside the id part.  Otherwise POST with
an id gives 400 "POST must not include ID in path", PUT or DELETE without an id gives
400 "PUT must include ID in path" / "DELETE must include ID in path", GET, PUT or
DELETE of a missing id gives 404 "Entity not found", and any other method gives 501;
in all of these cases the store is the one before the call. -/
theorem crud_request_validation (P : Bytes) (fs : MockFilesystem) (request : HttpRequest) :
    (CrudHandler.handle_request P fs request
        = Except.ok (typed_response 400 "Bad Request".toList "text/plain".toList
            "Invalid CRUD path".toList, fs) ↔
      invalid_crud_path P request.path_ = true) ∧
    (∀ (resp : HttpResponse) (fs2 : MockFilesystem),
      CrudHandler.handle_request P fs request = Except.ok (resp, fs2) →
      resp.status_code = 400 → resp.message_body = "Invalid CRUD path".toList →
      invalid_crud_path P request.path_ = true) ∧
    (invalid_crud_path P request.path_ = false ↔
      ∃ E id has_id,
        CrudHandler.parse_entity_and_id_from_path P request.path_ = some (E, id, has_id)) ∧
    (∀ (E id : Bytes) (has_id : Bool),
      CrudHandler.parse_entity_and_id_from_path P request.path_ = some (E, id, has_id) →
      (request.method_ = "POST".toList → has_id = true →
        CrudHandler.handle_request P fs request
          = Except.ok (typed_response 400 "Bad Request".toList "text/plain".toList
              "POST must not include ID in path".toList, fs)) ∧
      (request.method_ = "PUT".toList → has_id = false →
        CrudHandler.handle_request P fs request
          = Except.ok (typed_response 400 "Bad Request".toList "text/plain".toList
              "PUT must include ID in path".toList, fs)) ∧
      (request.method_ = "DELETE".toList → has_id = false →
        CrudHandler.handle_request P fs request
          = Except.ok (typed_response 400 "Bad Request".toList "text/plain".toList
              "DELETE must include ID in path".toList, fs)) ∧
      (request.method_ = "GET".toList ∨ request.method_ = "PUT".toList ∨
          request.method_ = "DELETE".toList →
        has_id = true → fs.entity_exists E id = false →
        CrudHandler.handle_request P fs request
          = Except.ok (typed_response 404 "Not Found".toList "text/html".toList
              "Entity not found".toList, fs)) ∧
      (request.method_ ≠ "POST".toList → request.method_ ≠ "GET".toList →
        request.method_ ≠ "PUT".toList → request.method_ ≠ "DELETE".toList →
        CrudHandler.handle_request P fs request
          = Except.ok (typed_response 501 "Not Implemented".toList "text/plain".toList
              "CRUD method not implemented yet".toList, fs))) ∧
    invalid_crud_path "/api".toList "/api".toList = true ∧
    invalid_crud_path "/api".toList "/api/Shoes/1/extra".toList = true ∧
    invalid_crud_path "/api".toList "/other/Shoes".toList = true ∧
    invalid_crud_path "/api".toList "/api/Shoes/1?name=a/b".toList = false := by
  have hvalid : ∀ (resp : HttpResponse) (fs2 : MockFilesystem),
      CrudHandler.handle_request P fs request = Except.ok (resp, fs2) →
      resp.status_code = 400 → resp.message_body = "Invalid CRUD path".toList →
      invalid_crud_path P request.path_ = true := by
    intro resp fs2 h hs hb
    rw [← parse_path_none_iff]
    cases hp : CrudHandler.parse_entity_and_id_from_path P request.path_ with
    | none => rfl
    | some x =>
      obtain ⟨E, id, has_id⟩ := x
      exact absurd ⟨hs, hb⟩ (handle_request_valid_path P fs fs2 request E id has_id resp hp h)
  refine ⟨⟨fun h => hvalid _ _ h rfl rfl, fun h => ?_⟩, hvalid, ?_,
    fun E id has_id hp => ⟨fun hm hi => ?_, fun hm hi => ?_, fun hm hi => ?_,
      fun hm hi hex => ?_, fun h1 h2 h3 h4 => ?_⟩,
    by decide, by decide, by decide, by decide⟩
  · have hp := (parse_path_none_iff P request.path_).mpr h
    unfold CrudHandler.handle_request
    rw [hp]
  · rw [← Bool.not_eq_true, ← parse_path_none_iff]
    cases hp : CrudHandler.parse_entity_and_id_from_path P request.path_ with
    | none => simp
    | some x =>
      obtain ⟨E, id, has_id⟩ := x
      simp
  · unfold CrudHandler.handle_request
    rw [hp, hm, hi]
    rfl
  · unfold CrudHandler.handle_request
    rw [hp, hm, hi]
    rfl
  · unfold CrudHandler.handle_request
    rw [hp, hm, hi]
    rfl
  · rcases hm with hm | hm | hm
    · unfold CrudHandler.handle_request
      rw [hp, hm, hi]
      simp [handle_get_cases, hex]
    · unfold CrudHandler.handle_request
      rw [hp, hm, hi]
      simp [handle_put_cases, hex]
    · unfold CrudHandler.handle_request
      rw [hp, hm, hi]
      simp [handle_delete_cases, hex]
  · unfold CrudHandler.handle_request
    rw [hp]
    simp only
    rw [if_neg h1, if_neg h2, if_neg h3, if_neg h4]

theorem crud_request_validation_witness :
    CrudHandler.handle_request "/api".toList { data_ := [] }
        { method_ := "GET".toList, path_ := "/api/Shoes/1/extra".toList }
      = Except.ok (typed_response 400 "Bad Request".toList "text/plain".toList
          "Invalid CRUD path".toList, { data_ := [] }) :=
  (crud_request_validation "/api".toList { data_ := [] }
    { method_ := "GET".toList, path_ := "/api/Shoes/1/extra".toList }).1.mpr (by decide)

/-- C31: a GET of an entity `E` without an id returns 200 with Content-Type
application/json and body `[` + the selected ids, each in double quotes and joined by
`, `, + `]`, in strictly ascending byte-wise order (`[]` when none).  The selected ids
are ids of `E`, all of them when neither `name` nor `tag` is given.  For an id whose
stored data is a JSON object with string members (no double quote in a key or value, and
no value that is itself the word `name` or `tag`), the id is selected exactly when each
filter that is given is empty or is a substring of the value of the member of that name;
so an empty filter is met also by data without the field, as for `?name=` and data
`{}`.  A value that is the word `name` misleads `extract_json_field`, which then
takes the string after the next colon: after a POST of
`{"title": "name", "x": "zzz"}` the request `?name=zzz` lists the new id although
its data has no `name` field. -/
theorem crud_list_and_filters (P : Bytes) (fs : MockFilesystem) (request : HttpRequest)
    (E id : Bytes) (hm : request.method_ = "GET".toList)
    (hparse : CrudHandler.parse_entity_and_id_from_path P request.path_
      = some (E, id, false))
    (hnodup : (fs.list_entity_ids E).Nodup) :
    (∃ ids : List Bytes,
      CrudHandler.handle_request P fs request
        = Except.ok (typed_response 200 "OK".toList "application/json".toList
            ("[".toList ++ ", ".toList.intercalate (ids.map (fun i => '"' :: i ++ ['"']))
              ++ "]".toList), fs) ∧
      ids.Pairwise (fun a b => bytesLt a b = true) ∧
      (∀ i ∈ ids, i ∈ fs.list_entity_ids E) ∧
      (request.get_query_param "name".toList = none →
        request.get_query_param "tag".toList = none →
        ∀ i, i ∈ ids ↔ i ∈ fs.list_entity_ids E) ∧
      (∀ (i sp : Bytes) (members : List (Bytes × Bytes)),
        fs.read_entity E i = Except.ok (json_object sp members) →
        (∀ c ∈ sp, c = ' ' ∨ c = '\t' ∨ c = '\n') →
        (∀ m ∈ members, '"' ∉ m.1 ∧ '"' ∉ m.2 ∧
          m.2 ≠ "name".toList ∧ m.2 ≠ "tag".toList) →
        (members.map Prod.fst).Nodup →
        (i ∈ ids ↔
          (∀ v, request.get_query_param "name".toList = some v →
            v = [] ∨ ∃ w, ("name".toList, w) ∈ members ∧ v <:+: w) ∧
          (∀ v, request.get_query_param "tag".toList = some v →
            v = [] ∨ ∃ w, ("tag".toList, w) ∈ members ∧ v <:+: w))) ∧
      (∀ i, i ∈ ids ↔ ∃ d, fs.read_entity E i = Except.ok d ∧
        (∀ v, request.get_query_param "name".toList = some v →
          v <:+: CrudHandler.extract_json_field d "name".toList) ∧
        (∀ v, request.get_query_param "tag".toList = some v →
          v <:+: CrudHandler.extract_json_field d "tag".toList))) ∧
    (∀ e i d e2 : Bytes, (fs.list_entity_ids e2).Nodup →
      ((fs.write_entity e i d).2.list_entity_ids e2).Nodup ∧
      ((fs.delete_entity e i).2.list_entity_ids e2).Nodup) ∧
    ((∃ resp, CrudHandler.handle_request "/api".toList { data_ := [] }
        { method_ := "POST".toList, path_ := "/api/file_data".toList,
          body_ := "\x7b\"title\": \"name\", \"x\": \"zzz\"\x7d".toList }
        = Except.ok (resp, { data_ := [("file_data".toList,
            [("1".toList, "\x7b\"title\": \"name\", \"x\": \"zzz\"\x7d".toList)])] })) ∧
      CrudHandler.handle_request "/api".toList
          { data_ := [("file_data".toList,
            [("1".toList, "\x7b\"title\": \"name\", \"x\": \"zzz\"\x7d".toList)])] }
          (HttpRequest.set_path { method_ := "GET".toList } "/api/file_data?name=zzz".toList)
        = Except.ok (typed_response 200 "OK".toList "application/json".toList
            "[\"1\"]".toList,
            { data_ := [("file_data".toList,
              [("1".toList, "\x7b\"title\": \"name\", \"x\": \"zzz\"\x7d".toList)])] }) ∧
      json_object " ".toList [("title".toList, "name".toList), ("x".toList, "zzz".toList)]
        = "\x7b\"title\": \"name\", \"x\": \"zzz\"\x7d".toList ∧
      "name".toList ∉ [("title".toList, "name".toList), ("x".toList, "zzz".toList)].map
        Prod.fst ∧
      CrudHandler.extract_json_field "\x7b\"title\": \"name\", \"x\": \"zzz\"\x7d".toList
        "name".toList = "zzz".toList) ∧
    (CrudHandler.handle_request "/api".toList
        { data_ := [("file_data".toList, [("1".toList, "\x7b\x7d".toList)])] }
        (HttpRequest.set_path { method_ := "GET".toList } "/api/file_data?name=".toList)
      = Except.ok (typed_response 200 "OK".toList "application/json".toList
          "[\"1\"]".toList,
          { data_ := [("file_data".toList, [("1".toList, "\x7b\x7d".toList)])] }) ∧
      json_object [] [] = "\x7b\x7d".toList) := by
  have hreq : CrudHandler.handle_request P fs request
      = Except.ok (typed_response 200 "OK".toList "application/json".toList
        (CrudHandler.json_id_array (sort_strings ((fs.list_entity_ids E).filter (fun i =>
          list_selects (request.get_query_param "name".toList)
            (request.get_query_param "tag".toList)
            ((mapFind i ((mapFind E fs.data_).getD [])).getD []))))), fs) := by
    unfold CrudHandler.handle_request
    rw [hparse, hm]
    simp [handle_list_eq]
  have hmem : ∀ i, i ∈ sort_strings ((fs.list_entity_ids E).filter (fun i =>
      list_selects (request.get_query_param "name".toList)
        (request.get_query_param "tag".toList)
        ((mapFind i ((mapFind E fs.data_).getD [])).getD []))) ↔
      ∃ d, fs.read_entity E i = Except.ok d ∧
        (∀ v, request.get_query_param "name".toList = some v →
          v <:+: CrudHandler.extract_json_field d "name".toList) ∧
        (∀ v, request.get_query_param "tag".toList = some v →
          v <:+: CrudHandler.extract_json_field d "tag".toList) := by
    intro i
    rw [(sort_strings_perm _).mem_iff, List.mem_filter, list_selects_iff,
      ← entity_exists_iff_mem, entity_exists_eq]
    constructor
    · rintro ⟨hex, hsel⟩
      obtain ⟨d, hd⟩ := Option.isSome_iff_exists.mp hex
      rw [hd] at hsel
      exact ⟨d, (read_entity_ok_iff fs E i d).mpr hd, hsel⟩
    · rintro ⟨d, hd, hsel⟩
      have hd2 := (read_entity_ok_iff fs E i d).mp hd
      rw [hd2]
      exact ⟨rfl, hsel⟩
  refine ⟨⟨_, hreq, sort_strings_strict _ (hnodup.filter _), fun i hi => ?_, fun hn ht i => ?_,
    fun i sp members hd hsp hmem2 hnd => ?_, hmem⟩, fun e i d e2 hnd => ⟨?_, ?_⟩,
    ⟨⟨_, rfl⟩, rfl, by decide, by decide, by decide⟩, rfl, by decide⟩
  · rw [(sort_strings_perm _).mem_iff] at hi
    exact (List.mem_filter.mp hi).1
  · rw [(sort_strings_perm _).mem_iff, List.mem_filter, hn, ht]
    simp [list_selects]
  · rw [hmem i]
    have hq : ∀ m ∈ members, '"' ∉ m.1 ∧ '"' ∉ m.2 := fun m h => ⟨(hmem2 m h).1, (hmem2 m h).2.1⟩
    have e1 := extract_json_field_object sp "name".toList members hsp hq (by decide)
      (by decide) (by decide) (fun m h => (hmem2 m h).2.2.1)
    have e2 := extract_json_field_object sp "tag".toList members hsp hq (by decide)
      (by decide) (by decide) (fun m h => (hmem2 m h).2.2.2)
    constructor
    · rintro ⟨d, hd2, h1, h2⟩
      rw [hd] at hd2
      have hdd : json_object sp members = d := Except.ok.inj hd2
      rw [← hdd, e1] at h1
      rw [← hdd, e2] at h2
      exact ⟨fun v hv => (field_value_contains_iff _ v members hnd).mp (h1 v hv),
        fun v hv => (field_value_contains_iff _ v members hnd).mp (h2 v hv)⟩
    · rintro ⟨h1, h2⟩
      refine ⟨_, hd, fun v hv => ?_, fun v hv => ?_⟩
      · rw [e1]
        exact (field_value_contains_iff _ v members hnd).mpr (h1 v hv)
      · rw [e2]
        exact (field_value_contains_iff _ v members hnd).mpr (h2 v hv)
  · rw [list_entity_ids_write_entity]
    by_cases he : e2 = e
    · rw [if_pos he]
      rw [list_entity_ids_eq, he] at hnd
      exact nodup_keys_umSet i d _ hnd
    · rw [if_neg he]
      exact hnd
  · by_cases hex : fs.entity_exists e i = true
    · rw [list_entity_ids_eq, data_delete_entity fs e i e2 hex]
      by_cases he : e2 = e
      · rw [if_pos he]
        rw [list_entity_ids_eq, he] at hnd
        exact nodup_keys_umErase i _ hnd
      · rw [if_neg he, ← list_entity_ids_eq]
        exact hnd
    · rw [delete_entity_eq, if_neg hex]
      exact hnd


theorem crud_list_and_filters_witness :
    ∃ ids : List Bytes,
      CrudHandler.handle_request "/api".toList
          { data_ := [("file_data".toList,
              [("2".toList, "\x7b\"name\":\"API Reference Guide\",\"tag\":\"documentation\"\x7d".toList),
                ("1".toList, "\x7b\"name\":\"d20 Project Documentation\",\"tag\":\"d20\"\x7d".toList)])] }
          (HttpRequest.set_path { method_ := "GET".toList } "/api/file_data?name=d20".toList)
        = Except.ok (typed_response 200 "OK".toList "application/json".toList
            ("[".toList ++ ", ".toList.intercalate (ids.map (fun i => '"' :: i ++ ['"']))
              ++ "]".toList),
            { data_ := [("file_data".toList,
              [("2".toList, "\x7b\"name\":\"API Reference Guide\",\"tag\":\"documentation\"\x7d".toList),
                ("1".toList, "\x7b\"name\":\"d20 Project Documentation\",\"tag\":\"d20\"\x7d".toList)])] }) ∧
      ids.Pairwise (fun a b => bytesLt a b = true) ∧
      "1".toList ∈ ids ∧ "2".toList ∉ ids :=
  let ⟨ids, h1, h2, _, _, h5, _⟩ := (crud_list_and_filters "/api".toList
    { data_ := [("file_data".toList,
        [("2".toList, "\x7b\"name\":\"API Reference Guide\",\"tag\":\"documentation\"\x7d".toList),
          ("1".toList, "\x7b\"name\":\"d20 Project Documentation\",\"tag\":\"d20\"\x7d".toList)])] }
    (HttpRequest.set_path { method_ := "GET".toList } "/api/file_data?name=d20".toList)
    "file_data".toList [] rfl (by decide) (by decide)).1
  ⟨ids, h1, h2,
    (h5 "1".toList [] [("name".toList, "d20 Project Documentation".toList),
        ("tag".toList, "d20".toList)] rfl (by decide) (by decide) (by decide)).mpr
      ⟨fun v hv => Or.inr ⟨"d20 Project Documentation".toList, by decide,
          by
            have hv2 : v = "d20".toList := (Option.some.inj hv).symm
            rw [hv2]
            exact ⟨[], " Project Documentation".toList, rfl⟩⟩,
        fun v hv => by cases hv⟩,
    fun hin => by
      have := (h5 "2".toList [] [("name".toList, "API Reference Guide".toList),
        ("tag".toList, "documentation".toList)] rfl (by decide) (by decide) (by decide)).mp hin
      rcases this.1 "d20".toList rfl with h | ⟨w, hw, hvw⟩
      · cases h
      · have hw2 : w = "API Reference Guide".toList := by
          simp at hw
          exact hw
        rw [hw2] at hvw
        exact absurd ((find_isSome_iff _ _).mpr hvw) (by decide)⟩

end D20
